import Mathlib

/-!
# Element resolution and caching in the garden examiner

A shallow embedding of

* `cmd/gex/util/element.go`: the command logic `Doit`, `DoitRaw`, `doAll` and
  `doDedicated` over the `Handler` interface, and `BasicHandler`,
* `pkg/data/cache.go`: the cache `_Cache` over the `Cacher` interface,
* `cmd/gex/util/singleelemoutput.go`: the sink `SingleElementOutput`,

followed by theorems about the resolution modes, the cache and the sink.

Conventions of the embedding.

* A Go `interface{}` element is an `Option E`: `none` is the nil interface.
* A Go `error` is its message; `nil` is `none` (or `Except.ok` for a pair result).
* A handler is an interface value whose methods may have side effects. Every
  method takes the handler state and returns the new one, and each call the
  resolution code issues is appended to a trace. Handlers read the options
  they are handed and do not write them.
* The `*context.Context` argument is derived from the options once per
  command and is part of the handler state here.
* The source behind a cache is treated the same way: `GetAll` and `Get` thread
  the source state and are recorded; `Key` is a pure projection.
* The lock of the cache is left out: every method holds it from entry to
  return, so the methods are atomic state transformers.
* Go leaves the order open in which `range` visits a map. Every iteration over
  the entry map takes the order it visits the pairs in as an argument
  (`RangeOrder`), and the theorems hold for every such order.
-/

namespace Gex

/-- A Go error, identified with its message. -/
abbrev Error := String

/-- The part of `cmdint.Options` the resolution code reads and writes: the
positional arguments and the lookup of a named option (`GetOptionValue`). -/
structure Options where
  Arguments : List String
  GetOptionValue : String → Option String

/-- One call issued on a `Handler`. -/
inductive Call (E : Type) where
  | GetDefault : Call E
  | RequireScan (n : String) : Call E
  | MatchName (e : Option E) (n : String) : Call E
  | Get (n : String) : Call E
  | Iterator : Call E
  | Match (e : Option E) : Call E
  | Add (e : Option E) : Call E
  | Close : Call E
  | Out : Call E
  deriving DecidableEq, Repr

/-- Modelled from the spec: the interface `Iterator` of package `data`, declared
outside `cache.go` and `convert.go`. It is a single-pass `HasNext`/`Next`
sequence over an in-memory sequence. A freshly produced iterator is the list of
the elements it will yield; `for i.HasNext() { e := i.Next() ... }` is
recursion on that list. -/
abbrev Iterator (E : Type) := List (Option E)

/-- The `Handler` interface of `element.go`, over a handler state `σ`. -/
structure Handler (σ E : Type) where
  GetDefault : σ → Options → Option String × σ
  RequireScan : σ → String → Bool × σ
  MatchName : σ → Option E → String → Except Error Bool × σ
  Get : σ → String → Except Error (Option E) × σ
  Iterator : σ → Options → Except Error (Iterator E) × σ
  Match : σ → Option E → Options → Except Error Bool × σ
  Add : σ → Option E → Option Error × σ
  Close : σ → Option Error × σ
  Out : σ → σ

/-- The handler state together with the calls issued so far. -/
structure World (σ E : Type) where
  st : σ
  trace : List (Call E)

/-- The world after a call `c` that left the handler in state `s`. -/
def World.after {σ E : Type} (w : World σ E) (c : Call E) (s : σ) : World σ E :=
  ⟨s, w.trace ++ [c]⟩

/-- The message of `fmt.Errorf("'%s' not found", n)` for a string `n`. -/
def notFound (n : String) : Error := "'" ++ n ++ "' not found"

/-- The loop `for i.HasNext() { e := i.Next(); ... }` of `doAll`; `none` when
the loop ran to its end. -/
def doAllLoop {σ E : Type} (h : Handler σ E) (opts : Options) :
    Iterator E → World σ E → Option Error × World σ E
  | [], w => (none, w)
  | e :: i, w =>
    let r := h.Match w.st e opts
    let w1 := w.after (Call.Match e) r.2
    match r.1 with
    | Except.error err => (some err, w1)
    | Except.ok ok =>
      if ok then
        let a := h.Add w1.st e
        let w2 := w1.after (Call.Add e) a.2
        match a.1 with
        | some err => (some err, w2)
        | none => doAllLoop h opts i w2
      else doAllLoop h opts i w1

/-- Bulk resolution, `doAll`. The result of `Close` is dropped. -/
def doAll {σ E : Type} (h : Handler σ E) (opts : Options) (w : World σ E) :
    Option Error × World σ E :=
  let r := h.Iterator w.st opts
  let w1 := w.after Call.Iterator r.2
  match r.1 with
  | Except.error err => (some err, w1)
  | Except.ok i =>
    let l := doAllLoop h opts i w1
    match l.1 with
    | some err => (some err, l.2)
    | none =>
      let w3 := l.2.after Call.Close (h.Close l.2.st).2
      let w4 := w3.after Call.Out (h.Out w3.st)
      (none, w4)

/-- The scan over the enumerated source for one pattern argument `n`
(`for i.HasNext()` inside the scan branch of `doDedicated`). The Boolean is the
local variable `found`. -/
def scanLoop {σ E : Type} (h : Handler σ E) (opts : Options) (n : String) :
    Iterator E → Bool → World σ E → Except Error Bool × World σ E
  | [], found, w => (Except.ok found, w)
  | e :: i, found, w =>
    let r := h.Match w.st e opts
    let w1 := w.after (Call.Match e) r.2
    match r.1 with
    | Except.error err => (Except.error err, w1)
    | Except.ok ok =>
      if ok then
        let r2 := h.MatchName w1.st e n
        let w2 := w1.after (Call.MatchName e n) r2.2
        match r2.1 with
        | Except.error err => (Except.error err, w2)
        | Except.ok ok2 =>
          if ok2 then
            let a := h.Add w2.st e
            let w3 := w2.after (Call.Add e) a.2
            match a.1 with
            | some err => (Except.error err, w3)
            | none => scanLoop h opts n i true w3
          else scanLoop h opts n i found w2
      else scanLoop h opts n i found w1

/-- The inner loop `for _, n := range opts.Arguments` of scan mode; `none` when
every argument was resolved. -/
def scanArgs {σ E : Type} (h : Handler σ E) (opts : Options) :
    List String → World σ E → Option Error × World σ E
  | [], w => (none, w)
  | n :: ns, w =>
    let q := h.RequireScan w.st n
    let w1 := w.after (Call.RequireScan n) q.2
    if !q.1 then
      let g := h.Get w1.st n
      let w2 := w1.after (Call.Get n) g.2
      match g.1 with
      | Except.error err => (some err, w2)
      | Except.ok none => (some (notFound n), w2)
      | Except.ok (some x) =>
        let e : Option E := some x
        let r := h.Match w2.st e opts
        let w3 := w2.after (Call.Match e) r.2
        match r.1 with
        | Except.error err => (some err, w3)
        | Except.ok ok =>
          if ok then
            let a := h.Add w3.st e
            let w4 := w3.after (Call.Add e) a.2
            match a.1 with
            | some err => (some err, w4)
            | none => scanArgs h opts ns w4
          else scanArgs h opts ns w3
    else
      let r := h.Iterator w1.st opts
      let w2 := w1.after Call.Iterator r.2
      match r.1 with
      | Except.error err => (some err, w2)
      | Except.ok i =>
        let l := scanLoop h opts n i false w2
        match l.1 with
        | Except.error err => (some err, l.2)
        | Except.ok found =>
          if !found then (some (notFound n), l.2)
          else scanArgs h opts ns l.2

/-- The last loop of `doDedicated` (direct mode); `none` when every argument
was looked up and added. -/
def directLoop {σ E : Type} (h : Handler σ E) :
    List String → World σ E → Option Error × World σ E
  | [], w => (none, w)
  | n :: ns, w =>
    let g := h.Get w.st n
    let w1 := w.after (Call.Get n) g.2
    match g.1 with
    | Except.error err => (some err, w1)
    | Except.ok e =>
      let a := h.Add w1.st e
      let w2 := w1.after (Call.Add e) a.2
      match a.1 with
      | some err => (some err, w2)
      | none => directLoop h ns w2

/-- Scan mode: the body of `if h.RequireScan(n) { ... }` in `doDedicated`. The
iterator obtained first is not read; each pattern argument asks for its own.
`Close` is not called. -/
def scanMode {σ E : Type} (h : Handler σ E) (opts : Options) (w : World σ E) :
    Option Error × World σ E :=
  let r := h.Iterator w.st opts
  let w1 := w.after Call.Iterator r.2
  match r.1 with
  | Except.error err => (some err, w1)
  | Except.ok _ =>
    let l := scanArgs h opts opts.Arguments w1
    match l.1 with
    | some err => (some err, l.2)
    | none => (none, l.2.after Call.Out (h.Out l.2.st))

/-- The first loop of `doDedicated`, from the arguments still to be tested with
`RequireScan`: the first argument that requires a scan switches the whole
resolution to scan mode; when none does, direct mode follows. -/
def doDedicatedFrom {σ E : Type} (h : Handler σ E) (opts : Options) :
    List String → World σ E → Option Error × World σ E
  | [], w =>
    let l := directLoop h opts.Arguments w
    match l.1 with
    | some err => (some err, l.2)
    | none =>
      let w2 := l.2.after Call.Close (h.Close l.2.st).2
      let w3 := w2.after Call.Out (h.Out w2.st)
      (none, w3)
  | n :: ns, w =>
    let q := h.RequireScan w.st n
    let w1 := w.after (Call.RequireScan n) q.2
    if q.1 then scanMode h opts w1
    else doDedicatedFrom h opts ns w1

/-- Dedicated resolution, `doDedicated`. -/
def doDedicated {σ E : Type} (h : Handler σ E) (opts : Options) (w : World σ E) :
    Option Error × World σ E :=
  doDedicatedFrom h opts opts.Arguments w

/-- The default substitution at the head of `Doit`: with no argument,
`GetDefault` is asked and a default becomes the argument list. -/
def substituteDefault {σ E : Type} (h : Handler σ E) (opts : Options) (w : World σ E) :
    Options × World σ E :=
  if opts.Arguments.length = 0 then
    let d := h.GetDefault w.st opts
    let w1 := w.after Call.GetDefault d.2
    match d.1 with
    | some def_ => ({ opts with Arguments := [def_] }, w1)
    | none => (opts, w1)
  else (opts, w)

/-- The command logic `Doit`. -/
def Doit {σ E : Type} (h : Handler σ E) (opts : Options) (w : World σ E) :
    Option Error × World σ E :=
  let s := substituteDefault h opts w
  if s.1.Arguments.length > 0 ∧
      (s.1.Arguments.length ≠ 1 ∨ s.1.Arguments.head? ≠ some "all") then
    doDedicated h s.1 s.2
  else
    doAll h s.1 s.2

/-- The command logic `DoitRaw`, selecting by a named option. -/
def DoitRaw {σ E : Type} (name_option : String) (h : Handler σ E) (opts : Options)
    (w : World σ E) : Option Error × World σ E :=
  let name := match opts.GetOptionValue name_option with
    | some v => v
    | none => ""
  let s : String × World σ E :=
    if name = "" then
      let d := h.GetDefault w.st opts
      let w1 := w.after Call.GetDefault d.2
      match d.1 with
      | some def_ => (def_, w1)
      | none => (name, w1)
    else (name, w)
  if s.1 = "" then (some "no element selected", s.2)
  else doDedicated h { opts with Arguments := [s.1] } s.2

/-! ## The cache of `pkg/data/cache.go` -/

/-- The `Cacher` interface over a source state `τ`: `GetAll` and `Get` reach
the underlying source and may change it, `Key` projects the key of an
element. -/
structure Cacher (τ K V : Type) where
  GetAll : τ → Except Error (Iterator V) × τ
  Get : τ → K → Except Error (Option V) × τ
  Key : Option V → K

/-- One call issued on the source of a cache. -/
inductive SourceCall (K : Type) where
  | GetAll : SourceCall K
  | Get (key : K) : SourceCall K
  deriving DecidableEq, Repr

/-- A non-nil Go `map[interface{}]interface{}`: at most one pair per key. The
list is a representation of the set of pairs; its order carries no meaning and
is not the order in which the map is iterated. The code reads a map by
`lookup` and `contains`, and iterates it through a `RangeOrder`. -/
abbrev GoMap (K V : Type) := List (K × Option V)

/-- The map read `m[key]`, which is nil for an absent key. -/
def GoMap.lookup {K V : Type} [DecidableEq K] (m : GoMap K V) (key : K) : Option V :=
  match m.find? (fun p => p.1 = key) with
  | some p => p.2
  | none => none

/-- Tells whether `key` has a pair in the map. -/
def GoMap.contains {K V : Type} [DecidableEq K] (m : GoMap K V) (key : K) : Bool :=
  m.any (fun p => p.1 = key)

/-- The map write `m[key] = v`. -/
def GoMap.insert {K V : Type} [DecidableEq K] (m : GoMap K V) (key : K) (v : Option V) :
    GoMap K V :=
  if m.contains key then m.map (fun p => if p.1 = key then (key, v) else p)
  else m ++ [(key, v)]

/-- The struct `_Cache` without its lock: the state of the source behind the
`cacher` field, the calls issued on it so far, the entry map (`none` is the
nil map) and the completeness flag. -/
structure _Cache (τ K V : Type) where
  cacher : τ
  calls : List (SourceCall K)
  entries : Option (GoMap K V)
  complete : Bool

/-- The constructor `NewCache` over a source in state `src`. -/
def NewCache {τ K V : Type} (src : τ) : _Cache τ K V :=
  { cacher := src, calls := [], entries := none, complete := false }

/-- The method `Reset`. -/
def _Cache.Reset {τ K V : Type} (this : _Cache τ K V) : _Cache τ K V :=
  { this with entries := none, complete := false }

/-- The order in which one Go statement `for k, v := range m` visits the pairs
of a map. Go leaves that order open and it may differ from one loop to the
next, so every iteration takes its own `RangeOrder`: `visit m` is the sequence
in which the pairs of `m` are visited, each pair exactly once. -/
structure RangeOrder (K V : Type) where
  visit : GoMap K V → List (K × Option V)
  visits_each_once : ∀ m, (visit m).Perm m

/-- Modelled from the spec: the struct `MapEntry{Key, Value}` of package `data`,
declared outside `cache.go`: a pair of a key and a value. -/
abbrev MapEntry (K V : Type) := K × Option V

/-- Modelled from the spec: `NewSliceIterator` of package `data`, declared
outside `cache.go`. It yields the elements of the slice from first to last. -/
def NewSliceIterator {α : Type} (entries : List α) : List α := entries

/-- The function `newMapEntryIterator`: the loop `for k, v := range m` copies
the pairs of the map into the slice `entries` in the order `range` visits them
in, and the slice is iterated; a nil map gives the empty slice. -/
def newMapEntryIterator {K V : Type} (range : RangeOrder K V) (m : Option (GoMap K V)) :
    List (MapEntry K V) :=
  match m with
  | some l => NewSliceIterator (range.visit l)
  | none => NewSliceIterator []

/-- Modelled from the spec: `NewMappedIterator` of package `data`, declared
outside `cache.go`. It yields `f e` for each element `e` of the iterator it
wraps. -/
def NewMappedIterator {α β : Type} (i : List α) (f : α → β) : List β := i.map f

/-- The loop `for elems.HasNext() { e := elems.Next(); entries[Key(e)] = e }`. -/
def fillEntries {τ K V : Type} [DecidableEq K] (c : Cacher τ K V) :
    Iterator V → GoMap K V → GoMap K V
  | [], m => m
  | e :: elems, m => fillEntries c elems (m.insert (c.Key e) e)

/-- The method `GetAll` of the cache. `range` is the order in which the
returned iterator was filled from the map. -/
def _Cache.GetAll {τ K V : Type} [DecidableEq K] (c : Cacher τ K V) (range : RangeOrder K V)
    (this : _Cache τ K V) : Except Error (Iterator V) × _Cache τ K V :=
  if this.entries.isNone ∨ !this.complete then
    let r := c.GetAll this.cacher
    let this1 : _Cache τ K V :=
      { this with cacher := r.2, calls := this.calls ++ [SourceCall.GetAll] }
    match r.1 with
    | Except.error err => (Except.error err, this1)
    | Except.ok elems =>
      let this2 : _Cache τ K V :=
        { this1 with entries := some (fillEntries c elems []), complete := true }
      (Except.ok (NewMappedIterator (newMapEntryIterator range this2.entries) (fun e => e.2)),
        this2)
  else
    (Except.ok (NewMappedIterator (newMapEntryIterator range this.entries) (fun e => e.2)), this)

/-- The tail of `Get`: `if p == nil { return nil, fmt.Errorf(...) }; return p, nil`.
`fmtS` is the text `fmt` prints for a key under the verb `%s` (the key itself
when keys are strings). -/
def getResult {τ K V : Type} (fmtS : K → String) (key : K) (p : Option V)
    (this : _Cache τ K V) : Except Error (Option V) × _Cache τ K V :=
  if p.isNone then (Except.error ("'" ++ fmtS key ++ "' not found"), this)
  else (Except.ok p, this)

/-- The method `Get` of the cache. -/
def _Cache.Get {τ K V : Type} [DecidableEq K] (c : Cacher τ K V) (fmtS : K → String)
    (this : _Cache τ K V) (key : K) : Except Error (Option V) × _Cache τ K V :=
  let p : Option V :=
    match this.entries with
    | some m => m.lookup key
    | none => none
  if p.isNone ∧ !this.complete then
    let r := c.Get this.cacher key
    let this1 : _Cache τ K V :=
      { this with cacher := r.2, calls := this.calls ++ [SourceCall.Get key] }
    match r.1 with
    | Except.error err => (Except.error err, this1)
    | Except.ok elem =>
      let m : GoMap K V :=
        match this1.entries with
        | some m => m
        | none => []
      getResult fmtS key elem { this1 with entries := some (m.insert key elem) }
  else getResult fmtS key p this

/-- The map `entries` as `Get` writes to it: the nil map is replaced by an
empty map first. -/
def mapOrEmpty {K V : Type} (m : Option (GoMap K V)) : GoMap K V :=
  match m with
  | some l => l
  | none => []

/-- The method `Iterator` of the cache: the pairs of the current map, in the
order `range` visits them in. -/
def _Cache.Iterator {τ K V : Type} (range : RangeOrder K V) (this : _Cache τ K V) :
    List (MapEntry K V) :=
  newMapEntryIterator range this.entries

/-- The method `Entries` of the cache: the values of the current map, in the
order `range` visits the pairs in. -/
def _Cache.Entries {τ K V : Type} (range : RangeOrder K V) (this : _Cache τ K V) :
    Gex.Iterator V :=
  NewMappedIterator (this.Iterator range) (fun e => e.2)

/-- The order that visits the pairs as the representing list holds them. -/
def listOrder {K V : Type} : RangeOrder K V :=
  { visit := fun m => m, visits_each_once := fun m => List.Perm.refl m }

/-- The order that visits the pairs from the last of the representing list to
the first. -/
def reverseOrder {K V : Type} : RangeOrder K V :=
  { visit := fun m => m.reverse, visits_each_once := fun m => List.reverse_perm m }

/-- One operation of the `Cache` interface, as a caller issues it. -/
inductive CacheOp (K : Type) where
  | GetAll : CacheOp K
  | Get (key : K) : CacheOp K
  | Reset : CacheOp K
  | Iterator : CacheOp K
  | Entries : CacheOp K

/-- The cache after one operation. The iterator a `GetAll` returns is dropped
here, and the cache it leaves is the same for every order the iterator could
have (`GetAll_state_order`), so one order stands for all. -/
def _Cache.apply {τ K V : Type} [DecidableEq K] (c : Cacher τ K V) (fmtS : K → String)
    (this : _Cache τ K V) : CacheOp K → _Cache τ K V
  | CacheOp.GetAll => (this.GetAll c listOrder).2
  | CacheOp.Get key => (this.Get c fmtS key).2
  | CacheOp.Reset => this.Reset
  | CacheOp.Iterator => this
  | CacheOp.Entries => this

/-- The cache after a sequence of operations. -/
def _Cache.run {τ K V : Type} [DecidableEq K] (c : Cacher τ K V) (fmtS : K → String)
    (this : _Cache τ K V) (ops : List (CacheOp K)) : _Cache τ K V :=
  ops.foldl (fun t op => t.apply c fmtS op) this

/-! ## Reading a trace -/

/-- The method a call is a call of. -/
inductive Kind where
  | GetDefault | RequireScan | MatchName | Get | Iterator | Match | Add | Close | Out
  deriving DecidableEq, Repr

/-- The method of a call. -/
def Call.kind {E : Type} : Call E → Kind
  | Call.GetDefault => Kind.GetDefault
  | Call.RequireScan _ => Kind.RequireScan
  | Call.MatchName _ _ => Kind.MatchName
  | Call.Get _ => Kind.Get
  | Call.Iterator => Kind.Iterator
  | Call.Match _ => Kind.Match
  | Call.Add _ => Kind.Add
  | Call.Close => Kind.Close
  | Call.Out => Kind.Out

/-- The number of calls of method `k` in a trace. -/
def calls {E : Type} (k : Kind) (t : List (Call E)) : Nat :=
  (t.map Call.kind).count k

/-- The elements handed to `Add`, in order: what the sink receives. -/
def adds {E : Type} : List (Call E) → List (Option E)
  | [] => []
  | Call.Add e :: t => e :: adds t
  | _ :: t => adds t

/-- The keys handed to `Get`, in order. -/
def gets {E : Type} : List (Call E) → List String
  | [] => []
  | Call.Get n :: t => n :: gets t
  | _ :: t => gets t

/-- The calls a run that started in world `w` has issued. -/
def issued {σ E : Type} (w : World σ E) (r : Option Error × World σ E) : List (Call E) :=
  r.2.trace.drop w.trace.length

/-! ## Handlers with a fixed behaviour -/

/-- Every `Iterator` call succeeds and yields the sequence `s`. -/
def IteratorYields {σ E : Type} (h : Handler σ E) (s : Iterator E) : Prop :=
  ∀ st o, (h.Iterator st o).1 = Except.ok s

/-- Every `Match` call succeeds, with the verdict `m e` on the element `e`. -/
def MatchIs {σ E : Type} (h : Handler σ E) (m : Option E → Bool) : Prop :=
  ∀ st e o, (h.Match st e o).1 = Except.ok (m e)

/-- Every `MatchName` call succeeds, with the verdict `mn e n`. -/
def MatchNameIs {σ E : Type} (h : Handler σ E) (mn : Option E → String → Bool) : Prop :=
  ∀ st e n, (h.MatchName st e n).1 = Except.ok (mn e n)

/-- Every `Add` call succeeds. -/
def AddSucceeds {σ E : Type} (h : Handler σ E) : Prop :=
  ∀ st e, (h.Add st e).1 = none

/-- The answer of `RequireScan` on `n` is `rs n`. -/
def RequireScanIs {σ E : Type} (h : Handler σ E) (rs : String → Bool) : Prop :=
  ∀ st n, (h.RequireScan st n).1 = rs n

/-- The handler has no default: `GetDefault` returns nil. -/
def NoDefault {σ E : Type} (h : Handler σ E) : Prop :=
  ∀ st o, (h.GetDefault st o).1 = none

/-- A handler without hidden state, for concrete runs: its state is the list of
the elements its sink has received, `Add` appends to it and succeeds, and the
other methods answer from fixed tables. -/
def tableHandler {E : Type} (dflt : Option String) (rs : String → Bool)
    (mn : Option E → String → Bool) (get : String → Except Error (Option E))
    (it : Except Error (Iterator E)) (m : Option E → Bool) : Handler (List (Option E)) E where
  GetDefault := fun st _ => (dflt, st)
  RequireScan := fun st n => (rs n, st)
  MatchName := fun st e n => (Except.ok (mn e n), st)
  Get := fun st n => (get n, st)
  Iterator := fun st _ => (it, st)
  Match := fun st e _ => (Except.ok (m e), st)
  Add := fun st e => (none, st ++ [e])
  Close := fun st => (none, st)
  Out := fun st => st

/-- Options with the given positional arguments and no named option. -/
def argsOnly (args : List String) : Options :=
  { Arguments := args, GetOptionValue := fun _ => none }

/-- The world before any call, with an empty sink. -/
def World.init {E : Type} : World (List (Option E)) E := ⟨[], []⟩

/-- The calls the loop of `doAll` issues over the sequence `s` when `Match`
answers `m` and nothing fails. -/
def bulkCalls {E : Type} (m : Option E → Bool) : Iterator E → List (Call E)
  | [] => []
  | e :: i =>
    if m e then Call.Match e :: Call.Add e :: bulkCalls m i
    else Call.Match e :: bulkCalls m i

/-- The call of `GetDefault` that `Doit` issues when it has no argument. -/
def defaultCalls {E : Type} (opts : Options) : List (Call E) :=
  if opts.Arguments.length = 0 then [Call.GetDefault] else []

/-! ## Concrete handlers -/

/-- A source of three elements. -/
def abc : Iterator String := [some "a", some "b", some "c"]

/-- A filter that accepts `a` and `c` only. -/
def acOnly (e : Option String) : Bool := e == some "a" || e == some "c"

/-- A handler over `abc` filtered by `acOnly`, without default; no argument
requires a scan and every point lookup finds nothing. -/
def bulkHandler : Handler (List (Option String)) String :=
  tableHandler none (fun _ => false) (fun _ _ => false) (fun _ => Except.ok none)
    (Except.ok abc) acOnly

/-! ## Concrete sources -/

/-- A source without state that answers from fixed tables; elements are
strings and are their own keys (nil has the empty key). -/
def tableCacher (all : Except Error (Iterator String))
    (get : String → Except Error (Option String)) : Cacher Unit String String where
  GetAll := fun st => (all, st)
  Get := fun st key => (get key, st)
  Key := fun e => e.getD ""

/-- A source holding `x` and `y`. -/
def xySource : Cacher Unit String String :=
  tableCacher (Except.ok [some "x", some "y"])
    (fun key => if key = "x" ∨ key = "y" then Except.ok (some key) else Except.ok none)

/-- A source that is out of reach: both of its calls fail. -/
def downSource : Cacher Unit String String :=
  tableCacher (Except.error "source down") (fun _ => Except.error "source down")

/-- A cache that has point-fetched `x` and is not complete. -/
def partialCache : _Cache Unit String String :=
  { cacher := (), calls := [SourceCall.Get "x"], entries := some [("x", some "x")],
    complete := false }

/-- The calls the direct-mode loop issues on the arguments `args` when `Get`
returns `g n` on `n` and nothing fails. -/
def directCalls {E : Type} (g : String → Option E) : List String → List (Call E)
  | [] => []
  | n :: ns => Call.Get n :: Call.Add (g n) :: directCalls g ns

/-- The point lookup of a store holding `x` and `y`: any other key fails. -/
def xyGet (n : String) : Except Error (Option String) :=
  if n = "x" ∨ n = "y" then Except.ok (some n) else Except.error (notFound n)

/-- A handler over the elements `x` and `y` in which no argument requires a
scan. -/
def xyHandler : Handler (List (Option String)) String :=
  tableHandler none (fun _ => false) (fun _ _ => false) xyGet
    (Except.ok [some "x", some "y"]) (fun _ => true)

/-- A handler whose point lookup finds nothing and reports no error: `Get`
returns a nil element with a nil error on every key. Only the argument `p*`
requires a scan. -/
def silentHandler : Handler (List (Option String)) String :=
  tableHandler none (fun n => n == "p*") (fun _ _ => false) (fun _ => Except.ok none)
    (Except.ok abc) (fun _ => true)

/-- The calls the scan of the sequence `s` for the pattern `n` issues when
`Match` answers `m`, `MatchName` answers `mn` and nothing fails. -/
def scanCalls {E : Type} (m : Option E → Bool) (mn : Option E → String → Bool) (n : String) :
    Iterator E → List (Call E)
  | [] => []
  | e :: i =>
    if m e then
      if mn e n then Call.Match e :: Call.MatchName e n :: Call.Add e :: scanCalls m mn n i
      else Call.Match e :: Call.MatchName e n :: scanCalls m mn n i
    else Call.Match e :: scanCalls m mn n i

/-- The `RequireScan` calls of the first loop of `doDedicated`, up to the first
argument that requires a scan. -/
def requireScanPrefix {E : Type} (rs : String → Bool) : List String → List (Call E)
  | [] => []
  | n :: ns => if rs n then [Call.RequireScan n] else Call.RequireScan n :: requireScanPrefix rs ns

/-- The elements one argument selects in scan mode: for a pattern, the elements
of `s` that pass `Match` and `MatchName`, in the order of `s`; for an exact
name, the element `g n` that `Get` returns if it passes `Match`. -/
def argResult {E : Type} (rs : String → Bool) (g : String → Option E) (m : Option E → Bool)
    (mn : Option E → String → Bool) (s : Iterator E) (n : String) : List (Option E) :=
  if rs n then s.filter (fun e => m e && mn e n)
  else if m (g n) then [g n] else []

/-- The calls one argument that resolves gives rise to in the argument loop of
scan mode. -/
def argCalls {E : Type} (rs : String → Bool) (g : String → Option E) (m : Option E → Bool)
    (mn : Option E → String → Bool) (s : Iterator E) (n : String) : List (Call E) :=
  if rs n then Call.RequireScan n :: Call.Iterator :: scanCalls m mn n s
  else if m (g n) then [Call.RequireScan n, Call.Get n, Call.Match (g n), Call.Add (g n)]
  else [Call.RequireScan n, Call.Get n, Call.Match (g n)]

/-- The calls of the argument loop of scan mode over arguments that all
resolve. -/
def scanModeCalls {E : Type} (rs : String → Bool) (g : String → Option E) (m : Option E → Bool)
    (mn : Option E → String → Bool) (s : Iterator E) : List String → List (Call E)
  | [] => []
  | n :: ns => argCalls rs g m mn s n ++ scanModeCalls rs g m mn s ns

/-- The elements a list of arguments selects in scan mode: the concatenation of
what each argument selects. -/
def scanModeResult {E : Type} (rs : String → Bool) (g : String → Option E) (m : Option E → Bool)
    (mn : Option E → String → Bool) (s : Iterator E) : List String → List (Option E)
  | [] => []
  | n :: ns => argResult rs g m mn s n ++ scanModeResult rs g m mn s ns

/-- A source of three named elements. -/
def pats : Iterator String := [some "pat1", some "pat2", some "other"]

/-- A name match in which the pattern `pat*` selects `pat1` and `pat2` and no
other pattern selects anything. -/
def patMatchName (e : Option String) (n : String) : Bool :=
  n == "pat*" && (e == some "pat1" || e == some "pat2")

/-- A handler over `pats` in which every argument requires a scan and `Match`
accepts every element. -/
def patHandler : Handler (List (Option String)) String :=
  tableHandler none (fun _ => true) patMatchName (fun n => Except.error (notFound n))
    (Except.ok pats) (fun _ => true)

/-- A handler over `pats` in which exactly the arguments `pat*` and `nomatch*`
require a scan, `Match` accepts every element, and the point lookup finds
`other` only. -/
def mixedHandler : Handler (List (Option String)) String :=
  tableHandler none (fun n => n == "pat*" || n == "nomatch*") patMatchName
    (fun n => if n = "other" then Except.ok (some n) else Except.error (notFound n))
    (Except.ok pats) (fun _ => true)

/-- The answers of `RequireScan` in `mixedHandler`. -/
def mixedScan (n : String) : Bool := n == "pat*" || n == "nomatch*"

/-- A handler in which no argument requires a scan and the point lookup
returns, for every key, an element of that name. -/
def echoHandler : Handler (List (Option String)) String :=
  tableHandler none (fun _ => false) (fun _ _ => false) (fun n => Except.ok (some n))
    (Except.ok abc) (fun _ => true)

/-- A handler whose default key is `x`, in which no argument requires a scan
and the point lookup returns, for every key, an element of that name. -/
def defaultXHandler : Handler (List (Option String)) String :=
  tableHandler (some "x") (fun _ => false) (fun _ _ => false) (fun n => Except.ok (some n))
    (Except.ok abc) (fun _ => true)

/-- A handler like `defaultXHandler` whose default key is `all`. -/
def defaultAllHandler : Handler (List (Option String)) String :=
  tableHandler (some "all") (fun _ => false) (fun _ _ => false) (fun n => Except.ok (some n))
    (Except.ok abc) (fun _ => true)

/-- The keys of a map, as the representing list holds them. -/
def GoMap.keys {K V : Type} (m : GoMap K V) : List K := m.map Prod.fst

/-- A source whose full enumeration holds `x` only, while its point lookup
answers every key with an element of that name. -/
def driftSource : Cacher Unit String String :=
  tableCacher (Except.ok [some "x"]) (fun key => Except.ok (some key))

/-- A source of versioned elements, keyed by their name: its enumeration
holds two elements of the same key. -/
def versionSource : Cacher Unit String (String × Nat) where
  GetAll := fun st => (Except.ok [some ("x", 1), some ("x", 2)], st)
  Get := fun st _ => (Except.ok none, st)
  Key := fun e => (e.map Prod.fst).getD ""

/-! ## The single-element sink of `singleelemoutput.go` -/

/-- The struct `SingleElementOutput`. -/
structure SingleElementOutput (E : Type) where
  Elem : Option E

/-- The constructor `NewSingleElementOutput`: `Elem` starts nil. -/
def NewSingleElementOutput {E : Type} : SingleElementOutput E := { Elem := none }

/-- The text of the error of `SingleElementOutput.Add`. -/
def multipleSelected : Error :=
  "only one element can be selected, but multiple elements selected/found"

/-- The method `Add` of the single-element sink. -/
def SingleElementOutput.Add {E : Type} (this : SingleElementOutput E) (e : Option E) :
    Option Error × SingleElementOutput E :=
  if this.Elem.isNone then (none, { Elem := e })
  else (some multipleSelected, this)

/-- The method `Out` of the single-element sink, which does nothing. -/
def SingleElementOutput.Out {E : Type} (this : SingleElementOutput E) :
    SingleElementOutput E := this

/-- A sequence of `Add` calls on a sink: the results in order and the sink
after the last call. -/
def SingleElementOutput.AddAll {E : Type} :
    SingleElementOutput E → List (Option E) → List (Option Error) × SingleElementOutput E
  | this, [] => ([], this)
  | this, e :: es =>
    let r := this.Add e
    let rest := SingleElementOutput.AddAll r.2 es
    (r.1 :: rest.1, rest.2)

/-- The handler `h` with the error value of `Close` replaced by `x`, the effect
of `Close` on the state being kept. -/
def withCloseResult {σ E : Type} (h : Handler σ E) (x : σ → Option Error) : Handler σ E :=
  { h with Close := fun st => (x st, (h.Close st).2) }

/-- The handler `bulkHandler` with a failing `Close`. -/
def closeFailsHandler : Handler (List (Option String)) String :=
  withCloseResult bulkHandler (fun _ => some "close failed")

/-- The handler `xyHandler` with a failing `Close`. -/
def xyCloseFailsHandler : Handler (List (Option String)) String :=
  withCloseResult xyHandler (fun _ => some "close failed")

/-- A filter that rejects the element `other` and accepts every other one. -/
def notOther (e : Option String) : Bool := e != some "other"

/-- The handler `mixedHandler` with `Match` replaced by `notOther`. -/
def pickyHandler : Handler (List (Option String)) String :=
  tableHandler none (fun n => n == "pat*" || n == "nomatch*") patMatchName
    (fun n => if n = "other" then Except.ok (some n) else Except.error (notFound n))
    (Except.ok pats) notOther

/-! ## Invariants of a run -/

/-- The calls of the handler `h` keep the state property `I` as long as they
succeed, and a call that fails with `err` from a state in `I` leaves a state
in `F err`. `GetDefault`, `RequireScan` and `Out` return no error, and the
error of `Close` is not looked at. -/
structure Steps {σ E : Type} (h : Handler σ E) (I : σ → Prop) (F : Error → σ → Prop) :
    Prop where
  GetDefault : ∀ st o, I st → I (h.GetDefault st o).2
  RequireScan : ∀ st n, I st → I (h.RequireScan st n).2
  MatchName_ok : ∀ st e n v, I st → (h.MatchName st e n).1 = Except.ok v →
    I (h.MatchName st e n).2
  MatchName_error : ∀ st e n err, I st → (h.MatchName st e n).1 = Except.error err →
    F err (h.MatchName st e n).2
  Get_ok : ∀ st n v, I st → (h.Get st n).1 = Except.ok v → I (h.Get st n).2
  Get_error : ∀ st n err, I st → (h.Get st n).1 = Except.error err → F err (h.Get st n).2
  Iterator_ok : ∀ st o v, I st → (h.Iterator st o).1 = Except.ok v → I (h.Iterator st o).2
  Iterator_error : ∀ st o err, I st → (h.Iterator st o).1 = Except.error err →
    F err (h.Iterator st o).2
  Match_ok : ∀ st e o v, I st → (h.Match st e o).1 = Except.ok v → I (h.Match st e o).2
  Match_error : ∀ st e o err, I st → (h.Match st e o).1 = Except.error err →
    F err (h.Match st e o).2
  Add_ok : ∀ st e, I st → (h.Add st e).1 = none → I (h.Add st e).2
  Add_error : ∀ st e err, I st → (h.Add st e).1 = some err → F err (h.Add st e).2
  Close : ∀ st, I st → I (h.Close st).2
  Out : ∀ st, I st → I (h.Out st)

/-- The end of a run: the state is in `I`, or the run returned the error `err`
of a failed call and the state is in `F err`. -/
def Outcome {σ E : Type} (I : σ → Prop) (F : Error → σ → Prop)
    (r : Option Error × World σ E) : Prop :=
  I r.2.st ∨ ∃ err, r.1 = some err ∧ F err r.2.st

/-- The end of a scan of the source, as `Outcome`. -/
def ScanOutcome {σ E : Type} (I : σ → Prop) (F : Error → σ → Prop)
    (r : Except Error Bool × World σ E) : Prop :=
  I r.2.st ∨ ∃ err, r.1 = Except.error err ∧ F err r.2.st

/-! ## Recording the outcome of each call -/

/-- The error of a call that returns a value and an error. -/
def errOf {α : Type} : Except Error α → Option Error
  | Except.ok _ => none
  | Except.error err => some err

/-- The record a handler keeps: each call made on it, with the error it
returned. -/
abbrev Record (E : Type) := List (Call E × Option Error)

/-- The handler `h` with a record: each method does what the method of `h`
does, returns what it returns, and appends the call and its error to the
record held next to the state of `h`. -/
def recorded {σ E : Type} (h : Handler σ E) : Handler (σ × Record E) E where
  GetDefault := fun st o =>
    ((h.GetDefault st.1 o).1, ((h.GetDefault st.1 o).2, st.2 ++ [(Call.GetDefault, none)]))
  RequireScan := fun st n =>
    ((h.RequireScan st.1 n).1, ((h.RequireScan st.1 n).2, st.2 ++ [(Call.RequireScan n, none)]))
  MatchName := fun st e n =>
    ((h.MatchName st.1 e n).1,
      ((h.MatchName st.1 e n).2, st.2 ++ [(Call.MatchName e n, errOf (h.MatchName st.1 e n).1)]))
  Get := fun st n =>
    ((h.Get st.1 n).1, ((h.Get st.1 n).2, st.2 ++ [(Call.Get n, errOf (h.Get st.1 n).1)]))
  Iterator := fun st o =>
    ((h.Iterator st.1 o).1,
      ((h.Iterator st.1 o).2, st.2 ++ [(Call.Iterator, errOf (h.Iterator st.1 o).1)]))
  Match := fun st e o =>
    ((h.Match st.1 e o).1,
      ((h.Match st.1 e o).2, st.2 ++ [(Call.Match e, errOf (h.Match st.1 e o).1)]))
  Add := fun st e =>
    ((h.Add st.1 e).1, ((h.Add st.1 e).2, st.2 ++ [(Call.Add e, (h.Add st.1 e).1)]))
  Close := fun st =>
    ((h.Close st.1).1, ((h.Close st.1).2, st.2 ++ [(Call.Close, (h.Close st.1).1)]))
  Out := fun st => (h.Out st.1, st.2 ++ [(Call.Out, none)])

/-- No call of the record failed, `Close` apart. -/
def Clean {E : Type} (l : Record E) : Prop :=
  ∀ x ∈ l, x.2 = none ∨ x.1.kind = Kind.Close

/-- The last call of the record failed with `err`, and no call before it
failed, `Close` apart. -/
def FailedLast {E : Type} (err : Error) (l : Record E) : Prop :=
  ∃ pre c, l = pre ++ [(c, some err)] ∧ Clean pre

/-- The world of `recorded h` that matches the world `w` of `h`, with the
record `l`. -/
def World.withRecord {σ E : Type} (w : World σ E) (l : Record E) : World (σ × Record E) E :=
  ⟨(w.st, l), w.trace⟩

/-- A handler over `abc` whose `Match` fails on the element `b`. -/
def brokenMatchHandler : Handler (List (Option String)) String where
  GetDefault := fun st _ => (none, st)
  RequireScan := fun st _ => (false, st)
  MatchName := fun st _ _ => (Except.ok false, st)
  Get := fun st _ => (Except.ok none, st)
  Iterator := fun st _ => (Except.ok abc, st)
  Match := fun st e _ =>
    (if e = some "b" then Except.error "filter failed" else Except.ok true, st)
  Add := fun st e => (none, st ++ [e])
  Close := fun st => (none, st)
  Out := fun st => st

/-! ## The basic handler of `element.go` -/

/-- Modelled from the spec: the interface `Filter` of package `util`, declared
outside `element.go`. `BasicHandler.Match` only calls its method `Match`, the
global filter predicate, which may fail; it acts on the state `α` of the
adapter that produced it. -/
structure Filter (α E : Type) where
  Match : α → Option E → Options → Except Error Bool × α

/-- The interface `HandlerAdapter`, over an adapter state `α`. -/
structure HandlerAdapter (α E : Type) where
  GetAll : α → Options → Except Error (List (Option E)) × α
  GetFilter : α → Filter α E

/-- Modelled from the spec: the interface `Output` of package `util`, declared
outside `element.go`: the output sink with `Add`, `Close` and `Out`, over a
sink state `ω`. -/
structure Output (ω E : Type) where
  Add : ω → Option E → Option Error × ω
  Close : ω → Option Error × ω
  Out : ω → ω

/-- Modelled from the spec: `IndexedAccess` and `IndexedSliceAccess` of package
`data`, declared outside `cache.go`. An indexed access wraps a finite ordered
collection for access by position; `IndexedSliceAccess` wraps a slice as it
is. -/
def IndexedSliceAccess {E : Type} (elems : List (Option E)) : List (Option E) := elems

/-- Modelled from the spec: `NewIndexedIterator` of package `data`, declared
outside `cache.go`. It builds a fresh iterator over an indexed access, starting
at its first position. -/
def NewIndexedIterator {E : Type} (a : List (Option E)) : Iterator E := a

/-- The struct `BasicHandler`: the sink state behind `output`, the field
`elems` (`none` is nil) and the adapter state behind `impl`. The last two
fields are not in the Go struct; they observe the run: `fetches` counts the
calls the handler makes to the adapter's `GetAll`, and `handedOut` lists the
iterators it has returned, each as the sequence it enumerates. -/
structure BasicHandler (ω α E : Type) where
  output : ω
  elems : Option (List (Option E))
  impl : α
  fetches : Nat
  handedOut : List (Iterator E)

/-- The method `BasicHandler.RequireScan`. -/
def BasicHandler.RequireScan {ω α E : Type} (this : BasicHandler ω α E) (_name : String) :
    Bool × BasicHandler ω α E := (false, this)

/-- The method `BasicHandler.GetDefault`. -/
def BasicHandler.GetDefault {ω α E : Type} (this : BasicHandler ω α E) (_opts : Options) :
    Option String × BasicHandler ω α E := (none, this)

/-- The method `BasicHandler.Iterator`: the adapter is asked for all elements
only while `elems` is nil. After a fetch that succeeded `elems` holds the
wrapped slice and is not nil, also when the slice is empty. -/
def BasicHandler.Iterator {ω α E : Type} (impl : HandlerAdapter α E)
    (this : BasicHandler ω α E) (opts : Options) :
    Except Error (Gex.Iterator E) × BasicHandler ω α E :=
  match this.elems with
  | none =>
    let r := impl.GetAll this.impl opts
    let this1 : BasicHandler ω α E := { this with impl := r.2, fetches := this.fetches + 1 }
    match r.1 with
    | Except.error err => (Except.error err, this1)
    | Except.ok elems =>
      let a := IndexedSliceAccess elems
      (Except.ok (NewIndexedIterator a),
        { this1 with elems := some a, handedOut := this1.handedOut ++ [NewIndexedIterator a] })
  | some a =>
    (Except.ok (NewIndexedIterator a),
      { this with handedOut := this.handedOut ++ [NewIndexedIterator a] })

/-- The method `BasicHandler.Match`. -/
def BasicHandler.Match {ω α E : Type} (impl : HandlerAdapter α E)
    (this : BasicHandler ω α E) (e : Option E) (opts : Options) :
    Except Error Bool × BasicHandler ω α E :=
  let r := (impl.GetFilter this.impl).Match this.impl e opts
  (r.1, { this with impl := r.2 })

/-- The method `BasicHandler.Add`. -/
def BasicHandler.Add {ω α E : Type} (out : Output ω E) (this : BasicHandler ω α E)
    (e : Option E) : Option Error × BasicHandler ω α E :=
  let r := out.Add this.output e
  (r.1, { this with output := r.2 })

/-- The method `BasicHandler.Close`. -/
def BasicHandler.Close {ω α E : Type} (out : Output ω E) (this : BasicHandler ω α E) :
    Option Error × BasicHandler ω α E :=
  let r := out.Close this.output
  (r.1, { this with output := r.2 })

/-- The method `BasicHandler.Out`. -/
def BasicHandler.Out {ω α E : Type} (out : Output ω E) (this : BasicHandler ω α E) :
    BasicHandler ω α E :=
  { this with output := out.Out this.output }

/-- Options without positional arguments in which the option `name` has the
value `all`. -/
def nameAllOptions : Options :=
  { Arguments := [], GetOptionValue := fun o => if o = "name" then some "all" else none }

/-! ## Traces -/

theorem issued_eq {σ E : Type} (w : World σ E) (r : Option Error × World σ E)
    (t : List (Call E)) (ht : r.2.trace = w.trace ++ t) : issued w r = t := by
  simp [issued, ht]

theorem adds_append {E : Type} (s t : List (Call E)) : adds (s ++ t) = adds s ++ adds t := by
  induction s with
  | nil => rfl
  | cons c s ih => cases c <;> simp [adds, ih]

theorem gets_append {E : Type} (s t : List (Call E)) : gets (s ++ t) = gets s ++ gets t := by
  induction s with
  | nil => rfl
  | cons c s ih => cases c <;> simp [gets, ih]

theorem calls_append {E : Type} (k : Kind) (s t : List (Call E)) :
    calls k (s ++ t) = calls k s + calls k t := by
  simp [calls]

theorem calls_cons {E : Type} (k : Kind) (c : Call E) (t : List (Call E)) :
    calls k (c :: t) = (if c.kind = k then 1 else 0) + calls k t := by
  simp only [calls, List.map_cons, List.count_cons, beq_iff_eq]
  omega

theorem calls_nil {E : Type} (k : Kind) : calls k ([] : List (Call E)) = 0 := rfl

/-! ## Bulk resolution -/

theorem adds_bulkCalls {E : Type} (m : Option E → Bool) (s : Iterator E) :
    adds (bulkCalls m s) = s.filter m := by
  induction s with
  | nil => rfl
  | cons e i ih => by_cases hme : m e = true <;> simp [bulkCalls, adds, hme, ih]

theorem calls_bulkCalls {E : Type} (m : Option E → Bool) (s : Iterator E) (k : Kind)
    (hk1 : k ≠ Kind.Match) (hk2 : k ≠ Kind.Add) : calls k (bulkCalls m s) = 0 := by
  induction s with
  | nil => rfl
  | cons e i ih =>
    by_cases hme : m e = true <;>
      simp [bulkCalls, hme, calls_cons, Call.kind, ih, Ne.symm hk1, Ne.symm hk2]

theorem doAllLoop_spec {σ E : Type} (h : Handler σ E) (opts : Options) (m : Option E → Bool)
    (hm : MatchIs h m) (ha : AddSucceeds h) (s : Iterator E) :
    ∀ w : World σ E, (doAllLoop h opts s w).1 = none ∧
      (doAllLoop h opts s w).2.trace = w.trace ++ bulkCalls m s := by
  have hm1 : ∀ st e o, (h.Match st e o).1 = Except.ok (m e) := hm
  have ha1 : ∀ st e, (h.Add st e).1 = none := ha
  induction s with
  | nil => intro w; simp [doAllLoop, bulkCalls]
  | cons e i ih =>
    intro w
    cases hme : m e
    · simp only [doAllLoop, hm1, hme, bulkCalls]
      simp [ih, World.after]
    · simp only [doAllLoop, hm1, hme, bulkCalls, ha1]
      simp [ih, World.after]

theorem doAll_spec {σ E : Type} (h : Handler σ E) (opts : Options) (m : Option E → Bool)
    (s : Iterator E) (hit : IteratorYields h s) (hm : MatchIs h m) (ha : AddSucceeds h)
    (w : World σ E) :
    (doAll h opts w).1 = none ∧
      (doAll h opts w).2.trace =
        w.trace ++ (Call.Iterator :: bulkCalls m s ++ [Call.Close, Call.Out]) := by
  have hit1 : ∀ st o, (h.Iterator st o).1 = Except.ok s := hit
  obtain ⟨h1, h2⟩ := doAllLoop_spec h opts m hm ha s
    (w.after Call.Iterator (h.Iterator w.st opts).2)
  simp only [doAll, hit1, h1]
  simp only [World.after] at h2 ⊢
  simp [h2]

theorem Doit_all {σ E : Type} (h : Handler σ E) (opts : Options) (w : World σ E)
    (hargs : opts.Arguments = ["all"]) : Doit h opts w = doAll h opts w := by
  simp [Doit, substituteDefault, hargs]

theorem Doit_empty {σ E : Type} (h : Handler σ E) (opts : Options) (w : World σ E)
    (hargs : opts.Arguments = []) (hd : (h.GetDefault w.st opts).1 = none) :
    Doit h opts w = doAll h opts (w.after Call.GetDefault (h.GetDefault w.st opts).2) := by
  simp [Doit, substituteDefault, hargs, hd]

/-- C1: bulk resolution. When `Iterator` yields the sequence `s` and `Match`
and `Add` never fail, `Doit` on the argument list `["all"]`, and `Doit` on the
empty argument list of a handler without default, return no error; the calls
issued are `GetDefault` (empty list only), `Iterator`, then for each element of
`s` in order `Match` and, when it holds, `Add`, then `Close`, then `Out`. The
sink so receives exactly the elements of `s` that `Match` accepts, in the order
of `s`; `Close` and `Out` are called once each, and `RequireScan`, `Get` and
`MatchName` are never called. -/
theorem C1_bulk_resolution {σ E : Type} (h : Handler σ E) (opts : Options) (s : Iterator E)
    (m : Option E → Bool) (w : World σ E)
    (hit : IteratorYields h s) (hm : MatchIs h m) (ha : AddSucceeds h)
    (hargs : opts.Arguments = ["all"] ∨ (opts.Arguments = [] ∧ NoDefault h)) :
    (Doit h opts w).1 = none ∧
    issued w (Doit h opts w) =
      defaultCalls opts ++ (Call.Iterator :: bulkCalls m s ++ [Call.Close, Call.Out]) ∧
    adds (issued w (Doit h opts w)) = s.filter m ∧
    calls Kind.Close (issued w (Doit h opts w)) = 1 ∧
    calls Kind.Out (issued w (Doit h opts w)) = 1 ∧
    calls Kind.RequireScan (issued w (Doit h opts w)) = 0 ∧
    calls Kind.Get (issued w (Doit h opts w)) = 0 ∧
    calls Kind.MatchName (issued w (Doit h opts w)) = 0 := by
  have key : (Doit h opts w).1 = none ∧ issued w (Doit h opts w) =
      defaultCalls opts ++ (Call.Iterator :: bulkCalls m s ++ [Call.Close, Call.Out]) := by
    rcases hargs with hall | ⟨hnil, hnd⟩
    · obtain ⟨h1, h2⟩ := doAll_spec h opts m s hit hm ha w
      rw [Doit_all h opts w hall]
      refine ⟨h1, issued_eq _ _ _ ?_⟩
      rw [h2]; simp [defaultCalls, hall]
    · obtain ⟨h1, h2⟩ := doAll_spec h opts m s hit hm ha
        (w.after Call.GetDefault (h.GetDefault w.st opts).2)
      rw [Doit_empty h opts w hnil (hnd w.st opts)]
      refine ⟨h1, issued_eq _ _ _ ?_⟩
      rw [h2]; simp [defaultCalls, hnil, World.after]
  obtain ⟨k1, k2⟩ := key
  refine ⟨k1, k2, ?_, ?_, ?_, ?_, ?_, ?_⟩ <;> rw [k2] <;>
    simp [defaultCalls, adds_append, calls_append, calls_cons, calls_nil, adds, adds_bulkCalls,
      calls_bulkCalls, Call.kind] <;>
    split <;> simp [adds, calls_cons, calls_nil, Call.kind]

theorem C1_bulk_resolution_witness :
    (IteratorYields bulkHandler abc ∧ MatchIs bulkHandler acOnly ∧ AddSucceeds bulkHandler ∧
      ((argsOnly []).Arguments = ["all"] ∨ ((argsOnly []).Arguments = [] ∧ NoDefault bulkHandler))) ∧
    (Doit bulkHandler (argsOnly []) World.init).1 = none ∧
    adds (issued World.init (Doit bulkHandler (argsOnly []) World.init)) = [some "a", some "c"] ∧
    adds (issued World.init (Doit bulkHandler (argsOnly ["all"]) World.init)) =
      [some "a", some "c"] :=
  ⟨⟨fun _ _ => rfl, fun _ _ _ => rfl, fun _ _ => rfl, Or.inr ⟨rfl, fun _ _ => rfl⟩⟩,
    (C1_bulk_resolution bulkHandler (argsOnly []) abc acOnly World.init (fun _ _ => rfl)
      (fun _ _ _ => rfl) (fun _ _ => rfl) (Or.inr ⟨rfl, fun _ _ => rfl⟩)).1,
    (C1_bulk_resolution bulkHandler (argsOnly []) abc acOnly World.init (fun _ _ => rfl)
      (fun _ _ _ => rfl) (fun _ _ => rfl) (Or.inr ⟨rfl, fun _ _ => rfl⟩)).2.2.1,
    (C1_bulk_resolution bulkHandler (argsOnly ["all"]) abc acOnly World.init (fun _ _ => rfl)
      (fun _ _ _ => rfl) (fun _ _ => rfl) (Or.inl rfl)).2.2.1⟩

/-! ## The cache -/

theorem GoMap.lookup_eq_none {K V : Type} [DecidableEq K] (m : GoMap K V) (key : K)
    (hk : m.contains key = false) : m.lookup key = none := by
  have hf : m.find? (fun p => decide (p.1 = key)) = none := by
    rw [List.find?_eq_none]
    intro p hp
    simp only [GoMap.contains, List.any_eq_false] at hk
    exact hk p hp
  simp [GoMap.lookup, hf]

theorem Get_of_complete {τ K V : Type} [DecidableEq K] (c : Cacher τ K V) (fmtS : K → String)
    (this : _Cache τ K V) (key : K) (hc : this.complete = true)
    (hk : ∀ m, this.entries = some m → m.lookup key = none) :
    this.Get c fmtS key = (Except.error ("'" ++ fmtS key ++ "' not found"), this) := by
  cases he : this.entries with
  | none => simp [_Cache.Get, he, hc, getResult]
  | some m => simp [_Cache.Get, he, hc, getResult, hk m he]

theorem GetAll_fetch_ok {τ K V : Type} [DecidableEq K] (c : Cacher τ K V)
    (range : RangeOrder K V) (this : _Cache τ K V) (elems : Iterator V)
    (hcond : this.entries = none ∨ this.complete = false)
    (hr : (c.GetAll this.cacher).1 = Except.ok elems) :
    this.GetAll c range =
      (Except.ok ((range.visit (fillEntries c elems [])).map (fun e => e.2)),
        { cacher := (c.GetAll this.cacher).2, calls := this.calls ++ [SourceCall.GetAll],
          entries := some (fillEntries c elems []), complete := true }) := by
  have hc : this.entries.isNone = true ∨ (!this.complete) = true := by
    rcases hcond with h1 | h2
    · exact Or.inl (by simp [h1])
    · exact Or.inr (by simp [h2])
  simp only [_Cache.GetAll, hc, if_true, hr, NewMappedIterator, newMapEntryIterator,
    NewSliceIterator]

theorem GetAll_fetch_error {τ K V : Type} [DecidableEq K] (c : Cacher τ K V)
    (range : RangeOrder K V) (this : _Cache τ K V) (err : Error)
    (hcond : this.entries = none ∨ this.complete = false)
    (hr : (c.GetAll this.cacher).1 = Except.error err) :
    this.GetAll c range =
      (Except.error err,
        { this with cacher := (c.GetAll this.cacher).2,
                    calls := this.calls ++ [SourceCall.GetAll] }) := by
  have hc : this.entries.isNone = true ∨ (!this.complete) = true := by
    rcases hcond with h1 | h2
    · exact Or.inl (by simp [h1])
    · exact Or.inr (by simp [h2])
  simp only [_Cache.GetAll, hc, if_true, hr]

theorem GetAll_cached {τ K V : Type} [DecidableEq K] (c : Cacher τ K V)
    (range : RangeOrder K V) (this : _Cache τ K V) (m : GoMap K V) (he : this.entries = some m)
    (hc : this.complete = true) :
    this.GetAll c range = (Except.ok ((range.visit m).map (fun e => e.2)), this) := by
  simp [_Cache.GetAll, he, hc, NewMappedIterator, newMapEntryIterator, NewSliceIterator]

theorem GetAll_state_order {τ K V : Type} [DecidableEq K] (c : Cacher τ K V)
    (range1 range2 : RangeOrder K V) (this : _Cache τ K V) :
    (this.GetAll c range1).2 = (this.GetAll c range2).2 := by
  by_cases hcond : this.entries = none ∨ this.complete = false
  · cases hr : (c.GetAll this.cacher).1 with
    | error err =>
      rw [GetAll_fetch_error c range1 this err hcond hr,
        GetAll_fetch_error c range2 this err hcond hr]
    | ok elems =>
      rw [GetAll_fetch_ok c range1 this elems hcond hr,
        GetAll_fetch_ok c range2 this elems hcond hr]
  · simp only [not_or, Bool.not_eq_false] at hcond
    obtain ⟨m, hm⟩ := Option.ne_none_iff_exists'.mp hcond.1
    rw [GetAll_cached c range1 this m hm hcond.2, GetAll_cached c range2 this m hm hcond.2]

theorem GetAll_complete_of_ok {τ K V : Type} [DecidableEq K] (c : Cacher τ K V)
    (range : RangeOrder K V) (this : _Cache τ K V) (it : Iterator V)
    (hok : (this.GetAll c range).1 = Except.ok it) :
    (this.GetAll c range).2.complete = true := by
  by_cases hcond : this.entries = none ∨ this.complete = false
  · cases hr : (c.GetAll this.cacher).1 with
    | error err => rw [GetAll_fetch_error c range this err hcond hr] at hok; cases hok
    | ok elems => rw [GetAll_fetch_ok c range this elems hcond hr]
  · simp only [not_or, Bool.not_eq_false] at hcond
    obtain ⟨m, hm⟩ := Option.ne_none_iff_exists'.mp hcond.1
    rw [GetAll_cached c range this m hm hcond.2]
    exact hcond.2

theorem apply_complete {τ K V : Type} [DecidableEq K] (c : Cacher τ K V) (fmtS : K → String)
    (this : _Cache τ K V) (op : CacheOp K) (hop : op ≠ CacheOp.Reset)
    (hc : this.complete = true) : (this.apply c fmtS op).complete = true := by
  cases op with
  | Reset => exact absurd rfl hop
  | Iterator => exact hc
  | Entries => exact hc
  | GetAll =>
    simp only [_Cache.apply]
    by_cases hcond : this.entries = none ∨ this.complete = false
    · cases hr : (c.GetAll this.cacher).1 with
      | error err => rw [GetAll_fetch_error c listOrder this err hcond hr]; exact hc
      | ok elems => rw [GetAll_fetch_ok c listOrder this elems hcond hr]
    · simp only [not_or, Bool.not_eq_false] at hcond
      obtain ⟨m, hm⟩ := Option.ne_none_iff_exists'.mp hcond.1
      rw [GetAll_cached c listOrder this m hm hcond.2]
      exact hc
  | Get key =>
    simp only [_Cache.apply, _Cache.Get, hc]
    simp only [Bool.not_true, Bool.false_eq_true, and_false, if_false, getResult]
    split <;> exact hc

theorem run_complete {τ K V : Type} [DecidableEq K] (c : Cacher τ K V) (fmtS : K → String)
    (post : List (CacheOp K)) (hpost : ∀ op ∈ post, op ≠ CacheOp.Reset) :
    ∀ this : _Cache τ K V, this.complete = true → (this.run c fmtS post).complete = true := by
  induction post with
  | nil => intro this hc; exact hc
  | cons op post ih =>
    intro this hc
    simp only [_Cache.run, List.foldl_cons]
    exact ih (fun o ho => hpost o (List.mem_cons_of_mem _ ho)) _
      (apply_complete c fmtS this op (hpost op (List.mem_cons_self _ _)) hc)

theorem run_append {τ K V : Type} [DecidableEq K] (c : Cacher τ K V) (fmtS : K → String)
    (this : _Cache τ K V) (pre post : List (CacheOp K)) :
    this.run c fmtS (pre ++ post) = (this.run c fmtS pre).run c fmtS post := by
  simp [_Cache.run]

/-- C2: cache completeness. Take the state a cache has reached from `NewCache`
by any sequence of `GetAll`, `Get`, `Reset`, `Iterator` and `Entries` calls.
If `complete` is true there, then `Get` on a key that has no pair in the
entries returns the error `'<key>' not found` and leaves the whole cache as it
was: the source is not called (the list of source calls and the source state
are unchanged), and `entries` and `complete` are unchanged. And `complete` is
true whenever some `GetAll` of the sequence succeeded and no `Reset` came after
it. -/
theorem C2_cache_completeness {τ K V : Type} [DecidableEq K] (c : Cacher τ K V)
    (fmtS : K → String) (src : τ) :
    (∀ (ops : List (CacheOp K)) (key : K),
      ((NewCache src : _Cache τ K V).run c fmtS ops).complete = true →
      (∀ m, ((NewCache src : _Cache τ K V).run c fmtS ops).entries = some m →
        m.contains key = false) →
      (((NewCache src : _Cache τ K V).run c fmtS ops).Get c fmtS key).1 =
        Except.error ("'" ++ fmtS key ++ "' not found") ∧
      (((NewCache src : _Cache τ K V).run c fmtS ops).Get c fmtS key).2.calls =
        ((NewCache src : _Cache τ K V).run c fmtS ops).calls ∧
      (((NewCache src : _Cache τ K V).run c fmtS ops).Get c fmtS key).2.cacher =
        ((NewCache src : _Cache τ K V).run c fmtS ops).cacher ∧
      (((NewCache src : _Cache τ K V).run c fmtS ops).Get c fmtS key).2.entries =
        ((NewCache src : _Cache τ K V).run c fmtS ops).entries ∧
      (((NewCache src : _Cache τ K V).run c fmtS ops).Get c fmtS key).2.complete = true) ∧
    (∀ (pre post : List (CacheOp K)) (range : RangeOrder K V) (it : Iterator V),
      (((NewCache src : _Cache τ K V).run c fmtS pre).GetAll c range).1 = Except.ok it →
      (∀ op ∈ post, op ≠ CacheOp.Reset) →
      ((NewCache src : _Cache τ K V).run c fmtS (pre ++ CacheOp.GetAll :: post)).complete
        = true) := by
  constructor
  · intro ops key hc hk
    rw [Get_of_complete c fmtS _ key hc (fun m hm => GoMap.lookup_eq_none m key (hk m hm))]
    exact ⟨rfl, rfl, rfl, rfl, hc⟩
  · intro pre post range it hok hpost
    rw [run_append]
    have hst : ((NewCache src : _Cache τ K V).run c fmtS pre).apply c fmtS CacheOp.GetAll =
        (((NewCache src : _Cache τ K V).run c fmtS pre).GetAll c range).2 :=
      GetAll_state_order c listOrder range _
    change ((((NewCache src : _Cache τ K V).run c fmtS pre).apply c fmtS CacheOp.GetAll).run
      c fmtS post).complete = true
    rw [hst]
    exact run_complete c fmtS post hpost _ (GetAll_complete_of_ok c range _ it hok)

theorem C2_cache_completeness_witness :
    (((NewCache () : _Cache Unit String String).run xySource id [CacheOp.GetAll]).complete = true ∧
      (∀ m, ((NewCache () : _Cache Unit String String).run xySource id [CacheOp.GetAll]).entries
        = some m → m.contains "z" = false) ∧
      (((NewCache () : _Cache Unit String String).run xySource id []).GetAll xySource
        reverseOrder).1 = Except.ok [some "y", some "x"] ∧
      ∀ op ∈ [CacheOp.Get "x"], op ≠ CacheOp.Reset) ∧
    (((NewCache () : _Cache Unit String String).run xySource id [CacheOp.GetAll]).Get
      xySource id "z").1 = Except.error "'z' not found" ∧
    (((NewCache () : _Cache Unit String String).run xySource id [CacheOp.GetAll]).Get
      xySource id "z").2.calls = [SourceCall.GetAll] ∧
    ((NewCache () : _Cache Unit String String).run xySource id
      ([] ++ CacheOp.GetAll :: [CacheOp.Get "x"])).complete = true :=
  ⟨⟨rfl, fun m hm => by cases hm; decide, rfl, by simp⟩,
    ((C2_cache_completeness xySource id ()).1 [CacheOp.GetAll] "z" rfl
      (fun m hm => by cases hm; decide)).1,
    ((C2_cache_completeness xySource id ()).1 [CacheOp.GetAll] "z" rfl
      (fun m hm => by cases hm; decide)).2.1,
    (C2_cache_completeness xySource id ()).2 [] [CacheOp.Get "x"] reverseOrder
      [some "y", some "x"] rfl (by simp)⟩

/-- C6: cache idempotence. Let the source's `GetAll` succeed, and let two
`GetAll` calls on the cache follow one another, the iterator of each visiting
the map in an order of its own. From every cache state the second call
issues no source call and leaves the whole cache as the first left it
(`entries`, `complete`, the source and the list of source calls), both calls
succeed, and the two iterators yield the same elements: the same ones the same
number of times, though not always in the same order. On a cache that is not
yet fully loaded (fresh, reset or holding point-fetched entries only) the two
calls together issue exactly one source `GetAll`, issued by the first, and the
elements yielded are the values of the map built from the source's sequence;
on a fully loaded cache neither call issues one. -/
theorem C6_cache_idempotence {τ K V : Type} [DecidableEq K] (c : Cacher τ K V)
    (range1 range2 : RangeOrder K V) (this : _Cache τ K V) (elems : Iterator V)
    (hsrc : (c.GetAll this.cacher).1 = Except.ok elems) :
    ((this.GetAll c range1).2.GetAll c range2).2.calls = (this.GetAll c range1).2.calls ∧
    ((this.GetAll c range1).2.GetAll c range2).2.entries = (this.GetAll c range1).2.entries ∧
    ((this.GetAll c range1).2.GetAll c range2).2.complete =
      (this.GetAll c range1).2.complete ∧
    ((this.GetAll c range1).2.GetAll c range2).2.cacher = (this.GetAll c range1).2.cacher ∧
    (this.GetAll c range1).2.complete = true ∧
    (∃ it1 it2 : Iterator V,
      (this.GetAll c range1).1 = Except.ok it1 ∧
      ((this.GetAll c range1).2.GetAll c range2).1 = Except.ok it2 ∧
      it1.Perm it2 ∧ (∀ e, e ∈ it1 ↔ e ∈ it2) ∧ it1.length = it2.length ∧
      (this.entries = none ∨ this.complete = false →
        it1.Perm ((fillEntries c elems []).map (fun p => p.2)))) ∧
    (this.entries = none ∨ this.complete = false →
      (this.GetAll c range1).2.calls = this.calls ++ [SourceCall.GetAll] ∧
      ((this.GetAll c range1).2.GetAll c range2).2.calls =
        this.calls ++ [SourceCall.GetAll] ∧
      (this.GetAll c range1).2.entries = some (fillEntries c elems [])) ∧
    (¬ (this.entries = none ∨ this.complete = false) →
      (this.GetAll c range1).2.calls = this.calls ∧
      ((this.GetAll c range1).2.GetAll c range2).2.calls = this.calls) := by
  have hperm : ∀ m : GoMap K V,
      ((range1.visit m).map (fun p => p.2)).Perm ((range2.visit m).map (fun p => p.2)) :=
    fun m => ((range1.visits_each_once m).trans (range2.visits_each_once m).symm).map _
  by_cases hfresh : this.entries = none ∨ this.complete = false
  · rw [GetAll_fetch_ok c range1 this elems hfresh hsrc]
    rw [GetAll_cached c range2 _ (fillEntries c elems []) rfl rfl]
    refine ⟨rfl, rfl, rfl, rfl, rfl, ⟨_, _, rfl, rfl, hperm _, fun e => (hperm _).mem_iff,
      (hperm _).length_eq, fun _ => (range1.visits_each_once _).map _⟩,
      fun _ => ⟨rfl, rfl, rfl⟩, fun hn => absurd hfresh hn⟩
  · have hcond := hfresh
    simp only [not_or, Bool.not_eq_false] at hcond
    obtain ⟨m, hm⟩ := Option.ne_none_iff_exists'.mp hcond.1
    rw [GetAll_cached c range1 this m hm hcond.2]
    rw [GetAll_cached c range2 this m hm hcond.2]
    refine ⟨rfl, rfl, rfl, rfl, hcond.2, ⟨_, _, rfl, rfl, hperm _, fun e => (hperm _).mem_iff,
      (hperm _).length_eq, fun hf => absurd hf hfresh⟩,
      fun hf => absurd hf hfresh, fun _ => ⟨rfl, rfl⟩⟩

theorem C6_cache_idempotence_witness :
    (xySource.GetAll (NewCache () : _Cache Unit String String).cacher).1 =
      Except.ok [some "x", some "y"] ∧
    ((NewCache () : _Cache Unit String String).GetAll xySource listOrder).1 =
      Except.ok [some "x", some "y"] ∧
    (((NewCache () : _Cache Unit String String).GetAll xySource listOrder).2.GetAll xySource
      reverseOrder).1 = Except.ok [some "y", some "x"] ∧
    (((NewCache () : _Cache Unit String String).GetAll xySource listOrder).2.GetAll xySource
      reverseOrder).2.calls = [SourceCall.GetAll] ∧
    (((NewCache () : _Cache Unit String String).GetAll xySource listOrder).2.GetAll xySource
      reverseOrder).2.entries =
        ((NewCache () : _Cache Unit String String).GetAll xySource listOrder).2.entries :=
  ⟨rfl, rfl, rfl,
    ((C6_cache_idempotence xySource listOrder reverseOrder (NewCache ()) [some "x", some "y"]
      rfl).2.2.2.2.2.2.1 (Or.inl rfl)).2.1,
    (C6_cache_idempotence xySource listOrder reverseOrder (NewCache ()) [some "x", some "y"]
      rfl).2.1⟩

theorem Get_cached {τ K V : Type} [DecidableEq K] (c : Cacher τ K V) (fmtS : K → String)
    (this : _Cache τ K V) (key : K) (m : GoMap K V) (v : V) (he : this.entries = some m)
    (hv : m.lookup key = some v) : this.Get c fmtS key = (Except.ok (some v), this) := by
  simp [_Cache.Get, he, hv, getResult]

theorem Get_fetch_error {τ K V : Type} [DecidableEq K] (c : Cacher τ K V) (fmtS : K → String)
    (this : _Cache τ K V) (key : K) (err : Error)
    (hk : ∀ m, this.entries = some m → m.lookup key = none) (hc : this.complete = false)
    (hr : (c.Get this.cacher key).1 = Except.error err) :
    this.Get c fmtS key =
      (Except.error err,
        { this with cacher := (c.Get this.cacher key).2,
                    calls := this.calls ++ [SourceCall.Get key] }) := by
  cases he : this.entries with
  | none => simp [_Cache.Get, he, hc, hr]
  | some m => simp [_Cache.Get, he, hc, hr, hk m he]

theorem Get_fetch_ok {τ K V : Type} [DecidableEq K] (c : Cacher τ K V) (fmtS : K → String)
    (this : _Cache τ K V) (key : K) (elem : Option V)
    (hk : ∀ m, this.entries = some m → m.lookup key = none) (hc : this.complete = false)
    (hr : (c.Get this.cacher key).1 = Except.ok elem) :
    this.Get c fmtS key =
      getResult fmtS key elem
        { cacher := (c.Get this.cacher key).2, calls := this.calls ++ [SourceCall.Get key],
          entries := some (GoMap.insert (mapOrEmpty this.entries) key elem),
          complete := false } := by
  cases he : this.entries with
  | none => simp [_Cache.Get, he, hc, hr, mapOrEmpty]
  | some m => simp [_Cache.Get, he, hc, hr, hk m he, mapOrEmpty]

/-- C8: cache failure atomicity. From every cache state, when the source's
`GetAll` fails with `err`, `Cache.GetAll` leaves `entries` and `complete` as
they were, and, whenever the cache consults the source (it is not fully
loaded), it issues that one call and returns `err` itself; so `complete` stays
false and point-fetched entries are kept. Likewise when the source's `Get`
fails with `err` on `key`: `Cache.Get` leaves `entries` and `complete` as they
were and, whenever it consults the source (the key has no cached element and
the cache is not complete), returns `err` itself. -/
theorem C8_cache_failure_atomicity {τ K V : Type} [DecidableEq K] (c : Cacher τ K V)
    (fmtS : K → String) (this : _Cache τ K V) (err : Error) :
    ((c.GetAll this.cacher).1 = Except.error err → ∀ range : RangeOrder K V,
      (this.GetAll c range).2.entries = this.entries ∧
      (this.GetAll c range).2.complete = this.complete ∧
      (this.entries = none ∨ this.complete = false →
        (this.GetAll c range).1 = Except.error err ∧
        (this.GetAll c range).2.calls = this.calls ++ [SourceCall.GetAll])) ∧
    (∀ key, (c.Get this.cacher key).1 = Except.error err →
      (this.Get c fmtS key).2.entries = this.entries ∧
      (this.Get c fmtS key).2.complete = this.complete ∧
      ((∀ m, this.entries = some m → m.lookup key = none) ∧ this.complete = false →
        (this.Get c fmtS key).1 = Except.error err ∧
        (this.Get c fmtS key).2.calls = this.calls ++ [SourceCall.Get key])) := by
  constructor
  · intro hr range
    by_cases hcond : this.entries = none ∨ this.complete = false
    · rw [GetAll_fetch_error c range this err hcond hr]
      exact ⟨rfl, rfl, fun _ => ⟨rfl, rfl⟩⟩
    · refine ⟨?_, ?_, fun hc => absurd hc hcond⟩ <;>
      · simp only [not_or, Bool.not_eq_false] at hcond
        obtain ⟨m, hm⟩ := Option.ne_none_iff_exists'.mp hcond.1
        rw [GetAll_cached c range this m hm hcond.2]
  · intro key hr
    by_cases hk : ∀ m, this.entries = some m → m.lookup key = none
    · cases hc : this.complete with
      | false =>
        rw [Get_fetch_error c fmtS this key err hk hc hr]
        exact ⟨rfl, hc, fun _ => ⟨rfl, rfl⟩⟩
      | true =>
        rw [Get_of_complete c fmtS this key hc hk]
        exact ⟨rfl, hc, fun hh => by simp at hh⟩
    · have hk2 := hk
      simp only [not_forall] at hk2
      obtain ⟨m, hm, hne⟩ := hk2
      obtain ⟨v, hv⟩ := Option.ne_none_iff_exists'.mp hne
      rw [Get_cached c fmtS this key m v hm hv]
      exact ⟨rfl, rfl, fun hh => absurd hh.1 hk⟩

theorem C8_cache_failure_atomicity_witness :
    ((downSource.GetAll partialCache.cacher).1 = Except.error "source down" ∧
      (partialCache.entries = none ∨ partialCache.complete = false) ∧
      (downSource.Get partialCache.cacher "q").1 = Except.error "source down" ∧
      ((∀ m, partialCache.entries = some m → m.lookup "q" = none) ∧
        partialCache.complete = false)) ∧
    ((partialCache.GetAll downSource reverseOrder).2.entries = some [("x", some "x")] ∧
      (partialCache.GetAll downSource reverseOrder).2.complete = false ∧
      (partialCache.GetAll downSource reverseOrder).1 = Except.error "source down") ∧
    ((partialCache.Get downSource id "q").2.entries = some [("x", some "x")] ∧
      (partialCache.Get downSource id "q").2.complete = false ∧
      (partialCache.Get downSource id "q").1 = Except.error "source down") :=
  ⟨⟨rfl, Or.inr rfl, rfl, fun m hm => by cases hm; decide, rfl⟩,
    ⟨((C8_cache_failure_atomicity downSource id partialCache "source down").1 rfl
        reverseOrder).1,
      ((C8_cache_failure_atomicity downSource id partialCache "source down").1 rfl
        reverseOrder).2.1,
      (((C8_cache_failure_atomicity downSource id partialCache "source down").1 rfl
        reverseOrder).2.2 (Or.inr rfl)).1⟩,
    ⟨((C8_cache_failure_atomicity downSource id partialCache "source down").2 "q" rfl).1,
      ((C8_cache_failure_atomicity downSource id partialCache "source down").2 "q" rfl).2.1,
      (((C8_cache_failure_atomicity downSource id partialCache "source down").2 "q" rfl).2.2
        ⟨fun m hm => by cases hm; decide, rfl⟩).1⟩⟩

/-! ## Dedicated resolution, direct mode -/

theorem Doit_dedicated {σ E : Type} (h : Handler σ E) (opts : Options) (w : World σ E)
    (hne : opts.Arguments ≠ []) (hall : opts.Arguments ≠ ["all"]) :
    Doit h opts w = doDedicated h opts w := by
  have hlen : opts.Arguments.length ≠ 0 := by
    simpa [List.length_eq_zero] using hne
  have hs : substituteDefault h opts w = (opts, w) := by simp [substituteDefault, hlen]
  simp only [Doit, hs]
  rw [if_pos]
  refine ⟨Nat.pos_of_ne_zero hlen, ?_⟩
  by_cases h1 : opts.Arguments.length = 1
  · right
    obtain ⟨a, ha⟩ := List.length_eq_one.mp h1
    rw [ha] at hall ⊢
    simpa using hall
  · exact Or.inl h1

theorem gets_directCalls {E : Type} (g : String → Option E) (args : List String) :
    gets (directCalls g args) = args := by
  induction args with
  | nil => rfl
  | cons n ns ih => simp [directCalls, gets, ih]

theorem adds_directCalls {E : Type} (g : String → Option E) (args : List String) :
    adds (directCalls g args) = args.map g := by
  induction args with
  | nil => rfl
  | cons n ns ih => simp [directCalls, adds, ih]

theorem calls_directCalls {E : Type} (g : String → Option E) (args : List String) (k : Kind)
    (hk1 : k ≠ Kind.Get) (hk2 : k ≠ Kind.Add) : calls k (directCalls g args) = 0 := by
  induction args with
  | nil => rfl
  | cons n ns ih => simp [directCalls, calls_cons, Call.kind, ih, Ne.symm hk1, Ne.symm hk2]

theorem adds_requireScan {E : Type} (args : List String) :
    adds (args.map (Call.RequireScan : String → Call E)) = [] := by
  induction args with
  | nil => rfl
  | cons n ns ih => simp [adds, ih]

theorem gets_requireScan {E : Type} (args : List String) :
    gets (args.map (Call.RequireScan : String → Call E)) = [] := by
  induction args with
  | nil => rfl
  | cons n ns ih => simp [gets, ih]

theorem calls_requireScan {E : Type} (args : List String) (k : Kind)
    (hk : k ≠ Kind.RequireScan) :
    calls k (args.map (Call.RequireScan : String → Call E)) = 0 := by
  induction args with
  | nil => rfl
  | cons n ns ih => simp [calls_cons, Call.kind, ih, Ne.symm hk]

theorem directLoop_ok {σ E : Type} (h : Handler σ E) (g : String → Option E)
    (ha : AddSucceeds h) (args : List String)
    (hget : ∀ st n, n ∈ args → (h.Get st n).1 = Except.ok (g n)) :
    ∀ w : World σ E, (directLoop h args w).1 = none ∧
      (directLoop h args w).2.trace = w.trace ++ directCalls g args := by
  have ha1 : ∀ st e, (h.Add st e).1 = none := ha
  induction args with
  | nil => intro w; simp [directLoop, directCalls]
  | cons n ns ih =>
    intro w
    have ih1 := ih (fun st k hk => hget st k (List.mem_cons_of_mem _ hk))
    simp only [directLoop, hget w.st n (List.mem_cons_self _ _), ha1, directCalls]
    simp [ih1, World.after]

theorem directLoop_fail {σ E : Type} (h : Handler σ E) (g : String → Option E)
    (ha : AddSucceeds h) (pre : List String) (n : String) (post : List String) (err : Error)
    (hget : ∀ st k, k ∈ pre → (h.Get st k).1 = Except.ok (g k))
    (hfail : ∀ st, (h.Get st n).1 = Except.error err) :
    ∀ w : World σ E, (directLoop h (pre ++ n :: post) w).1 = some err ∧
      (directLoop h (pre ++ n :: post) w).2.trace =
        w.trace ++ (directCalls g pre ++ [Call.Get n]) := by
  have ha1 : ∀ st e, (h.Add st e).1 = none := ha
  induction pre with
  | nil => intro w; simp [directLoop, directCalls, hfail, World.after]
  | cons k ks ih =>
    intro w
    have ih1 := ih (fun st k hk => hget st k (List.mem_cons_of_mem _ hk))
    simp only [List.cons_append, directLoop, hget w.st k (List.mem_cons_self _ _), ha1,
      directCalls]
    simp [ih1, World.after]

theorem doDedicatedFrom_noscan {σ E : Type} (h : Handler σ E) (opts : Options)
    (ns : List String) (hrs : ∀ st n, n ∈ ns → (h.RequireScan st n).1 = false) :
    ∀ w : World σ E, ∃ w1 : World σ E,
      w1.trace = w.trace ++ ns.map Call.RequireScan ∧
      doDedicatedFrom h opts ns w = doDedicatedFrom h opts [] w1 := by
  induction ns with
  | nil => intro w; exact ⟨w, by simp, rfl⟩
  | cons n ns ih =>
    intro w
    obtain ⟨w1, h1, h2⟩ := ih (fun st k hk => hrs st k (List.mem_cons_of_mem _ hk))
      (w.after (Call.RequireScan n) (h.RequireScan w.st n).2)
    refine ⟨w1, ?_, ?_⟩
    · rw [h1]; simp [World.after]
    · rw [← h2]
      conv_lhs => unfold doDedicatedFrom
      simp [hrs w.st n (List.mem_cons_self _ _)]

theorem doDedicated_direct_ok {σ E : Type} (h : Handler σ E) (opts : Options)
    (g : String → Option E) (w : World σ E)
    (hrs : ∀ st n, n ∈ opts.Arguments → (h.RequireScan st n).1 = false)
    (ha : AddSucceeds h)
    (hget : ∀ st n, n ∈ opts.Arguments → (h.Get st n).1 = Except.ok (g n)) :
    (doDedicated h opts w).1 = none ∧
      (doDedicated h opts w).2.trace =
        w.trace ++ (opts.Arguments.map Call.RequireScan ++ directCalls g opts.Arguments ++
          [Call.Close, Call.Out]) := by
  obtain ⟨w1, h1, h2⟩ := doDedicatedFrom_noscan h opts opts.Arguments hrs w
  obtain ⟨h3, h4⟩ := directLoop_ok h g ha opts.Arguments hget w1
  rw [doDedicated, h2]
  simp only [doDedicatedFrom, h3]
  simp [World.after, h4, h1]

theorem doDedicated_direct_fail {σ E : Type} (h : Handler σ E) (opts : Options)
    (g : String → Option E) (w : World σ E) (pre : List String) (n : String)
    (post : List String) (err : Error)
    (hargs : opts.Arguments = pre ++ n :: post)
    (hrs : ∀ st n, n ∈ opts.Arguments → (h.RequireScan st n).1 = false)
    (ha : AddSucceeds h)
    (hget : ∀ st k, k ∈ pre → (h.Get st k).1 = Except.ok (g k))
    (hfail : ∀ st, (h.Get st n).1 = Except.error err) :
    (doDedicated h opts w).1 = some err ∧
      (doDedicated h opts w).2.trace =
        w.trace ++ (opts.Arguments.map Call.RequireScan ++ directCalls g pre ++
          [Call.Get n]) := by
  obtain ⟨w1, h1, h2⟩ := doDedicatedFrom_noscan h opts opts.Arguments hrs w
  obtain ⟨h3, h4⟩ := directLoop_fail h g ha pre n post err hget hfail w1
  rw [doDedicated, h2]
  simp only [doDedicatedFrom]
  rw [hargs] at h1 ⊢
  simp only [h3]
  simp [h4, h1]

/-- C3: direct mode. Take a non-empty argument list other than `["all"]` in
which no argument requires a scan, and let `Add` never fail. If `Get` succeeds
on every argument, returning `g n` on `n`, then `Doit` returns no error and,
after asking `RequireScan` once per argument, issues `Get n`, `Add (g n)` for
each argument in order, then `Close`, then `Out`: the keys looked up are the
arguments in order, the sink receives the returned elements in that order, and
`Match`, `MatchName` and `Iterator` are never called. If instead `Get` fails
with `err` on an argument `n` after succeeding on the arguments `pre` before
it, `Doit` returns `err`; the keys looked up are `pre` and then `n`, no later
argument is looked up, the sink has received the elements of `pre` only
(nothing when `n` is the first argument), and neither `Close` nor `Out` is
called. -/
theorem C3_direct_mode {σ E : Type} (h : Handler σ E) (opts : Options) (w : World σ E)
    (hne : opts.Arguments ≠ []) (hall : opts.Arguments ≠ ["all"])
    (hrs : ∀ st n, n ∈ opts.Arguments → (h.RequireScan st n).1 = false)
    (ha : AddSucceeds h) :
    (∀ g : String → Option E,
      (∀ st n, n ∈ opts.Arguments → (h.Get st n).1 = Except.ok (g n)) →
      (Doit h opts w).1 = none ∧
      issued w (Doit h opts w) =
        opts.Arguments.map Call.RequireScan ++ directCalls g opts.Arguments ++
          [Call.Close, Call.Out] ∧
      gets (issued w (Doit h opts w)) = opts.Arguments ∧
      adds (issued w (Doit h opts w)) = opts.Arguments.map g ∧
      calls Kind.Match (issued w (Doit h opts w)) = 0 ∧
      calls Kind.MatchName (issued w (Doit h opts w)) = 0 ∧
      calls Kind.Iterator (issued w (Doit h opts w)) = 0) ∧
    (∀ (g : String → Option E) (pre : List String) (n : String) (post : List String)
        (err : Error),
      opts.Arguments = pre ++ n :: post →
      (∀ st k, k ∈ pre → (h.Get st k).1 = Except.ok (g k)) →
      (∀ st, (h.Get st n).1 = Except.error err) →
      (Doit h opts w).1 = some err ∧
      issued w (Doit h opts w) =
        opts.Arguments.map Call.RequireScan ++ directCalls g pre ++ [Call.Get n] ∧
      gets (issued w (Doit h opts w)) = pre ++ [n] ∧
      adds (issued w (Doit h opts w)) = pre.map g ∧
      calls Kind.Close (issued w (Doit h opts w)) = 0 ∧
      calls Kind.Out (issued w (Doit h opts w)) = 0) := by
  rw [Doit_dedicated h opts w hne hall]
  constructor
  · intro g hget
    obtain ⟨h1, h2⟩ := doDedicated_direct_ok h opts g w hrs ha hget
    have h3 := issued_eq w _ _ h2
    refine ⟨h1, h3, ?_, ?_, ?_, ?_, ?_⟩ <;> rw [h3] <;>
      simp [gets_append, adds_append, calls_append, gets_directCalls, adds_directCalls,
        calls_directCalls, gets_requireScan, adds_requireScan, calls_requireScan, gets, adds,
        calls_cons, calls_nil, Call.kind]
  · intro g pre n post err hargs hget hfail
    obtain ⟨h1, h2⟩ := doDedicated_direct_fail h opts g w pre n post err hargs hrs ha hget hfail
    have h3 := issued_eq w _ _ h2
    refine ⟨h1, h3, ?_, ?_, ?_, ?_⟩ <;> rw [h3] <;>
      simp [gets_append, adds_append, calls_append, gets_directCalls, adds_directCalls,
        calls_directCalls, gets_requireScan, adds_requireScan, calls_requireScan, gets, adds,
        calls_cons, calls_nil, Call.kind]

theorem C3_direct_mode_witness :
    ((argsOnly ["x"]).Arguments ≠ [] ∧ (argsOnly ["x"]).Arguments ≠ ["all"] ∧
      (∀ st n, n ∈ (argsOnly ["x"]).Arguments → (xyHandler.RequireScan st n).1 = false) ∧
      AddSucceeds xyHandler ∧
      (∀ st n, n ∈ (argsOnly ["x"]).Arguments → (xyHandler.Get st n).1 = Except.ok (some n))) ∧
    ((Doit xyHandler (argsOnly ["x"]) World.init).1 = none ∧
      issued World.init (Doit xyHandler (argsOnly ["x"]) World.init) =
        [Call.RequireScan "x", Call.Get "x", Call.Add (some "x"), Call.Close, Call.Out]) ∧
    ((argsOnly ["z"]).Arguments = [] ++ "z" :: [] ∧
      (∀ st, (xyHandler.Get st "z").1 = Except.error "'z' not found")) ∧
    ((Doit xyHandler (argsOnly ["z"]) World.init).1 = some "'z' not found" ∧
      adds (issued World.init (Doit xyHandler (argsOnly ["z"]) World.init)) = []) :=
  ⟨⟨by decide, by decide, fun _ _ _ => rfl, fun _ _ => rfl,
      fun _ n hn => by
        have hx : n = "x" := by simpa [argsOnly] using hn
        subst hx; rfl⟩,
    ⟨((C3_direct_mode xyHandler (argsOnly ["x"]) World.init (by decide) (by decide)
        (fun _ _ _ => rfl) (fun _ _ => rfl)).1 (fun n => some n)
        (fun _ n hn => by
          have hx : n = "x" := by simpa [argsOnly] using hn
          subst hx; rfl)).1,
      ((C3_direct_mode xyHandler (argsOnly ["x"]) World.init (by decide) (by decide)
        (fun _ _ _ => rfl) (fun _ _ => rfl)).1 (fun n => some n)
        (fun _ n hn => by
          have hx : n = "x" := by simpa [argsOnly] using hn
          subst hx; rfl)).2.1⟩,
    ⟨rfl, fun _ => rfl⟩,
    ⟨((C3_direct_mode xyHandler (argsOnly ["z"]) World.init (by decide) (by decide)
        (fun _ _ _ => rfl) (fun _ _ => rfl)).2 (fun n => some n) [] "z" [] "'z' not found" rfl
        (fun _ _ hk => by cases hk) (fun _ => rfl)).1,
      ((C3_direct_mode xyHandler (argsOnly ["z"]) World.init (by decide) (by decide)
        (fun _ _ _ => rfl) (fun _ _ => rfl)).2 (fun n => some n) [] "z" [] "'z' not found" rfl
        (fun _ _ hk => by cases hk) (fun _ => rfl)).2.2.2.1⟩⟩

/-- C4: null lookup in direct mode. On the argument list `["z"]`, no argument
requiring a scan, with a `Get` that returns a nil element and a nil error,
`Doit` returns no error: the direct-mode loop hands the nil element to `Add`
and goes on to `Close` and `Out`. In scan mode (`["z", "p*"]`) the same lookup
is reported as `'z' not found` and nothing is added. -/
theorem C4_direct_mode_adds_nil :
    (silentHandler.Get [] "z").1 = Except.ok none ∧
    (Doit silentHandler (argsOnly ["z"]) World.init).1 = none ∧
    (Doit silentHandler (argsOnly ["z"]) World.init).2.trace =
      [Call.RequireScan "z", Call.Get "z", Call.Add none, Call.Close, Call.Out] ∧
    (Doit silentHandler (argsOnly ["z"]) World.init).2.st = [none] ∧
    (Doit silentHandler (argsOnly ["z", "p*"]) World.init).1 = some "'z' not found" ∧
    (Doit silentHandler (argsOnly ["z", "p*"]) World.init).2.trace =
      [Call.RequireScan "z", Call.RequireScan "p*", Call.Iterator, Call.RequireScan "z",
        Call.Get "z"] := by
  refine ⟨rfl, ?_, ?_, ?_, ?_, ?_⟩ <;> decide

/-- C7, as stated, fails: on the empty argument list, with a handler that has
no default, `Doit` does not return `no element selected`; it returns no error
and the sink receives the elements that pass `Match`. -/
theorem C7_empty_selection_counterexample :
    (argsOnly []).Arguments = [] ∧
    (bulkHandler.GetDefault [] (argsOnly [])).1 = none ∧
    ¬ ((Doit bulkHandler (argsOnly []) World.init).1 = some "no element selected" ∧
        adds (issued World.init (Doit bulkHandler (argsOnly []) World.init)) = []) ∧
    (Doit bulkHandler (argsOnly []) World.init).1 = none ∧
    adds (issued World.init (Doit bulkHandler (argsOnly []) World.init)) =
      [some "a", some "c"] := by
  refine ⟨rfl, rfl, ?_, ?_, ?_⟩ <;> decide

/-- C7, amended: on the empty argument list, when `GetDefault` returns no
default, `Doit` performs bulk resolution: after the one `GetDefault` call it
returns what `doAll` returns. So when `Iterator` yields `s` and `Match` and
`Add` never fail, it returns no error and the sink receives the elements of `s`
that pass `Match`. -/
theorem C7_empty_selection_is_bulk {σ E : Type} (h : Handler σ E) (opts : Options)
    (w : World σ E) (hargs : opts.Arguments = [])
    (hd : (h.GetDefault w.st opts).1 = none) :
    Doit h opts w = doAll h opts (w.after Call.GetDefault (h.GetDefault w.st opts).2) ∧
    (∀ (s : Iterator E) (m : Option E → Bool),
      IteratorYields h s → MatchIs h m → AddSucceeds h →
      (Doit h opts w).1 = none ∧ adds (issued w (Doit h opts w)) = s.filter m) := by
  refine ⟨Doit_empty h opts w hargs hd, ?_⟩
  intro s m hit hm ha
  obtain ⟨h1, h2⟩ := doAll_spec h opts m s hit hm ha
    (w.after Call.GetDefault (h.GetDefault w.st opts).2)
  rw [Doit_empty h opts w hargs hd]
  refine ⟨h1, ?_⟩
  have h3 : issued w (doAll h opts (w.after Call.GetDefault (h.GetDefault w.st opts).2)) =
      Call.GetDefault :: Call.Iterator :: bulkCalls m s ++ [Call.Close, Call.Out] :=
    issued_eq w _ _ (by rw [h2]; simp [World.after])
  rw [h3]
  simp [adds, adds_append, adds_bulkCalls]

theorem C7_empty_selection_is_bulk_witness :
    ((argsOnly []).Arguments = [] ∧
      (bulkHandler.GetDefault (World.init : World (List (Option String)) String).st
        (argsOnly [])).1 = none) ∧
    Doit bulkHandler (argsOnly []) World.init =
      doAll bulkHandler (argsOnly [])
        ((World.init : World (List (Option String)) String).after Call.GetDefault
          (bulkHandler.GetDefault (World.init : World (List (Option String)) String).st
            (argsOnly [])).2) :=
  ⟨⟨rfl, rfl⟩, (C7_empty_selection_is_bulk bulkHandler (argsOnly []) World.init rfl rfl).1⟩

/-! ## Dedicated resolution, scan mode -/

theorem adds_scanCalls {E : Type} (m : Option E → Bool) (mn : Option E → String → Bool)
    (n : String) (s : Iterator E) :
    adds (scanCalls m mn n s) = s.filter (fun e => m e && mn e n) := by
  induction s with
  | nil => rfl
  | cons e i ih =>
    cases hme : m e <;> cases hmn : mn e n <;> simp [scanCalls, adds, hme, hmn, ih]

theorem calls_scanCalls {E : Type} (m : Option E → Bool) (mn : Option E → String → Bool)
    (n : String) (s : Iterator E) (k : Kind) (hk1 : k ≠ Kind.Match) (hk2 : k ≠ Kind.MatchName)
    (hk3 : k ≠ Kind.Add) : calls k (scanCalls m mn n s) = 0 := by
  induction s with
  | nil => rfl
  | cons e i ih =>
    cases hme : m e <;> cases hmn : mn e n <;>
      simp [scanCalls, hme, hmn, calls_cons, Call.kind, ih, Ne.symm hk1, Ne.symm hk2,
        Ne.symm hk3]

theorem scanLoop_spec {σ E : Type} (h : Handler σ E) (opts : Options) (n : String)
    (m : Option E → Bool) (mn : Option E → String → Bool)
    (hm : MatchIs h m) (hmn : MatchNameIs h mn) (ha : AddSucceeds h) (s : Iterator E) :
    ∀ (found : Bool) (w : World σ E),
      (scanLoop h opts n s found w).1 =
        Except.ok (found || s.any (fun e => m e && mn e n)) ∧
      (scanLoop h opts n s found w).2.trace = w.trace ++ scanCalls m mn n s := by
  have hm1 : ∀ st e o, (h.Match st e o).1 = Except.ok (m e) := hm
  have hmn1 : ∀ st e k, (h.MatchName st e k).1 = Except.ok (mn e k) := hmn
  have ha1 : ∀ st e, (h.Add st e).1 = none := ha
  induction s with
  | nil => intro found w; simp [scanLoop, scanCalls]
  | cons e i ih =>
    intro found w
    cases hme : m e
    · simp only [scanLoop, hm1, hme, scanCalls]
      simp [ih, World.after, hme]
    · cases hmne : mn e n
      · simp only [scanLoop, hm1, hme, hmn1, hmne, scanCalls]
        simp [ih, World.after, hme, hmne]
      · simp only [scanLoop, hm1, hme, hmn1, hmne, ha1, scanCalls]
        simp [ih, World.after, hme, hmne]

theorem doDedicatedFrom_scan {σ E : Type} (h : Handler σ E) (opts : Options)
    (rs : String → Bool) (hrs : RequireScanIs h rs) (ns : List String)
    (hex : ∃ n ∈ ns, rs n = true) :
    ∀ w : World σ E, ∃ w1 : World σ E,
      w1.trace = w.trace ++ requireScanPrefix rs ns ∧
      doDedicatedFrom h opts ns w = scanMode h opts w1 := by
  have hrs1 : ∀ st n, (h.RequireScan st n).1 = rs n := hrs
  induction ns with
  | nil => obtain ⟨n, hn, _⟩ := hex; cases hn
  | cons n ns ih =>
    intro w
    cases hn : rs n
    · have hex1 : ∃ k ∈ ns, rs k = true := by
        obtain ⟨k, hk, hk2⟩ := hex
        rcases List.mem_cons.mp hk with rfl | hk3
        · rw [hn] at hk2; cases hk2
        · exact ⟨k, hk3, hk2⟩
      obtain ⟨w1, h1, h2⟩ := ih hex1 (w.after (Call.RequireScan n) (h.RequireScan w.st n).2)
      refine ⟨w1, ?_, ?_⟩
      · rw [h1]; simp [World.after, requireScanPrefix, hn]
      · rw [← h2]
        conv_lhs => unfold doDedicatedFrom
        simp [hrs1, hn]
    · refine ⟨w.after (Call.RequireScan n) (h.RequireScan w.st n).2, ?_, ?_⟩
      · simp [World.after, requireScanPrefix, hn]
      · conv_lhs => unfold doDedicatedFrom
        simp [hrs1, hn]

theorem scanArgs_ok {σ E : Type} (h : Handler σ E) (opts : Options)
    (rs : String → Bool) (g : String → Option E) (m : Option E → Bool)
    (mn : Option E → String → Bool) (s : Iterator E)
    (hrs : RequireScanIs h rs) (hit : IteratorYields h s) (hm : MatchIs h m)
    (hmn : MatchNameIs h mn) (ha : AddSucceeds h) (pre rest : List String)
    (hget : ∀ st a, a ∈ pre → rs a = false → (h.Get st a).1 = Except.ok (g a))
    (hnn : ∀ a ∈ pre, rs a = false → g a ≠ none)
    (hpre : ∀ a ∈ pre, rs a = true → ∃ e ∈ s, m e = true ∧ mn e a = true) :
    ∀ w : World σ E, ∃ w1 : World σ E,
      w1.trace = w.trace ++ scanModeCalls rs g m mn s pre ∧
      scanArgs h opts (pre ++ rest) w = scanArgs h opts rest w1 := by
  have hrs1 : ∀ st n, (h.RequireScan st n).1 = rs n := hrs
  have hit1 : ∀ st o, (h.Iterator st o).1 = Except.ok s := hit
  have hm1 : ∀ st e o, (h.Match st e o).1 = Except.ok (m e) := hm
  have ha1 : ∀ st e, (h.Add st e).1 = none := ha
  induction pre with
  | nil => intro w; exact ⟨w, by simp [scanModeCalls], rfl⟩
  | cons a as ih =>
    intro w
    have ih1 := ih (fun st k hk => hget st k (List.mem_cons_of_mem _ hk))
      (fun k hk => hnn k (List.mem_cons_of_mem _ hk))
      (fun k hk => hpre k (List.mem_cons_of_mem _ hk))
    cases hra : rs a
    · obtain ⟨x, hx⟩ := Option.ne_none_iff_exists'.mp (hnn a (List.mem_cons_self _ _) hra)
      have hg : ∀ st, (h.Get st a).1 = Except.ok (some x) := fun st => by
        rw [hget st a (List.mem_cons_self _ _) hra, hx]
      cases hme : m (some x)
      · obtain ⟨w1, h1, h2⟩ := ih1 (((w.after (Call.RequireScan a) (h.RequireScan w.st a).2).after
          (Call.Get a) (h.Get (h.RequireScan w.st a).2 a).2).after (Call.Match (some x))
          (h.Match (h.Get (h.RequireScan w.st a).2 a).2 (some x) opts).2)
        refine ⟨w1, ?_, ?_⟩
        · rw [h1]; simp [World.after, scanModeCalls, argCalls, hra, hx, hme]
        · rw [← h2]
          conv_lhs => rw [List.cons_append]; unfold scanArgs
          simp [hrs1, hra, hg, hm1, hme, World.after]
      · obtain ⟨w1, h1, h2⟩ := ih1 ((((w.after (Call.RequireScan a) (h.RequireScan w.st a).2).after
          (Call.Get a) (h.Get (h.RequireScan w.st a).2 a).2).after (Call.Match (some x))
          (h.Match (h.Get (h.RequireScan w.st a).2 a).2 (some x) opts).2).after
          (Call.Add (some x))
          (h.Add (h.Match (h.Get (h.RequireScan w.st a).2 a).2 (some x) opts).2
            (some x)).2)
        refine ⟨w1, ?_, ?_⟩
        · rw [h1]; simp [World.after, scanModeCalls, argCalls, hra, hx, hme]
        · rw [← h2]
          conv_lhs => rw [List.cons_append]; unfold scanArgs
          simp [hrs1, hra, hg, hm1, hme, ha1, World.after]
    · obtain ⟨e0, he0, hm0, hmn0⟩ := hpre a (List.mem_cons_self _ _) hra
      have hany : s.any (fun e => m e && mn e a) = true := by
        rw [List.any_eq_true]
        exact ⟨e0, he0, by simp [hm0, hmn0]⟩
      have hl1 : ∀ w0 : World σ E, (scanLoop h opts a s false w0).1 = Except.ok true :=
        fun w0 => by rw [(scanLoop_spec h opts a m mn hm hmn ha s false w0).1, hany]; rfl
      have l2 := (scanLoop_spec h opts a m mn hm hmn ha s false
        ((w.after (Call.RequireScan a) (h.RequireScan w.st a).2).after Call.Iterator
          (h.Iterator (h.RequireScan w.st a).2 opts).2)).2
      obtain ⟨w1, h1, h2⟩ := ih1 (scanLoop h opts a s false
        ((w.after (Call.RequireScan a) (h.RequireScan w.st a).2).after Call.Iterator
          (h.Iterator (h.RequireScan w.st a).2 opts).2)).2
      refine ⟨w1, ?_, ?_⟩
      · rw [h1, l2]; simp [World.after, scanModeCalls, argCalls, hra]
      · rw [← h2]
        conv_lhs => rw [List.cons_append]; unfold scanArgs
        simp [hrs1, hra, hit1, hl1, World.after]

theorem scanArgs_nomatch {σ E : Type} (h : Handler σ E) (opts : Options)
    (rs : String → Bool) (m : Option E → Bool)
    (mn : Option E → String → Bool) (s : Iterator E)
    (hrs : RequireScanIs h rs) (hit : IteratorYields h s) (hm : MatchIs h m)
    (hmn : MatchNameIs h mn) (ha : AddSucceeds h) (n : String) (post : List String)
    (hn : rs n = true) (hno : ∀ e ∈ s, ¬ (m e = true ∧ mn e n = true)) (w : World σ E) :
    (scanArgs h opts (n :: post) w).1 = some (notFound n) ∧
    (scanArgs h opts (n :: post) w).2.trace =
      w.trace ++ (Call.RequireScan n :: Call.Iterator :: scanCalls m mn n s) := by
  have hrs1 : ∀ st k, (h.RequireScan st k).1 = rs k := hrs
  have hit1 : ∀ st o, (h.Iterator st o).1 = Except.ok s := hit
  have hany : s.any (fun e => m e && mn e n) = false := by
    rw [List.any_eq_false]
    intro e he
    have := hno e he
    simpa using this
  have hl1 : ∀ w0 : World σ E, (scanLoop h opts n s false w0).1 = Except.ok false :=
    fun w0 => by rw [(scanLoop_spec h opts n m mn hm hmn ha s false w0).1, hany]; rfl
  have hl2 : ∀ w0 : World σ E, (scanLoop h opts n s false w0).2.trace =
      w0.trace ++ scanCalls m mn n s :=
    fun w0 => (scanLoop_spec h opts n m mn hm hmn ha s false w0).2
  unfold scanArgs
  simp [hrs1, hn, hit1, hl1, hl2, World.after]

theorem scanMode_ok {σ E : Type} (h : Handler σ E) (opts : Options)
    (rs : String → Bool) (g : String → Option E) (m : Option E → Bool)
    (mn : Option E → String → Bool) (s : Iterator E)
    (hrs : RequireScanIs h rs) (hit : IteratorYields h s) (hm : MatchIs h m)
    (hmn : MatchNameIs h mn) (ha : AddSucceeds h)
    (hget : ∀ st a, a ∈ opts.Arguments → rs a = false → (h.Get st a).1 = Except.ok (g a))
    (hnn : ∀ a ∈ opts.Arguments, rs a = false → g a ≠ none)
    (hpre : ∀ a ∈ opts.Arguments, rs a = true → ∃ e ∈ s, m e = true ∧ mn e a = true)
    (w : World σ E) :
    (scanMode h opts w).1 = none ∧
    (scanMode h opts w).2.trace =
      w.trace ++ (Call.Iterator :: scanModeCalls rs g m mn s opts.Arguments ++ [Call.Out]) := by
  have hit1 : ∀ st o, (h.Iterator st o).1 = Except.ok s := hit
  obtain ⟨w1, h1, h2⟩ := scanArgs_ok h opts rs g m mn s hrs hit hm hmn ha opts.Arguments []
    hget hnn hpre (w.after Call.Iterator (h.Iterator w.st opts).2)
  rw [List.append_nil] at h2
  simp only [scanMode, hit1, h2, scanArgs]
  simp [World.after, h1]

theorem scanMode_nomatch {σ E : Type} (h : Handler σ E) (opts : Options)
    (rs : String → Bool) (g : String → Option E) (m : Option E → Bool)
    (mn : Option E → String → Bool) (s : Iterator E)
    (hrs : RequireScanIs h rs) (hit : IteratorYields h s) (hm : MatchIs h m)
    (hmn : MatchNameIs h mn) (ha : AddSucceeds h)
    (pre : List String) (n : String) (post : List String)
    (hargs : opts.Arguments = pre ++ n :: post)
    (hget : ∀ st a, a ∈ pre → rs a = false → (h.Get st a).1 = Except.ok (g a))
    (hnn : ∀ a ∈ pre, rs a = false → g a ≠ none)
    (hpre : ∀ a ∈ pre, rs a = true → ∃ e ∈ s, m e = true ∧ mn e a = true)
    (hn : rs n = true) (hno : ∀ e ∈ s, ¬ (m e = true ∧ mn e n = true))
    (w : World σ E) :
    (scanMode h opts w).1 = some (notFound n) ∧
    (scanMode h opts w).2.trace =
      w.trace ++ (Call.Iterator :: scanModeCalls rs g m mn s pre ++
        (Call.RequireScan n :: Call.Iterator :: scanCalls m mn n s)) := by
  have hit1 : ∀ st o, (h.Iterator st o).1 = Except.ok s := hit
  obtain ⟨w1, h1, h2⟩ := scanArgs_ok h opts rs g m mn s hrs hit hm hmn ha pre (n :: post)
    hget hnn hpre (w.after Call.Iterator (h.Iterator w.st opts).2)
  obtain ⟨h3, h4⟩ := scanArgs_nomatch h opts rs m mn s hrs hit hm hmn ha n post hn hno w1
  simp only [scanMode, hit1, hargs, h2, h3]
  simp [World.after, h4, h1]

theorem adds_requireScanPrefix {E : Type} (rs : String → Bool) (args : List String) :
    adds (requireScanPrefix rs args : List (Call E)) = [] := by
  induction args with
  | nil => rfl
  | cons n ns ih => cases hn : rs n <;> simp [requireScanPrefix, hn, adds, ih]

theorem calls_requireScanPrefix {E : Type} (rs : String → Bool) (args : List String) (k : Kind)
    (hk : k ≠ Kind.RequireScan) :
    calls k (requireScanPrefix rs args : List (Call E)) = 0 := by
  induction args with
  | nil => rfl
  | cons n ns ih =>
    cases hn : rs n <;> simp [requireScanPrefix, hn, calls_cons, calls_nil, Call.kind, ih,
      Ne.symm hk]

theorem adds_scanModeCalls {E : Type} (rs : String → Bool) (g : String → Option E)
    (m : Option E → Bool) (mn : Option E → String → Bool) (s : Iterator E)
    (args : List String) :
    adds (scanModeCalls rs g m mn s args) = scanModeResult rs g m mn s args := by
  induction args with
  | nil => rfl
  | cons n ns ih =>
    cases hn : rs n <;> cases hme : m (g n) <;>
      simp [scanModeCalls, scanModeResult, argCalls, argResult, hn, hme, adds_append, adds,
        adds_scanCalls, ih]

theorem calls_scanModeCalls {E : Type} (rs : String → Bool) (g : String → Option E)
    (m : Option E → Bool) (mn : Option E → String → Bool) (s : Iterator E)
    (args : List String) (k : Kind) (hk1 : k = Kind.Close ∨ k = Kind.Out) :
    calls k (scanModeCalls rs g m mn s args) = 0 := by
  induction args with
  | nil => rfl
  | cons n ns ih =>
    rcases hk1 with rfl | rfl <;>
    cases hn : rs n <;> cases hme : m (g n) <;>
      simp [scanModeCalls, argCalls, hn, hme, calls_append, calls_cons, calls_nil, Call.kind,
        calls_scanCalls, ih]

/-- C5, as stated, fails for the argument `all`: with a handler in which
`RequireScan("all")` is true, `Doit(["all"])` is bulk resolution. The sink
receives every element that passes `Match`, whatever `MatchName` says, and
`Close` is called. -/
theorem C5_scan_mode_counterexample :
    (patHandler.RequireScan [] "all").1 = true ∧
    adds (issued World.init (Doit patHandler (argsOnly ["all"]) World.init)) =
      [some "pat1", some "pat2", some "other"] ∧
    pats.filter (fun e => true && patMatchName e "all") = [] ∧
    calls Kind.Close (issued World.init (Doit patHandler (argsOnly ["all"]) World.init)) = 1 ∧
    ¬ (adds (issued World.init (Doit patHandler (argsOnly ["all"]) World.init)) =
          pats.filter (fun e => true && patMatchName e "all") ∧
        calls Kind.Close
          (issued World.init (Doit patHandler (argsOnly ["all"]) World.init)) = 0) := by
  refine ⟨rfl, ?_, ?_, ?_, ?_⟩ <;> decide

/-- C5, amended: scan-mode pattern matching for an argument other than `all`.
For a single argument `n ≠ "all"` with `RequireScan n` true, an `Iterator` that
yields `s`, and `Match`, `MatchName`, `Add` that never fail, `Doit` on `[n]`
adds to the sink exactly the elements of `s` that pass `Match` and
`MatchName · n`, in the order of `s`, and never calls `Close` or `Get`. If
there is such an element, it returns no error and the calls are `RequireScan`,
`Iterator`, `RequireScan`, `Iterator`, the scan of `s`, and then `Out` once. -/
theorem C5_scan_mode_pattern {σ E : Type} (h : Handler σ E) (opts : Options) (w : World σ E)
    (n : String) (rs : String → Bool) (s : Iterator E) (m : Option E → Bool)
    (mn : Option E → String → Bool)
    (hargs : opts.Arguments = [n]) (hall : n ≠ "all")
    (hrs : RequireScanIs h rs) (hn : rs n = true)
    (hit : IteratorYields h s) (hm : MatchIs h m) (hmn : MatchNameIs h mn)
    (ha : AddSucceeds h) :
    adds (issued w (Doit h opts w)) = s.filter (fun e => m e && mn e n) ∧
    calls Kind.Close (issued w (Doit h opts w)) = 0 ∧
    calls Kind.Get (issued w (Doit h opts w)) = 0 ∧
    ((∃ e ∈ s, m e = true ∧ mn e n = true) →
      (Doit h opts w).1 = none ∧
      calls Kind.Out (issued w (Doit h opts w)) = 1 ∧
      issued w (Doit h opts w) =
        Call.RequireScan n :: Call.Iterator :: Call.RequireScan n :: Call.Iterator ::
          scanCalls m mn n s ++ [Call.Out]) := by
  have hne : opts.Arguments ≠ [] := by rw [hargs]; simp
  have hna : opts.Arguments ≠ ["all"] := by rw [hargs]; simpa using hall
  rw [Doit_dedicated h opts w hne hna]
  obtain ⟨w1, h1, h2⟩ := doDedicatedFrom_scan h opts rs hrs opts.Arguments
    ⟨n, by rw [hargs]; simp, hn⟩ w
  rw [doDedicated, h2]
  have hp : (requireScanPrefix rs opts.Arguments : List (Call E)) = [Call.RequireScan n] := by
    rw [hargs]; simp [requireScanPrefix, hn]
  rw [hp] at h1
  by_cases hex : ∃ e ∈ s, m e = true ∧ mn e n = true
  · obtain ⟨k1, k2⟩ := scanMode_ok h opts rs (fun _ => none) m mn s hrs hit hm hmn ha
      (fun st a ha1 hra => by
        rw [hargs] at ha1
        have : a = n := by simpa using ha1
        rw [this, hn] at hra; cases hra)
      (fun a ha1 hra => by
        rw [hargs] at ha1
        have : a = n := by simpa using ha1
        rw [this, hn] at hra; cases hra)
      (fun a ha1 _ => by
        rw [hargs] at ha1
        have : a = n := by simpa using ha1
        rw [this]; exact hex) w1
    have k3 : issued w (scanMode h opts w1) =
        Call.RequireScan n :: Call.Iterator :: Call.RequireScan n :: Call.Iterator ::
          scanCalls m mn n s ++ [Call.Out] :=
      issued_eq w _ _ (by
        rw [k2, h1, hargs]; simp [scanModeCalls, argCalls, hn])
    refine ⟨?_, ?_, ?_, fun _ => ⟨k1, ?_, k3⟩⟩ <;> rw [k3] <;>
      simp [adds, adds_append, adds_scanCalls, calls_cons, calls_append, calls_nil,
        calls_scanCalls, Call.kind]
  · obtain ⟨_, k2⟩ := scanMode_nomatch h opts rs (fun _ => none) m mn s hrs hit hm hmn ha
      [] n [] hargs (fun _ _ ha1 _ => by cases ha1) (fun _ ha1 _ => by cases ha1)
      (fun _ ha1 _ => by cases ha1) hn
      (fun e he hc => hex ⟨e, he, hc⟩) w1
    have k3 : issued w (scanMode h opts w1) =
        Call.RequireScan n :: Call.Iterator :: Call.RequireScan n :: Call.Iterator ::
          scanCalls m mn n s :=
      issued_eq w _ _ (by rw [k2, h1]; simp [scanModeCalls])
    refine ⟨?_, ?_, ?_, fun hc => absurd hc hex⟩ <;> rw [k3] <;>
      simp [adds, adds_append, adds_scanCalls, calls_cons, calls_append, calls_nil,
        calls_scanCalls, Call.kind]

theorem C5_scan_mode_pattern_witness :
    ((argsOnly ["pat*"]).Arguments = ["pat*"] ∧ "pat*" ≠ "all" ∧
      RequireScanIs patHandler (fun _ => true) ∧ IteratorYields patHandler pats ∧
      MatchIs patHandler (fun _ => true) ∧ MatchNameIs patHandler patMatchName ∧
      AddSucceeds patHandler ∧
      ∃ e ∈ pats, (fun _ => true) e = true ∧ patMatchName e "pat*" = true) ∧
    adds (issued World.init (Doit patHandler (argsOnly ["pat*"]) World.init)) =
      [some "pat1", some "pat2"] ∧
    calls Kind.Close (issued World.init (Doit patHandler (argsOnly ["pat*"]) World.init)) = 0 ∧
    (Doit patHandler (argsOnly ["pat*"]) World.init).1 = none ∧
    calls Kind.Out (issued World.init (Doit patHandler (argsOnly ["pat*"]) World.init)) = 1 :=
  ⟨⟨rfl, by decide, fun _ _ => rfl, fun _ _ => rfl, fun _ _ _ => rfl, fun _ _ _ => rfl,
      fun _ _ => rfl, ⟨some "pat1", by decide, rfl, by decide⟩⟩,
    (C5_scan_mode_pattern patHandler (argsOnly ["pat*"]) World.init "pat*" (fun _ => true) pats
      (fun _ => true) patMatchName rfl (by decide) (fun _ _ => rfl) rfl (fun _ _ => rfl)
      (fun _ _ _ => rfl) (fun _ _ _ => rfl) (fun _ _ => rfl)).1,
    (C5_scan_mode_pattern patHandler (argsOnly ["pat*"]) World.init "pat*" (fun _ => true) pats
      (fun _ => true) patMatchName rfl (by decide) (fun _ _ => rfl) rfl (fun _ _ => rfl)
      (fun _ _ _ => rfl) (fun _ _ _ => rfl) (fun _ _ => rfl)).2.1,
    ((C5_scan_mode_pattern patHandler (argsOnly ["pat*"]) World.init "pat*" (fun _ => true) pats
      (fun _ => true) patMatchName rfl (by decide) (fun _ _ => rfl) rfl (fun _ _ => rfl)
      (fun _ _ _ => rfl) (fun _ _ _ => rfl) (fun _ _ => rfl)).2.2.2
      ⟨some "pat1", by decide, rfl, by decide⟩).1,
    ((C5_scan_mode_pattern patHandler (argsOnly ["pat*"]) World.init "pat*" (fun _ => true) pats
      (fun _ => true) patMatchName rfl (by decide) (fun _ _ => rfl) rfl (fun _ _ => rfl)
      (fun _ _ _ => rfl) (fun _ _ _ => rfl) (fun _ _ => rfl)).2.2.2
      ⟨some "pat1", by decide, rfl, by decide⟩).2.1⟩

/-- C9: no-match scan failure. In scan mode (the argument list is not `["all"]`
and holds an argument `n` with `RequireScan n` true), let `Iterator` yield `s`,
let `Match`, `MatchName` and `Add` never fail, and let every argument in `pre`,
the arguments before `n`, resolve: a pattern selects some element of `s`, an
exact name is found by `Get`. If no element of `s` passes both `Match` and
`MatchName · n`, then `Doit` returns the error `'<n>' not found`; the calls
made for `n` are `RequireScan`, `Iterator` and the scan of `s`, none of which
is an `Add`; neither `Out` nor `Close` is called; and the sink has received
what the arguments of `pre` select, which is nothing when `n` is the first
(in particular the only) argument. -/
theorem C9_no_match_scan_failure {σ E : Type} (h : Handler σ E) (opts : Options)
    (w : World σ E) (rs : String → Bool) (g : String → Option E) (m : Option E → Bool)
    (mn : Option E → String → Bool) (s : Iterator E)
    (pre : List String) (n : String) (post : List String)
    (hargs : opts.Arguments = pre ++ n :: post) (hall : opts.Arguments ≠ ["all"])
    (hrs : RequireScanIs h rs) (hn : rs n = true)
    (hit : IteratorYields h s) (hm : MatchIs h m) (hmn : MatchNameIs h mn)
    (ha : AddSucceeds h)
    (hget : ∀ st a, a ∈ pre → rs a = false → (h.Get st a).1 = Except.ok (g a))
    (hnn : ∀ a ∈ pre, rs a = false → g a ≠ none)
    (hpre : ∀ a ∈ pre, rs a = true → ∃ e ∈ s, m e = true ∧ mn e a = true)
    (hno : ∀ e ∈ s, ¬ (m e = true ∧ mn e n = true)) :
    (Doit h opts w).1 = some (notFound n) ∧
    issued w (Doit h opts w) =
      requireScanPrefix rs opts.Arguments ++ Call.Iterator :: scanModeCalls rs g m mn s pre ++
        (Call.RequireScan n :: Call.Iterator :: scanCalls m mn n s) ∧
    adds (Call.RequireScan n :: Call.Iterator :: scanCalls m mn n s) = [] ∧
    adds (issued w (Doit h opts w)) = scanModeResult rs g m mn s pre ∧
    (pre = [] → adds (issued w (Doit h opts w)) = []) ∧
    calls Kind.Out (issued w (Doit h opts w)) = 0 ∧
    calls Kind.Close (issued w (Doit h opts w)) = 0 := by
  have hne : opts.Arguments ≠ [] := by rw [hargs]; simp
  rw [Doit_dedicated h opts w hne hall]
  obtain ⟨w1, h1, h2⟩ := doDedicatedFrom_scan h opts rs hrs opts.Arguments
    ⟨n, by rw [hargs]; simp, hn⟩ w
  rw [doDedicated, h2]
  obtain ⟨k1, k2⟩ := scanMode_nomatch h opts rs g m mn s hrs hit hm hmn ha pre n post hargs
    hget hnn hpre hn hno w1
  have k3 : issued w (scanMode h opts w1) =
      requireScanPrefix rs opts.Arguments ++ Call.Iterator :: scanModeCalls rs g m mn s pre ++
        (Call.RequireScan n :: Call.Iterator :: scanCalls m mn n s) :=
    issued_eq w _ _ (by rw [k2, h1]; simp)
  have hfil : s.filter (fun e => m e && mn e n) = [] := by
    rw [List.filter_eq_nil_iff]
    intro e he
    simpa using hno e he
  have k4 : adds (Call.RequireScan n :: Call.Iterator :: scanCalls m mn n s) = [] := by
    simp [adds, adds_scanCalls, hfil]
  have k5 : adds (issued w (scanMode h opts w1)) = scanModeResult rs g m mn s pre := by
    rw [k3]
    simp [adds, adds_append, adds_requireScanPrefix, adds_scanModeCalls, adds_scanCalls, hfil]
  refine ⟨k1, k3, k4, k5, ?_, ?_, ?_⟩
  · intro hp
    rw [k5, hp]; rfl
  · rw [k3]
    simp [calls_append, calls_cons, calls_nil, calls_requireScanPrefix, calls_scanModeCalls,
      calls_scanCalls, Call.kind]
  · rw [k3]
    simp [calls_append, calls_cons, calls_nil, calls_requireScanPrefix, calls_scanModeCalls,
      calls_scanCalls, Call.kind]

theorem C9_no_match_scan_failure_witness :
    ((argsOnly ["other", "pat*", "nomatch*"]).Arguments = ["other", "pat*"] ++ "nomatch*" :: [] ∧
      (argsOnly ["other", "pat*", "nomatch*"]).Arguments ≠ ["all"] ∧
      RequireScanIs mixedHandler mixedScan ∧ mixedScan "nomatch*" = true ∧
      IteratorYields mixedHandler pats ∧ MatchIs mixedHandler (fun _ => true) ∧
      MatchNameIs mixedHandler patMatchName ∧ AddSucceeds mixedHandler ∧
      (∀ st a, a ∈ ["other", "pat*"] → mixedScan a = false →
        (mixedHandler.Get st a).1 = Except.ok (some a)) ∧
      (∀ a ∈ ["other", "pat*"], mixedScan a = true →
        ∃ e ∈ pats, (fun _ => true) e = true ∧ patMatchName e a = true) ∧
      (∀ e ∈ pats, ¬ ((fun _ => true) e = true ∧ patMatchName e "nomatch*" = true))) ∧
    (Doit mixedHandler (argsOnly ["other", "pat*", "nomatch*"]) World.init).1 =
      some "'nomatch*' not found" ∧
    adds (issued World.init
      (Doit mixedHandler (argsOnly ["other", "pat*", "nomatch*"]) World.init)) =
      [some "other", some "pat1", some "pat2"] ∧
    calls Kind.Out (issued World.init
      (Doit mixedHandler (argsOnly ["other", "pat*", "nomatch*"]) World.init)) = 0 ∧
    calls Kind.Close (issued World.init
      (Doit mixedHandler (argsOnly ["other", "pat*", "nomatch*"]) World.init)) = 0 := by
  have hget : ∀ (st : List (Option String)) (a : String), a ∈ ["other", "pat*"] →
      mixedScan a = false → (mixedHandler.Get st a).1 = Except.ok (some a) := by
    intro st a ha hra
    simp only [List.mem_cons, List.mem_singleton, List.not_mem_nil, or_false] at ha
    rcases ha with rfl | rfl
    · rfl
    · exact absurd hra (by decide)
  have hpre : ∀ a ∈ ["other", "pat*"], mixedScan a = true →
      ∃ e ∈ pats, (fun _ => true) e = true ∧ patMatchName e a = true := by
    intro a ha hra
    simp only [List.mem_cons, List.mem_singleton, List.not_mem_nil, or_false] at ha
    rcases ha with rfl | rfl
    · exact absurd hra (by decide)
    · exact ⟨some "pat1", by decide, rfl, by decide⟩
  have hno : ∀ e ∈ pats, ¬ ((fun _ => true) e = true ∧ patMatchName e "nomatch*" = true) := by
    decide
  have key := C9_no_match_scan_failure mixedHandler (argsOnly ["other", "pat*", "nomatch*"])
    World.init mixedScan (fun a => some a) (fun _ => true) patMatchName pats
    ["other", "pat*"] "nomatch*" [] rfl (by decide) (fun _ _ => rfl) (by decide)
    (fun _ _ => rfl) (fun _ _ _ => rfl) (fun _ _ _ => rfl) (fun _ _ => rfl) hget
    (fun _ _ _ => by simp) hpre hno
  exact ⟨⟨rfl, by decide, fun _ _ => rfl, by decide, fun _ _ => rfl, fun _ _ _ => rfl,
    fun _ _ _ => rfl, fun _ _ => rfl, hget, hpre, hno⟩,
    key.1, key.2.2.2.1.trans (by decide), key.2.2.2.2.2.1, key.2.2.2.2.2.2⟩

/-! ## Every run extends the trace -/

theorem extends_after {σ E : Type} {x w : World σ E} {c : Call E} {st : σ}
    (hx : ∃ t, x.trace = (w.after c st).trace ++ t) : ∃ t, x.trace = w.trace ++ t := by
  obtain ⟨t, ht⟩ := hx
  exact ⟨c :: t, by rw [ht]; simp [World.after]⟩

theorem extends_refl {σ E : Type} (w : World σ E) : ∃ t, w.trace = w.trace ++ t :=
  ⟨[], by simp⟩

theorem extends_trans {σ E : Type} {x y w : World σ E}
    (hx : ∃ t, x.trace = y.trace ++ t) (hy : ∃ t, y.trace = w.trace ++ t) :
    ∃ t, x.trace = w.trace ++ t := by
  obtain ⟨t, ht⟩ := hx
  obtain ⟨u, hu⟩ := hy
  exact ⟨u ++ t, by rw [ht, hu]; simp⟩

theorem doAllLoop_extends {σ E : Type} (h : Handler σ E) (opts : Options) (s : Iterator E) :
    ∀ w : World σ E, ∃ t, (doAllLoop h opts s w).2.trace = w.trace ++ t := by
  induction s with
  | nil => intro w; exact extends_refl w
  | cons e i ih =>
    intro w
    simp only [doAllLoop]
    split
    · exact extends_after (extends_refl _)
    · split
      · split
        · exact extends_after (extends_after (extends_refl _))
        · exact extends_after (extends_after (ih _))
      · exact extends_after (ih _)

theorem scanLoop_extends {σ E : Type} (h : Handler σ E) (opts : Options) (n : String)
    (s : Iterator E) :
    ∀ (found : Bool) (w : World σ E),
      ∃ t, (scanLoop h opts n s found w).2.trace = w.trace ++ t := by
  induction s with
  | nil => intro found w; exact extends_refl w
  | cons e i ih =>
    intro found w
    simp only [scanLoop]
    split
    · exact extends_after (extends_refl _)
    · split
      · split
        · exact extends_after (extends_after (extends_refl _))
        · split
          · split
            · exact extends_after (extends_after (extends_after (extends_refl _)))
            · exact extends_after (extends_after (extends_after (ih _ _)))
          · exact extends_after (extends_after (ih _ _))
      · exact extends_after (ih _ _)

theorem directLoop_extends {σ E : Type} (h : Handler σ E) (args : List String) :
    ∀ w : World σ E, ∃ t, (directLoop h args w).2.trace = w.trace ++ t := by
  induction args with
  | nil => intro w; exact extends_refl w
  | cons n ns ih =>
    intro w
    simp only [directLoop]
    split
    · exact extends_after (extends_refl _)
    · split
      · exact extends_after (extends_after (extends_refl _))
      · exact extends_after (extends_after (ih _))

theorem scanArgs_extends {σ E : Type} (h : Handler σ E) (opts : Options)
    (args : List String) :
    ∀ w : World σ E, ∃ t, (scanArgs h opts args w).2.trace = w.trace ++ t := by
  induction args with
  | nil => intro w; exact extends_refl w
  | cons n ns ih =>
    intro w
    simp only [scanArgs]
    split
    · split
      · exact extends_after (extends_after (extends_refl _))
      · exact extends_after (extends_after (extends_refl _))
      · split
        · exact extends_after (extends_after (extends_after (extends_refl _)))
        · split
          · split
            · exact extends_after (extends_after (extends_after (extends_after
                (extends_refl _))))
            · exact extends_after (extends_after (extends_after (extends_after (ih _))))
          · exact extends_after (extends_after (extends_after (ih _)))
    · split
      · exact extends_after (extends_after (extends_refl _))
      · split
        · exact extends_after (extends_after (scanLoop_extends h opts n _ false _))
        · split
          · exact extends_after (extends_after (scanLoop_extends h opts n _ false _))
          · exact extends_after (extends_after
              (extends_trans (ih _) (scanLoop_extends h opts n _ false _)))

theorem scanMode_extends {σ E : Type} (h : Handler σ E) (opts : Options) (w : World σ E) :
    ∃ t, (scanMode h opts w).2.trace = w.trace ++ t := by
  simp only [scanMode]
  split
  · exact extends_after (extends_refl _)
  · split
    · exact extends_after (scanArgs_extends h opts _ _)
    · exact extends_after (extends_trans (extends_after (extends_refl _))
        (scanArgs_extends h opts _ _))

theorem doDedicatedFrom_extends {σ E : Type} (h : Handler σ E) (opts : Options)
    (ns : List String) :
    ∀ w : World σ E, ∃ t, (doDedicatedFrom h opts ns w).2.trace = w.trace ++ t := by
  induction ns with
  | nil =>
    intro w
    simp only [doDedicatedFrom]
    split
    · exact directLoop_extends h _ _
    · exact extends_trans (extends_after (extends_after (extends_refl _)))
        (directLoop_extends h _ _)
  | cons n ns ih =>
    intro w
    simp only [doDedicatedFrom]
    split
    · exact extends_after (scanMode_extends h opts _)
    · exact extends_after (ih _)

/-! ## Mode selection -/

theorem first_after {σ E : Type} {x w : World σ E} {c : Call E} {st : σ}
    (hx : ∃ t, x.trace = (w.after c st).trace ++ t) : ∃ t, x.trace = w.trace ++ c :: t := by
  obtain ⟨t, ht⟩ := hx
  exact ⟨t, by rw [ht]; simp [World.after]⟩

theorem doAll_first {σ E : Type} (h : Handler σ E) (opts : Options) (w : World σ E) :
    ∃ t, (doAll h opts w).2.trace = w.trace ++ Call.Iterator :: t := by
  simp only [doAll]
  split
  · exact first_after (extends_refl _)
  · split
    · exact first_after (doAllLoop_extends h opts _ _)
    · exact first_after (extends_trans (extends_after (extends_after (extends_refl _)))
        (doAllLoop_extends h opts _ _))

theorem doDedicated_first {σ E : Type} (h : Handler σ E) (opts : Options) (w : World σ E)
    (n : String) (ns : List String) (hargs : opts.Arguments = n :: ns) :
    ∃ t, (doDedicated h opts w).2.trace = w.trace ++ Call.RequireScan n :: t := by
  simp only [doDedicated, hargs, doDedicatedFrom]
  split
  · exact first_after (scanMode_extends h opts _)
  · exact first_after (doDedicatedFrom_extends h opts _ _)

theorem doDedicated_nil_first {σ E : Type} (h : Handler σ E) (opts : Options) (w : World σ E)
    (hargs : opts.Arguments = []) :
    ∃ t, (doDedicated h opts w).2.trace = w.trace ++ Call.Close :: t := by
  simp only [doDedicated, hargs, doDedicatedFrom, directLoop]
  exact first_after (extends_after (extends_refl _))

theorem first_call_unique {E : Type} (l t u : List (Call E)) (c d : Call E) (hcd : c ≠ d)
    (x : List (Call E)) (h1 : x = l ++ c :: t) (h2 : x = l ++ d :: u) : False := by
  rw [h1] at h2
  have := List.append_cancel_left h2
  exact hcd (List.cons.inj this).1

theorem doAll_ne_doDedicated {σ E : Type} (h : Handler σ E) (opts : Options) (w : World σ E) :
    doAll h opts w ≠ doDedicated h opts w := by
  intro heq
  obtain ⟨t, ht⟩ := doAll_first h opts w
  rw [heq] at ht
  cases hargs : opts.Arguments with
  | nil =>
    obtain ⟨u, hu⟩ := doDedicated_nil_first h opts w hargs
    exact first_call_unique _ _ _ _ _ (by simp) _ ht hu
  | cons n ns =>
    obtain ⟨u, hu⟩ := doDedicated_first h opts w n ns hargs
    exact first_call_unique _ _ _ _ _ (by simp) _ ht hu

theorem dedicated_guard (l : List String) :
    (l.length > 0 ∧ (l.length ≠ 1 ∨ l.head? ≠ some "all")) ↔ ¬ (l = [] ∨ l = ["all"]) := by
  match l with
  | [] => simp
  | [a] => simp
  | a :: b :: t => simp

theorem Doit_eq {σ E : Type} (h : Handler σ E) (opts : Options) (w : World σ E) :
    Doit h opts w =
      if (substituteDefault h opts w).1.Arguments = [] ∨
          (substituteDefault h opts w).1.Arguments = ["all"] then
        doAll h (substituteDefault h opts w).1 (substituteDefault h opts w).2
      else doDedicated h (substituteDefault h opts w).1 (substituteDefault h opts w).2 := by
  by_cases hc : (substituteDefault h opts w).1.Arguments = [] ∨
      (substituteDefault h opts w).1.Arguments = ["all"]
  · rw [if_pos hc]
    simp only [Doit]
    rw [if_neg]
    rw [dedicated_guard]
    exact not_not_intro hc
  · rw [if_neg hc]
    simp only [Doit]
    rw [if_pos]
    rw [dedicated_guard]
    exact hc

theorem substituteDefault_some {σ E : Type} (h : Handler σ E) (opts : Options)
    (w : World σ E) (d : String) (hargs : opts.Arguments = [])
    (hd : (h.GetDefault w.st opts).1 = some d) :
    substituteDefault h opts w =
      ({ opts with Arguments := [d] }, w.after Call.GetDefault (h.GetDefault w.st opts).2) := by
  simp [substituteDefault, hargs, hd]

theorem substituteDefault_none {σ E : Type} (h : Handler σ E) (opts : Options)
    (w : World σ E) (hargs : opts.Arguments = [])
    (hd : (h.GetDefault w.st opts).1 = none) :
    substituteDefault h opts w =
      (opts, w.after Call.GetDefault (h.GetDefault w.st opts).2) := by
  simp [substituteDefault, hargs, hd]

theorem substituteDefault_args {σ E : Type} (h : Handler σ E) (opts : Options)
    (w : World σ E) (hargs : opts.Arguments ≠ []) :
    substituteDefault h opts w = (opts, w) := by
  have hlen : opts.Arguments.length ≠ 0 := by
    simpa [List.length_eq_zero] using hargs
  simp [substituteDefault, hlen]

/-- C10: mode selection and the `all` boundary. The default substitution
leaves a non-empty argument list as it is and does not ask for the default; on
the empty list it calls `GetDefault` once and, when a default key `d` comes
back, goes on with the one-element list `[d]`, and with the empty list when
none comes back. `Doit` then is bulk resolution (`doAll`) exactly when the
list after the substitution is empty or is `["all"]`, and dedicated resolution
(`doDedicated`) exactly when it is any other list. So `Doit` on `["all"]` is
bulk, `Doit` on any other non-empty list is dedicated, `Doit` on the empty list
is bulk when there is no default or the default is `all`, and is the
dedicated resolution of the default key otherwise. In particular a list of
two or more arguments that contains `all` is resolved in dedicated mode: when
no argument requires a scan and `Get` and `Add` succeed, each argument, `all`
included, is looked up as a key through `Get`, in order, and `Iterator` is
never called. -/
theorem C10_mode_selection {σ E : Type} (h : Handler σ E) (opts : Options) (w : World σ E) :
    (Doit h opts w = doAll h (substituteDefault h opts w).1 (substituteDefault h opts w).2 ↔
      ((substituteDefault h opts w).1.Arguments = [] ∨
        (substituteDefault h opts w).1.Arguments = ["all"])) ∧
    (Doit h opts w =
        doDedicated h (substituteDefault h opts w).1 (substituteDefault h opts w).2 ↔
      ¬ ((substituteDefault h opts w).1.Arguments = [] ∨
        (substituteDefault h opts w).1.Arguments = ["all"])) ∧
    (opts.Arguments ≠ [] →
      (substituteDefault h opts w).1.Arguments = opts.Arguments ∧
      (substituteDefault h opts w).2 = w ∧
      (Doit h opts w = doAll h opts w ↔ opts.Arguments = ["all"]) ∧
      (Doit h opts w = doDedicated h opts w ↔ opts.Arguments ≠ ["all"])) ∧
    (opts.Arguments = [] → (h.GetDefault w.st opts).1 = none →
      (substituteDefault h opts w).1.Arguments = [] ∧
      (substituteDefault h opts w).2 = w.after Call.GetDefault (h.GetDefault w.st opts).2 ∧
      Doit h opts w = doAll h opts (w.after Call.GetDefault (h.GetDefault w.st opts).2) ∧
      Doit h opts w ≠
        doDedicated h opts (w.after Call.GetDefault (h.GetDefault w.st opts).2)) ∧
    (∀ d : String, opts.Arguments = [] → (h.GetDefault w.st opts).1 = some d →
      (substituteDefault h opts w).1.Arguments = [d] ∧
      (substituteDefault h opts w).2 = w.after Call.GetDefault (h.GetDefault w.st opts).2 ∧
      (Doit h opts w =
          doAll h { opts with Arguments := [d] }
            (w.after Call.GetDefault (h.GetDefault w.st opts).2) ↔ d = "all") ∧
      (Doit h opts w =
          doDedicated h { opts with Arguments := [d] }
            (w.after Call.GetDefault (h.GetDefault w.st opts).2) ↔ d ≠ "all")) ∧
    (∀ (d : String) (g : String → Option E),
      opts.Arguments = [] → (h.GetDefault w.st opts).1 = some d → d ≠ "all" →
      (∀ st, (h.RequireScan st d).1 = false) →
      (∀ st, (h.Get st d).1 = Except.ok (g d)) →
      AddSucceeds h →
      (Doit h opts w).1 = none ∧
      issued w (Doit h opts w) =
        [Call.GetDefault, Call.RequireScan d, Call.Get d, Call.Add (g d), Call.Close,
          Call.Out]) ∧
    (∀ g : String → Option E,
      2 ≤ opts.Arguments.length → "all" ∈ opts.Arguments →
      (∀ st n, n ∈ opts.Arguments → (h.RequireScan st n).1 = false) →
      (∀ st n, n ∈ opts.Arguments → (h.Get st n).1 = Except.ok (g n)) →
      AddSucceeds h →
      Doit h opts w = doDedicated h opts w ∧
      (Doit h opts w).1 = none ∧
      issued w (Doit h opts w) =
        opts.Arguments.map Call.RequireScan ++ directCalls g opts.Arguments ++
          [Call.Close, Call.Out] ∧
      gets (issued w (Doit h opts w)) = opts.Arguments ∧
      "all" ∈ gets (issued w (Doit h opts w)) ∧
      calls Kind.Iterator (issued w (Doit h opts w)) = 0) := by
  refine ⟨?_, ?_, ?_, ?_, ?_, ?_, ?_⟩
  · rw [Doit_eq]
    constructor
    · intro heq
      by_contra hc
      rw [if_neg hc] at heq
      exact doAll_ne_doDedicated h _ _ heq.symm
    · intro hc
      rw [if_pos hc]
  · rw [Doit_eq]
    constructor
    · intro heq hc
      rw [if_pos hc] at heq
      exact doAll_ne_doDedicated h _ _ heq
    · intro hc
      rw [if_neg hc]
  · intro hne
    rw [substituteDefault_args h opts w hne]
    refine ⟨rfl, rfl, ?_, ?_⟩
    · constructor
      · intro heq
        by_contra hna
        rw [Doit_dedicated h opts w hne hna] at heq
        exact doAll_ne_doDedicated h opts w heq.symm
      · intro hall
        exact Doit_all h opts w hall
    · constructor
      · intro heq hall
        rw [Doit_all h opts w hall] at heq
        exact doAll_ne_doDedicated h opts w heq
      · intro hna
        exact Doit_dedicated h opts w hne hna
  · intro hargs hd
    rw [substituteDefault_none h opts w hargs hd]
    refine ⟨hargs, rfl, Doit_empty h opts w hargs hd, ?_⟩
    rw [Doit_empty h opts w hargs hd]
    exact doAll_ne_doDedicated h opts _
  · intro d hargs hd
    have hs := substituteDefault_some h opts w d hargs hd
    have he := Doit_eq h opts w
    rw [hs] at he
    rw [hs]
    refine ⟨rfl, rfl, ?_, ?_⟩
    · constructor
      · intro heq
        by_contra hda
        rw [he, if_neg (by simpa using hda)] at heq
        exact doAll_ne_doDedicated h _ _ heq.symm
      · intro hda
        rw [he, if_pos (by simp [hda])]
    · constructor
      · intro heq hda
        rw [he, if_pos (by simp [hda])] at heq
        exact doAll_ne_doDedicated h _ _ heq
      · intro hda
        rw [he, if_neg (by simpa using hda)]
  · intro d g hargs hd hda hrs hget ha
    have hs := substituteDefault_some h opts w d hargs hd
    have he := Doit_eq h opts w
    rw [hs] at he
    rw [he, if_neg (by simpa using hda)]
    obtain ⟨h1, h2⟩ := doDedicated_direct_ok h { opts with Arguments := [d] } g
      (w.after Call.GetDefault (h.GetDefault w.st opts).2)
      (fun st n hn => by
        have hn1 : n = d := by simpa using hn
        rw [hn1]; exact hrs st)
      ha
      (fun st n hn => by
        have hn1 : n = d := by simpa using hn
        rw [hn1]; exact hget st)
    refine ⟨h1, ?_⟩
    have h3 : (doDedicated h { opts with Arguments := [d] }
        (w.after Call.GetDefault (h.GetDefault w.st opts).2)).2.trace =
        w.trace ++ [Call.GetDefault, Call.RequireScan d, Call.Get d, Call.Add (g d),
          Call.Close, Call.Out] := by
      rw [h2]
      simp [World.after, directCalls]
    exact issued_eq w _ _ h3
  · intro g hlen hmem hrs hget ha
    have hne : opts.Arguments ≠ [] := by
      intro h0; rw [h0] at hlen; simp at hlen
    have hna : opts.Arguments ≠ ["all"] := by
      intro h0; rw [h0] at hlen; simp at hlen
    have hd := Doit_dedicated h opts w hne hna
    obtain ⟨h1, h2⟩ := doDedicated_direct_ok h opts g w hrs ha hget
    rw [hd]
    have h3 := issued_eq w _ _ h2
    have h4 : gets (issued w (doDedicated h opts w)) = opts.Arguments := by
      rw [h3]
      simp [gets_append, gets_directCalls, gets_requireScan, gets]
    refine ⟨rfl, h1, h3, h4, ?_, ?_⟩
    · rw [h4]; exact hmem
    · rw [h3]
      simp [calls_append, calls_directCalls, calls_requireScan, calls_cons, calls_nil, Call.kind]

theorem C10_mode_selection_witness :
    ((2 ≤ (argsOnly ["all", "x"]).Arguments.length ∧ "all" ∈ (argsOnly ["all", "x"]).Arguments ∧
      (∀ st n, n ∈ (argsOnly ["all", "x"]).Arguments → (echoHandler.RequireScan st n).1 = false) ∧
      (∀ st n, n ∈ (argsOnly ["all", "x"]).Arguments →
        (echoHandler.Get st n).1 = Except.ok (some n)) ∧
      AddSucceeds echoHandler) ∧
     ((argsOnly []).Arguments = [] ∧
      (defaultXHandler.GetDefault (World.init : World (List (Option String)) String).st
        (argsOnly [])).1 = some "x" ∧ "x" ≠ "all" ∧
      (∀ st, (defaultXHandler.RequireScan st "x").1 = false) ∧
      (∀ st, (defaultXHandler.Get st "x").1 = Except.ok (some "x")) ∧
      AddSucceeds defaultXHandler) ∧
     ((defaultAllHandler.GetDefault (World.init : World (List (Option String)) String).st
        (argsOnly [])).1 = some "all") ∧
     (argsOnly ["x"]).Arguments ≠ [] ∧ (argsOnly ["x"]).Arguments ≠ ["all"]) ∧
    Doit echoHandler (argsOnly ["all", "x"]) World.init =
      doDedicated echoHandler (argsOnly ["all", "x"]) World.init ∧
    issued World.init (Doit echoHandler (argsOnly ["all", "x"]) World.init) =
      [Call.RequireScan "all", Call.RequireScan "x", Call.Get "all", Call.Add (some "all"),
        Call.Get "x", Call.Add (some "x"), Call.Close, Call.Out] ∧
    (Doit echoHandler (argsOnly ["all"]) World.init =
        doAll echoHandler (substituteDefault echoHandler (argsOnly ["all"]) World.init).1
          (substituteDefault echoHandler (argsOnly ["all"]) World.init).2) ∧
    issued World.init (Doit defaultXHandler (argsOnly []) World.init) =
      [Call.GetDefault, Call.RequireScan "x", Call.Get "x", Call.Add (some "x"), Call.Close,
        Call.Out] ∧
    Doit defaultAllHandler (argsOnly []) World.init =
      doAll defaultAllHandler { argsOnly [] with Arguments := ["all"] }
        (World.init.after Call.GetDefault
          (defaultAllHandler.GetDefault (World.init : World (List (Option String)) String).st
            (argsOnly [])).2) ∧
    Doit echoHandler (argsOnly ["x"]) World.init =
      doDedicated echoHandler (argsOnly ["x"]) World.init := by
  have key := (C10_mode_selection echoHandler (argsOnly ["all", "x"]) World.init).2.2.2.2.2.2
    (fun n => some n) (by decide) (by decide) (fun _ _ _ => rfl) (fun _ _ _ => rfl)
    (fun _ _ => rfl)
  exact ⟨⟨⟨by decide, by decide, fun _ _ _ => rfl, fun _ _ _ => rfl, fun _ _ => rfl⟩,
      ⟨rfl, rfl, by decide, fun _ => rfl, fun _ => rfl, fun _ _ => rfl⟩, rfl,
      by decide, by decide⟩,
    key.1, key.2.2.1,
    (C10_mode_selection echoHandler (argsOnly ["all"]) World.init).1.mpr (Or.inr rfl),
    ((C10_mode_selection defaultXHandler (argsOnly []) World.init).2.2.2.2.2.1 "x"
      (fun n => some n) rfl rfl (by decide) (fun _ => rfl) (fun _ => rfl) (fun _ _ => rfl)).2,
    ((C10_mode_selection defaultAllHandler (argsOnly []) World.init).2.2.2.2.1 "all"
      rfl rfl).2.2.1.mpr rfl,
    ((C10_mode_selection echoHandler (argsOnly ["x"]) World.init).2.2.1
      (by decide)).2.2.2.mpr (by decide)⟩

/-! ## Entry maps -/

theorem GoMap.contains_iff {K V : Type} [DecidableEq K] (m : GoMap K V) (key : K) :
    m.contains key = true ↔ key ∈ m.keys := by
  simp only [GoMap.contains, GoMap.keys, List.any_eq_true, List.mem_map, decide_eq_true_eq]

theorem GoMap.contains_false_iff {K V : Type} [DecidableEq K] (m : GoMap K V) (key : K) :
    m.contains key = false ↔ key ∉ m.keys := by
  rw [← GoMap.contains_iff]
  cases m.contains key <;> simp

theorem GoMap.find_map {K V : Type} [DecidableEq K] (f : K × Option V → K × Option V)
    (hf : ∀ p, (f p).1 = p.1) (m : GoMap K V) (k : K) :
    (m.map f).find? (fun p => decide (p.1 = k)) =
      (m.find? (fun p => decide (p.1 = k))).map f := by
  induction m with
  | nil => rfl
  | cons p m ih =>
    by_cases hp : p.1 = k
    · simp [List.find?, hf, hp]
    · simp [List.find?, hf, hp, ih]

theorem GoMap.find_of_contains {K V : Type} [DecidableEq K] (m : GoMap K V) (k : K)
    (hc : m.contains k = true) :
    ∃ p, m.find? (fun p => decide (p.1 = k)) = some p ∧ p.1 = k := by
  cases hf : m.find? (fun p => decide (p.1 = k)) with
  | none =>
    rw [List.find?_eq_none] at hf
    simp only [GoMap.contains, List.any_eq_true] at hc
    obtain ⟨p, hp, hpk⟩ := hc
    exact absurd hpk (hf p hp)
  | some p => exact ⟨p, rfl, by simpa using List.find?_some hf⟩

theorem GoMap.keys_insert {K V : Type} [DecidableEq K] (m : GoMap K V) (key : K)
    (v : Option V) :
    (m.insert key v).keys = if key ∈ m.keys then m.keys else m.keys ++ [key] := by
  by_cases hc : key ∈ m.keys
  · have hc1 : m.contains key = true := (GoMap.contains_iff m key).mpr hc
    rw [if_pos hc]
    simp only [GoMap.insert, hc1, if_true, GoMap.keys, List.map_map]
    apply List.map_congr_left
    intro p _
    by_cases hp : p.1 = key <;> simp [hp]
  · have hc1 : m.contains key = false := (GoMap.contains_false_iff m key).mpr hc
    rw [if_neg hc]
    simp [GoMap.insert, hc1, GoMap.keys]

theorem GoMap.mem_keys_insert {K V : Type} [DecidableEq K] (m : GoMap K V) (key k : K)
    (v : Option V) : k ∈ (m.insert key v).keys ↔ k ∈ m.keys ∨ k = key := by
  rw [GoMap.keys_insert]
  by_cases hc : key ∈ m.keys
  · rw [if_pos hc]
    constructor
    · exact Or.inl
    · rintro (h1 | rfl)
      · exact h1
      · exact hc
  · rw [if_neg hc]; simp

theorem GoMap.nodup_keys_insert {K V : Type} [DecidableEq K] (m : GoMap K V) (key : K)
    (v : Option V) (hm : m.keys.Nodup) : (m.insert key v).keys.Nodup := by
  rw [GoMap.keys_insert]
  by_cases hc : key ∈ m.keys
  · rw [if_pos hc]; exact hm
  · rw [if_neg hc]
    exact List.Nodup.append hm (List.nodup_singleton key) (by
      intro a ha hb
      rw [List.mem_singleton] at hb
      exact hc (hb ▸ ha))

theorem GoMap.lookup_insert_self {K V : Type} [DecidableEq K] (m : GoMap K V) (key : K)
    (v : Option V) : (m.insert key v).lookup key = v := by
  cases hc : m.contains key
  · have hf : m.find? (fun p => decide (p.1 = key)) = none := by
      rw [List.find?_eq_none]
      intro p hp
      simp only [GoMap.contains, List.any_eq_false] at hc
      exact hc p hp
    simp [GoMap.insert, hc, GoMap.lookup, List.find?_append, hf]
  · obtain ⟨p, hp, hpk⟩ := GoMap.find_of_contains m key hc
    simp only [GoMap.insert, hc, if_true, GoMap.lookup]
    rw [GoMap.find_map _ (fun q => by by_cases hq : q.1 = key <;> simp [hq]) m key, hp]
    simp [hpk]

theorem GoMap.lookup_insert_other {K V : Type} [DecidableEq K] (m : GoMap K V) (key k : K)
    (v : Option V) (hk : k ≠ key) : (m.insert key v).lookup k = m.lookup k := by
  cases hc : m.contains key
  · simp only [GoMap.insert, hc, GoMap.lookup, List.find?_append]
    cases hf : m.find? (fun p => decide (p.1 = k)) with
    | some p => simp [hf]
    | none => simp [hf, Ne.symm hk]
  · simp only [GoMap.insert, hc, if_true, GoMap.lookup]
    rw [GoMap.find_map _ (fun q => by by_cases hq : q.1 = key <;> simp [hq]) m k]
    cases hf : m.find? (fun p => decide (p.1 = k)) with
    | none => rfl
    | some p =>
      have hpk : p.1 = k := by simpa using List.find?_some hf
      have hpne : ¬ p.1 = key := fun h0 => hk (hpk.symm.trans h0)
      simp [hpne]

theorem mem_keys_fillEntries {τ K V : Type} [DecidableEq K] (c : Cacher τ K V)
    (elems : Iterator V) :
    ∀ (m : GoMap K V) (k : K),
      k ∈ (fillEntries c elems m).keys ↔ k ∈ m.keys ∨ k ∈ elems.map c.Key := by
  induction elems with
  | nil => intro m k; simp [fillEntries]
  | cons e es ih =>
    intro m k
    simp only [fillEntries, ih, GoMap.mem_keys_insert, List.map_cons, List.mem_cons]
    tauto

theorem nodup_keys_fillEntries {τ K V : Type} [DecidableEq K] (c : Cacher τ K V)
    (elems : Iterator V) :
    ∀ m : GoMap K V, m.keys.Nodup → (fillEntries c elems m).keys.Nodup := by
  induction elems with
  | nil => intro m hm; exact hm
  | cons e es ih =>
    intro m hm
    exact ih _ (GoMap.nodup_keys_insert m (c.Key e) e hm)

theorem length_fillEntries {τ K V : Type} [DecidableEq K] (c : Cacher τ K V)
    (elems : Iterator V) :
    (fillEntries c elems []).length = (elems.map c.Key).dedup.length := by
  have h1 : (fillEntries c elems []).keys.Nodup :=
    nodup_keys_fillEntries c elems [] List.nodup_nil
  have h2 : (elems.map c.Key).dedup.Nodup := List.nodup_dedup _
  have h3 : (fillEntries c elems []).keys.Perm (elems.map c.Key).dedup := by
    rw [List.perm_ext_iff_of_nodup h1 h2]
    intro k
    rw [mem_keys_fillEntries, List.mem_dedup]
    simp [GoMap.keys]
  have h4 := h3.length_eq
  simpa [GoMap.keys] using h4

theorem fillEntries_of_nodup {τ K V : Type} [DecidableEq K] (c : Cacher τ K V)
    (elems : Iterator V) :
    ∀ m : GoMap K V, (m.keys ++ elems.map c.Key).Nodup →
      fillEntries c elems m = m ++ elems.map (fun e => (c.Key e, e)) := by
  induction elems with
  | nil => intro m _; simp [fillEntries]
  | cons e es ih =>
    intro m hm
    have hnot : c.Key e ∉ m.keys := by
      intro hin
      rw [List.nodup_append] at hm
      exact hm.2.2 hin (List.mem_cons_self _ _)
    have hins : m.insert (c.Key e) e = m ++ [(c.Key e, e)] := by
      simp [GoMap.insert, (GoMap.contains_false_iff m (c.Key e)).mpr hnot]
    rw [fillEntries, hins, ih]
    · simp
    · simpa [GoMap.keys, List.append_assoc] using hm

/-- C11: partial-cache growth. On a cache with no entries and `complete`
false (fresh or just reset), for distinct keys `k1`, `k2` on which the source's
`Get` returns the non-nil elements `v1`, `v2`: `Get k1` then `Get k2` return
those elements, issue exactly the two source point-fetches, and leave the
entries with exactly the keys `k1` and `k2` and `complete` false. A `GetAll`
that follows and succeeds with the sequence `elems` issues one source `GetAll`
and replaces the entries by those built from `elems` alone: their number is
the number of distinct keys of `elems`, and a key is present exactly when
some element of `elems` has it, so a point-fetched entry stays only if the
source produces its key again. -/
theorem C11_partial_cache_growth {τ K V : Type} [DecidableEq K] (c : Cacher τ K V)
    (fmtS : K → String) (this : _Cache τ K V) (k1 k2 : K) (v1 v2 : V)
    (hnil : this.entries = none) (hnc : this.complete = false) (hne : k1 ≠ k2)
    (h1 : (c.Get this.cacher k1).1 = Except.ok (some v1))
    (h2 : (c.Get (c.Get this.cacher k1).2 k2).1 = Except.ok (some v2)) :
    (this.Get c fmtS k1).1 = Except.ok (some v1) ∧
    ((this.Get c fmtS k1).2.Get c fmtS k2).1 = Except.ok (some v2) ∧
    (this.run c fmtS [CacheOp.Get k1, CacheOp.Get k2]).calls =
      this.calls ++ [SourceCall.Get k1, SourceCall.Get k2] ∧
    (this.run c fmtS [CacheOp.Get k1, CacheOp.Get k2]).entries =
      some [(k1, some v1), (k2, some v2)] ∧
    (this.run c fmtS [CacheOp.Get k1, CacheOp.Get k2]).complete = false ∧
    (∀ (range : RangeOrder K V) (elems : Iterator V),
      (c.GetAll (this.run c fmtS [CacheOp.Get k1, CacheOp.Get k2]).cacher).1 =
        Except.ok elems →
      ((this.run c fmtS [CacheOp.Get k1, CacheOp.Get k2]).GetAll c range).2.entries =
        some (fillEntries c elems []) ∧
      ((this.run c fmtS [CacheOp.Get k1, CacheOp.Get k2]).GetAll c range).2.complete = true ∧
      ((this.run c fmtS [CacheOp.Get k1, CacheOp.Get k2]).GetAll c range).2.calls =
        this.calls ++ [SourceCall.Get k1, SourceCall.Get k2, SourceCall.GetAll] ∧
      (fillEntries c elems []).length = (elems.map c.Key).dedup.length ∧
      (∀ k, (fillEntries c elems []).contains k = true ↔ k ∈ elems.map c.Key)) := by
  have e1 : this.Get c fmtS k1 =
      (Except.ok (some v1),
        { cacher := (c.Get this.cacher k1).2, calls := this.calls ++ [SourceCall.Get k1],
          entries := some [(k1, some v1)], complete := false }) := by
    rw [Get_fetch_ok c fmtS this k1 (some v1) (fun m hm => by rw [hnil] at hm; cases hm) hnc h1]
    simp [getResult, hnil, mapOrEmpty, GoMap.insert, GoMap.contains]
  have hlk : GoMap.lookup [(k1, some v1)] k2 = none := by
    simp [GoMap.lookup, List.find?, hne]
  have e2 : (this.Get c fmtS k1).2.Get c fmtS k2 =
      (Except.ok (some v2),
        { cacher := (c.Get (c.Get this.cacher k1).2 k2).2,
          calls := this.calls ++ [SourceCall.Get k1, SourceCall.Get k2],
          entries := some [(k1, some v1), (k2, some v2)], complete := false }) := by
    rw [e1]
    rw [Get_fetch_ok c fmtS _ k2 (some v2) (fun m hm => by cases hm; exact hlk) rfl h2]
    simp [getResult, mapOrEmpty, GoMap.insert, GoMap.contains, hne]
  have e3 : this.run c fmtS [CacheOp.Get k1, CacheOp.Get k2] =
      ((this.Get c fmtS k1).2.Get c fmtS k2).2 := rfl
  rw [e3, e2]
  refine ⟨by rw [e1], rfl, rfl, rfl, rfl, ?_⟩
  intro range elems hall
  rw [GetAll_fetch_ok c range _ elems (Or.inr rfl) hall]
  refine ⟨rfl, rfl, by simp, length_fillEntries c elems, ?_⟩
  intro k
  rw [GoMap.contains_iff, mem_keys_fillEntries]
  simp [GoMap.keys]

theorem C11_partial_cache_growth_witness :
    ((NewCache () : _Cache Unit String String).entries = none ∧
      (NewCache () : _Cache Unit String String).complete = false ∧ "x" ≠ "q" ∧
      (driftSource.Get (NewCache () : _Cache Unit String String).cacher "x").1 =
        Except.ok (some "x") ∧
      (driftSource.Get (driftSource.Get (NewCache () : _Cache Unit String String).cacher "x").2
        "q").1 = Except.ok (some "q") ∧
      (driftSource.GetAll ((NewCache () : _Cache Unit String String).run driftSource id
        [CacheOp.Get "x", CacheOp.Get "q"]).cacher).1 = Except.ok [some "x"]) ∧
    ((NewCache () : _Cache Unit String String).run driftSource id
      [CacheOp.Get "x", CacheOp.Get "q"]).calls = [SourceCall.Get "x", SourceCall.Get "q"] ∧
    ((NewCache () : _Cache Unit String String).run driftSource id
      [CacheOp.Get "x", CacheOp.Get "q"]).entries = some [("x", some "x"), ("q", some "q")] ∧
    (((NewCache () : _Cache Unit String String).run driftSource id
      [CacheOp.Get "x", CacheOp.Get "q"]).GetAll driftSource reverseOrder).2.entries =
        some [("x", some "x")] := by
  have key := C11_partial_cache_growth driftSource id (NewCache ()) "x" "q" "x" "q" rfl rfl
    (by decide) rfl rfl
  exact ⟨⟨rfl, rfl, by decide, rfl, rfl, rfl⟩, key.2.2.1, key.2.2.2.1,
    (key.2.2.2.2.2 reverseOrder [some "x"] rfl).1⟩

/-- C12: `Reset` clears the state. From every cache state, after `Reset` the
flag `complete` is false and the entry map is the nil map, so `Entries` and
`Iterator` yield nothing, in whatever order they visit the map; `Reset` issues
no source call and leaves the source as it was; a second `Reset` changes
nothing; and the next `GetAll` issues a call to the source's `GetAll`, whatever
the state before the `Reset` was. -/
theorem C12_reset_clears_state {τ K V : Type} [DecidableEq K] (c : Cacher τ K V)
    (range : RangeOrder K V) (this : _Cache τ K V) :
    this.Reset.complete = false ∧
    this.Reset.entries = none ∧
    this.Reset.Entries range = [] ∧
    this.Reset.Iterator range = [] ∧
    this.Reset.calls = this.calls ∧
    this.Reset.cacher = this.cacher ∧
    this.Reset.Reset = this.Reset ∧
    (this.Reset.GetAll c range).2.calls = this.calls ++ [SourceCall.GetAll] := by
  refine ⟨rfl, rfl, rfl, rfl, rfl, rfl, rfl, ?_⟩
  cases hr : (c.GetAll this.Reset.cacher).1 with
  | error err => rw [GetAll_fetch_error c range this.Reset err (Or.inl rfl) hr]; rfl
  | ok elems => rw [GetAll_fetch_ok c range this.Reset elems (Or.inl rfl) hr]; rfl

/-- C15, as stated, fails when two elements of the source share a key: the
later one replaces the earlier one in the entry map. After a successful
`GetAll` on a source that produced `("x", 1)` and `("x", 2)`, the iterator,
like `Entries`, yields `("x", 2)` only, in whatever order the map is visited,
and the entries number one, not two. -/
theorem C15_complete_cache_counterexample :
    (versionSource.GetAll ()).1 = Except.ok [some ("x", 1), some ("x", 2)] ∧
    (∀ range : RangeOrder String (String × Nat),
      ((NewCache () : _Cache Unit String (String × Nat)).GetAll versionSource range).1 =
        Except.ok [some ("x", 2)]) ∧
    ((NewCache () : _Cache Unit String (String × Nat)).GetAll versionSource listOrder).2.complete
      = true ∧
    (∀ range : RangeOrder String (String × Nat),
      ((NewCache () : _Cache Unit String (String × Nat)).GetAll versionSource
        listOrder).2.Entries range = [some ("x", 2)]) ∧
    (∀ range : RangeOrder String (String × Nat),
      ¬ ((some ("x", 1) : Option (String × Nat)) ∈
        ((NewCache () : _Cache Unit String (String × Nat)).GetAll versionSource
          listOrder).2.Entries range)) ∧
    (∀ range : RangeOrder String (String × Nat),
      ¬ ((((NewCache () : _Cache Unit String (String × Nat)).GetAll versionSource
          listOrder).2.Iterator range).length = [some ("x", 1), some ("x", 2)].length)) := by
  have hone : ∀ range : RangeOrder String (String × Nat),
      range.visit [("x", some ("x", 2))] = [("x", some ("x", 2))] :=
    fun range => List.perm_singleton.mp (range.visits_each_once _)
  have hent : ∀ range : RangeOrder String (String × Nat),
      ((NewCache () : _Cache Unit String (String × Nat)).GetAll versionSource
        listOrder).2.Entries range = [some ("x", 2)] := by
    intro range
    show List.map (fun e => e.2) (range.visit [("x", some ("x", 2))]) = _
    rw [hone range]
    rfl
  refine ⟨rfl, ?_, rfl, hent, ?_, ?_⟩
  · intro range
    show Except.ok (List.map (fun e => e.2) (range.visit [("x", some ("x", 2))])) = _
    rw [hone range]
    rfl
  · intro range
    rw [hent range]
    decide
  · intro range
    show ¬ ((range.visit [("x", some ("x", 2))]).length = 2)
    rw [hone range]
    decide

/-- C15, amended: a complete cache contains the whole source when the keys of
the source's elements are pairwise distinct. If the cache fetches (it is not
yet fully loaded) and the source's `GetAll` produces the sequence `elems` with
pairwise distinct keys, then `Cache.GetAll` succeeds and sets `complete`, and
the iterator it returns, as well as `Entries` afterwards, yields exactly the
elements of `elems`, each as often as `elems` holds it, in an order that Go
leaves open; so each element of the source is among them, and the number of
entries equals the source's element count. -/
theorem C15_complete_cache_contains_source {τ K V : Type} [DecidableEq K]
    (c : Cacher τ K V) (range rangeE rangeI : RangeOrder K V) (this : _Cache τ K V)
    (elems : Iterator V)
    (hfetch : this.entries = none ∨ this.complete = false)
    (hsrc : (c.GetAll this.cacher).1 = Except.ok elems)
    (hkeys : (elems.map c.Key).Nodup) :
    (∃ it : Iterator V, (this.GetAll c range).1 = Except.ok it ∧ it.Perm elems ∧
      (∀ e ∈ elems, e ∈ it) ∧ (∀ e ∈ it, e ∈ elems) ∧ it.length = elems.length) ∧
    (this.GetAll c range).2.complete = true ∧
    ((this.GetAll c range).2.Entries rangeE).Perm elems ∧
    (∀ e ∈ elems, e ∈ (this.GetAll c range).2.Entries rangeE) ∧
    ((this.GetAll c range).2.Entries rangeE).length = elems.length ∧
    ((this.GetAll c range).2.Iterator rangeI).length = elems.length ∧
    (∃ m : GoMap K V, (this.GetAll c range).2.entries = some m ∧ m.length = elems.length ∧
      ∀ e ∈ elems, (c.Key e, e) ∈ m) := by
  have hfill : fillEntries c elems [] = elems.map (fun e => (c.Key e, e)) := by
    rw [fillEntries_of_nodup c elems [] (by simpa [GoMap.keys] using hkeys)]
    simp
  have hval : List.map (fun e : K × Option V => e.2) (elems.map (fun e => (c.Key e, e)))
      = elems := by
    simp [List.map_map, Function.comp_def]
  have hperm : ∀ r : RangeOrder K V,
      ((r.visit (elems.map (fun e => (c.Key e, e)))).map (fun e => e.2)).Perm elems := by
    intro r
    have h1 := (r.visits_each_once (elems.map (fun e => (c.Key e, e)))).map (fun e => e.2)
    rw [hval] at h1
    exact h1
  rw [GetAll_fetch_ok c range this elems hfetch hsrc, hfill]
  have hE : _Cache.Entries rangeE
      ({ cacher := (c.GetAll this.cacher).2, calls := this.calls ++ [SourceCall.GetAll],
         entries := some (elems.map (fun e => (c.Key e, e))), complete := true } :
          _Cache τ K V) =
      (rangeE.visit (elems.map (fun e => (c.Key e, e)))).map (fun e => e.2) := rfl
  have hI : _Cache.Iterator rangeI
      ({ cacher := (c.GetAll this.cacher).2, calls := this.calls ++ [SourceCall.GetAll],
         entries := some (elems.map (fun e => (c.Key e, e))), complete := true } :
          _Cache τ K V) =
      rangeI.visit (elems.map (fun e => (c.Key e, e))) := rfl
  refine ⟨⟨_, rfl, hperm range, fun e he => (hperm range).mem_iff.mpr he,
    fun e he => (hperm range).mem_iff.mp he, (hperm range).length_eq⟩, rfl, ?_, ?_, ?_, ?_,
    ⟨_, rfl, by simp, fun e he => List.mem_map.mpr ⟨e, he, rfl⟩⟩⟩
  · rw [hE]; exact hperm rangeE
  · intro e he; rw [hE]; exact (hperm rangeE).mem_iff.mpr he
  · rw [hE]; exact (hperm rangeE).length_eq
  · rw [hI, (rangeI.visits_each_once _).length_eq]; simp

theorem C15_complete_cache_contains_source_witness :
    (((NewCache () : _Cache Unit String String).entries = none ∨
        (NewCache () : _Cache Unit String String).complete = false) ∧
      (xySource.GetAll (NewCache () : _Cache Unit String String).cacher).1 =
        Except.ok [some "x", some "y"] ∧
      (([some "x", some "y"] : Iterator String).map xySource.Key).Nodup) ∧
    ((NewCache () : _Cache Unit String String).GetAll xySource reverseOrder).1 =
      Except.ok [some "y", some "x"] ∧
    (((NewCache () : _Cache Unit String String).GetAll xySource reverseOrder).2.Entries
      listOrder).Perm [some "x", some "y"] ∧
    (((NewCache () : _Cache Unit String String).GetAll xySource reverseOrder).2.Iterator
      reverseOrder).length = [some "x", some "y"].length := by
  have key := C15_complete_cache_contains_source xySource reverseOrder listOrder reverseOrder
    (NewCache ()) [some "x", some "y"] (Or.inl rfl) rfl (by decide)
  exact ⟨⟨Or.inl rfl, rfl, by decide⟩, rfl, key.2.2.1, key.2.2.2.2.2.1⟩

theorem Get_keeps_lookup {τ K V : Type} [DecidableEq K] (c : Cacher τ K V)
    (fmtS : K → String) (this : _Cache τ K V) (key k : K) (e : V) (m : GoMap K V)
    (hm : this.entries = some m) (hl : m.lookup k = some e) :
    ∃ m1, (this.Get c fmtS key).2.entries = some m1 ∧ m1.lookup k = some e ∧
      (this.Get c fmtS key).2.complete = this.complete := by
  by_cases hkey : m.lookup key = none
  · cases hc : this.complete with
    | true =>
      rw [Get_of_complete c fmtS this key hc (fun m0 h0 => by
        rw [hm] at h0; cases h0; exact hkey)]
      exact ⟨m, hm, hl, hc⟩
    | false =>
      have hk0 : ∀ m0, this.entries = some m0 → m0.lookup key = none := fun m0 h0 => by
        rw [hm] at h0; cases h0; exact hkey
      have hne : k ≠ key := by
        intro h0; rw [h0, hkey] at hl; cases hl
      cases hr : (c.Get this.cacher key).1 with
      | error err =>
        rw [Get_fetch_error c fmtS this key err hk0 hc hr]
        exact ⟨m, hm, hl, hc⟩
      | ok elem =>
        rw [Get_fetch_ok c fmtS this key elem hk0 hc hr]
        refine ⟨m.insert key elem, ?_, ?_, ?_⟩
        · simp only [getResult]; split <;> simp [hm, mapOrEmpty]
        · rw [GoMap.lookup_insert_other m key k elem hne]; exact hl
        · simp only [getResult]; split <;> rfl
  · obtain ⟨v, hv⟩ := Option.ne_none_iff_exists'.mp hkey
    rw [Get_cached c fmtS this key m v hm hv]
    exact ⟨m, hm, hl, rfl⟩

theorem run_keeps_lookup {τ K V : Type} [DecidableEq K] (c : Cacher τ K V)
    (fmtS : K → String) (k : K) (e : V) (ops : List (CacheOp K))
    (hops : ∀ op ∈ ops, op ≠ CacheOp.Reset ∧ op ≠ CacheOp.GetAll) :
    ∀ (this : _Cache τ K V) (m : GoMap K V), this.entries = some m → m.lookup k = some e →
      ∃ m1, (this.run c fmtS ops).entries = some m1 ∧ m1.lookup k = some e ∧
        (this.run c fmtS ops).complete = this.complete := by
  induction ops with
  | nil => intro this m hm hl; exact ⟨m, hm, hl, rfl⟩
  | cons op ops ih =>
    intro this m hm hl
    have hrest : ∀ o ∈ ops, o ≠ CacheOp.Reset ∧ o ≠ CacheOp.GetAll :=
      fun o ho => hops o (List.mem_cons_of_mem _ ho)
    have hop := hops op (List.mem_cons_self _ _)
    have hstep : ∃ m1, (this.apply c fmtS op).entries = some m1 ∧ m1.lookup k = some e ∧
        (this.apply c fmtS op).complete = this.complete := by
      cases op with
      | Reset => exact absurd rfl hop.1
      | GetAll => exact absurd rfl hop.2
      | Iterator => exact ⟨m, hm, hl, rfl⟩
      | Entries => exact ⟨m, hm, hl, rfl⟩
      | Get key => exact Get_keeps_lookup c fmtS this key k e m hm hl
    obtain ⟨m1, h1, h2, h3⟩ := hstep
    obtain ⟨m2, h4, h5, h6⟩ := ih hrest (this.apply c fmtS op) m1 h1 h2
    exact ⟨m2, h4, h5, h6.trans h3⟩

/-- C18: point-lookup memoization. On a cache that is not complete and holds
no element for the key `k`, if the source's `Get k` returns the non-nil
element `e`, then `Cache.Get k` issues that one source call, returns `e`,
stores `e` under `k` and leaves `complete` false. After any further operations
other than `Reset` and `GetAll`, `Cache.Get k` returns `e` again and leaves
the cache, its list of source calls included, as it was; so two `Get k` in a
row issue exactly one source point-fetch. -/
theorem C18_point_lookup_memoization {τ K V : Type} [DecidableEq K] (c : Cacher τ K V)
    (fmtS : K → String) (this : _Cache τ K V) (k : K) (e : V)
    (hk : ∀ m, this.entries = some m → m.lookup k = none) (hnc : this.complete = false)
    (hsrc : (c.Get this.cacher k).1 = Except.ok (some e)) :
    (this.Get c fmtS k).1 = Except.ok (some e) ∧
    (this.Get c fmtS k).2.calls = this.calls ++ [SourceCall.Get k] ∧
    (this.Get c fmtS k).2.complete = false ∧
    (∃ m, (this.Get c fmtS k).2.entries = some m ∧ m.lookup k = some e) ∧
    (∀ ops : List (CacheOp K), (∀ op ∈ ops, op ≠ CacheOp.Reset ∧ op ≠ CacheOp.GetAll) →
      (((this.Get c fmtS k).2.run c fmtS ops).Get c fmtS k) =
        (Except.ok (some e), (this.Get c fmtS k).2.run c fmtS ops)) ∧
    ((this.Get c fmtS k).2.Get c fmtS k).1 = Except.ok (some e) ∧
    ((this.Get c fmtS k).2.Get c fmtS k).2.calls = this.calls ++ [SourceCall.Get k] := by
  have e1 : this.Get c fmtS k =
      (Except.ok (some e),
        { cacher := (c.Get this.cacher k).2, calls := this.calls ++ [SourceCall.Get k],
          entries := some (GoMap.insert (mapOrEmpty this.entries) k (some e)),
          complete := false }) := by
    rw [Get_fetch_ok c fmtS this k (some e) hk hnc hsrc]
    simp [getResult]
  have hmemo : ∀ ops : List (CacheOp K),
      (∀ op ∈ ops, op ≠ CacheOp.Reset ∧ op ≠ CacheOp.GetAll) →
      (((this.Get c fmtS k).2.run c fmtS ops).Get c fmtS k) =
        (Except.ok (some e), (this.Get c fmtS k).2.run c fmtS ops) := by
    intro ops hops
    obtain ⟨m1, h1, h2, _⟩ := run_keeps_lookup c fmtS k e ops hops (this.Get c fmtS k).2
      (GoMap.insert (mapOrEmpty this.entries) k (some e)) (by rw [e1])
      (GoMap.lookup_insert_self _ k (some e))
    exact Get_cached c fmtS _ k m1 e h1 h2
  have h2 := hmemo [] (fun _ h0 => by cases h0)
  simp only [_Cache.run, List.foldl_nil] at h2
  refine ⟨by rw [e1], by rw [e1], by rw [e1], ?_, hmemo, by rw [h2], by rw [h2, e1]⟩
  exact ⟨_, by rw [e1], GoMap.lookup_insert_self _ k (some e)⟩

theorem C18_point_lookup_memoization_witness :
    ((∀ m, (NewCache () : _Cache Unit String String).entries = some m → m.lookup "x" = none) ∧
      (NewCache () : _Cache Unit String String).complete = false ∧
      (xySource.Get (NewCache () : _Cache Unit String String).cacher "x").1 =
        Except.ok (some "x") ∧
      ∀ op ∈ [CacheOp.Get "y", CacheOp.Entries], op ≠ CacheOp.Reset ∧ op ≠ CacheOp.GetAll) ∧
    ((NewCache () : _Cache Unit String String).Get xySource id "x").1 = Except.ok (some "x") ∧
    ((((NewCache () : _Cache Unit String String).Get xySource id "x").2.run xySource id
      [CacheOp.Get "y", CacheOp.Entries]).Get xySource id "x").1 = Except.ok (some "x") ∧
    (((NewCache () : _Cache Unit String String).Get xySource id "x").2.Get xySource id "x").2.calls
      = [SourceCall.Get "x"] := by
  have hops : ∀ op ∈ [CacheOp.Get "y", (CacheOp.Entries : CacheOp String)],
      op ≠ CacheOp.Reset ∧ op ≠ CacheOp.GetAll := by
    intro op hop
    simp only [List.mem_cons, List.mem_singleton, List.not_mem_nil, or_false] at hop
    rcases hop with rfl | rfl <;> exact ⟨by simp, by simp⟩
  have key := C18_point_lookup_memoization xySource id (NewCache ()) "x" "x"
    (fun m hm => by cases hm) rfl rfl
  exact ⟨⟨fun m hm => (by cases hm), rfl, rfl, hops⟩, key.1,
    by rw [key.2.2.2.2.1 _ hops], key.2.2.2.2.2.2⟩

/-! ## The single-element sink -/

theorem AddAll_of_filled {E : Type} (x : E) (es : List (Option E)) :
    ∀ this : SingleElementOutput E, this.Elem = some x →
      (this.AddAll es).1 = es.map (fun _ => some multipleSelected) ∧
      (this.AddAll es).2 = this := by
  induction es with
  | nil => intro this _; exact ⟨rfl, rfl⟩
  | cons e es ih =>
    intro this hx
    have hadd : this.Add e = (some multipleSelected, this) := by
      simp [SingleElementOutput.Add, hx]
    obtain ⟨h1, h2⟩ := ih this hx
    simp only [SingleElementOutput.AddAll, hadd, h1, h2, List.map_cons]
    constructor <;> first | rfl | trivial

/-- C16: the single-element sink. On a fresh `SingleElementOutput`, for every
sequence of `Add` calls whose first element `e` is not nil, the first `Add`
succeeds and stores `e` in `Elem`; every later `Add` fails with the error
`only one element can be selected, but multiple elements selected/found`; and
`Elem` is `e` after every call of the sequence. -/
theorem C16_single_element_sink {E : Type} (e : Option E) (es : List (Option E))
    (he : e ≠ none) :
    ((NewSingleElementOutput : SingleElementOutput E).Add e).1 = none ∧
    ((NewSingleElementOutput : SingleElementOutput E).Add e).2.Elem = e ∧
    ((NewSingleElementOutput : SingleElementOutput E).AddAll (e :: es)).1 =
      none :: es.map (fun _ => some multipleSelected) ∧
    ((NewSingleElementOutput : SingleElementOutput E).AddAll (e :: es)).2.Elem = e ∧
    (∀ pre post, es = pre ++ post →
      ((NewSingleElementOutput : SingleElementOutput E).AddAll (e :: pre)).2.Elem = e) := by
  obtain ⟨x, hx⟩ := Option.ne_none_iff_exists'.mp he
  have hadd : (NewSingleElementOutput : SingleElementOutput E).Add e = (none, { Elem := e }) := by
    simp [SingleElementOutput.Add, NewSingleElementOutput]
  have hall : ∀ l : List (Option E),
      ((NewSingleElementOutput : SingleElementOutput E).AddAll (e :: l)).1 =
        none :: l.map (fun _ => some multipleSelected) ∧
      ((NewSingleElementOutput : SingleElementOutput E).AddAll (e :: l)).2.Elem = e := by
    intro l
    obtain ⟨h1, h2⟩ := AddAll_of_filled x l { Elem := e } hx
    simp only [SingleElementOutput.AddAll, hadd, h1, h2]
    constructor <;> first | rfl | trivial
  refine ⟨by rw [hadd], by rw [hadd], (hall es).1, (hall es).2, fun pre _ _ => (hall pre).2⟩

theorem C16_single_element_sink_witness :
    ((some "a" : Option String) ≠ none) ∧
    ((NewSingleElementOutput : SingleElementOutput String).AddAll
      [some "a", some "b", some "c"]).1 = [none, some multipleSelected, some multipleSelected] ∧
    ((NewSingleElementOutput : SingleElementOutput String).AddAll
      [some "a", some "b", some "c"]).2.Elem = some "a" := by
  have key := C16_single_element_sink (some "a") [some "b", some "c"] (by simp)
  exact ⟨by simp, key.2.2.1, key.2.2.2.1⟩

/-! ## The result of `Close` -/

theorem doAllLoop_withCloseResult {σ E : Type} (h : Handler σ E) (x : σ → Option Error)
    (opts : Options) (s : Iterator E) :
    ∀ w : World σ E, doAllLoop (withCloseResult h x) opts s w = doAllLoop h opts s w := by
  induction s with
  | nil => intro w; rfl
  | cons e i ih => intro w; simp only [doAllLoop, ih]; rfl

theorem scanLoop_withCloseResult {σ E : Type} (h : Handler σ E) (x : σ → Option Error)
    (opts : Options) (n : String) (s : Iterator E) :
    ∀ (found : Bool) (w : World σ E),
      scanLoop (withCloseResult h x) opts n s found w = scanLoop h opts n s found w := by
  induction s with
  | nil => intro found w; rfl
  | cons e i ih => intro found w; simp only [scanLoop, ih]; rfl

theorem directLoop_withCloseResult {σ E : Type} (h : Handler σ E) (x : σ → Option Error)
    (args : List String) :
    ∀ w : World σ E, directLoop (withCloseResult h x) args w = directLoop h args w := by
  induction args with
  | nil => intro w; rfl
  | cons n ns ih => intro w; simp only [directLoop, ih]; rfl

theorem scanArgs_withCloseResult {σ E : Type} (h : Handler σ E) (x : σ → Option Error)
    (opts : Options) (args : List String) :
    ∀ w : World σ E, scanArgs (withCloseResult h x) opts args w = scanArgs h opts args w := by
  induction args with
  | nil => intro w; rfl
  | cons n ns ih =>
    intro w
    simp only [scanArgs, ih, scanLoop_withCloseResult]
    rfl

theorem doDedicatedFrom_withCloseResult {σ E : Type} (h : Handler σ E)
    (x : σ → Option Error) (opts : Options) (ns : List String) :
    ∀ w : World σ E,
      doDedicatedFrom (withCloseResult h x) opts ns w = doDedicatedFrom h opts ns w := by
  induction ns with
  | nil =>
    intro w
    simp only [doDedicatedFrom, directLoop_withCloseResult]
    rfl
  | cons n ns ih =>
    intro w
    simp only [doDedicatedFrom, ih, scanMode, scanArgs_withCloseResult]
    rfl

theorem Doit_withCloseResult {σ E : Type} (h : Handler σ E) (x : σ → Option Error)
    (opts : Options) (w : World σ E) : Doit (withCloseResult h x) opts w = Doit h opts w := by
  have hs : substituteDefault (withCloseResult h x) opts w = substituteDefault h opts w := rfl
  have hall : ∀ o (v : World σ E), doAll (withCloseResult h x) o v = doAll h o v := by
    intro o v
    simp only [doAll, doAllLoop_withCloseResult]
    rfl
  simp only [Doit, hs, hall, doDedicated, doDedicatedFrom_withCloseResult]

/-- C19: `Close` errors are discarded. Replacing the error value `Close`
returns by any other value leaves the whole outcome of `Doit` unchanged, in
every mode. In bulk resolution, when `Iterator` yields `s`, `Match` and `Add`
never fail and `Close` fails, `Doit` returns no error and the calls end with
`Close` followed by `Out`. In direct mode, when every `Get` and `Add` succeeds
and `Close` fails, `Doit` likewise returns no error and the calls end with
`Close` followed by `Out`. -/
theorem C19_close_errors_discarded {σ E : Type} (h : Handler σ E) (opts : Options)
    (w : World σ E) :
    (∀ x : σ → Option Error, Doit (withCloseResult h x) opts w = Doit h opts w) ∧
    (∀ (s : Iterator E) (m : Option E → Bool) (cerr : Error),
      IteratorYields h s → MatchIs h m → AddSucceeds h →
      (∀ st, (h.Close st).1 = some cerr) →
      (opts.Arguments = ["all"] ∨ (opts.Arguments = [] ∧ NoDefault h)) →
      (Doit h opts w).1 = none ∧
      issued w (Doit h opts w) =
        defaultCalls opts ++ (Call.Iterator :: bulkCalls m s) ++ [Call.Close, Call.Out]) ∧
    (∀ (g : String → Option E) (cerr : Error),
      opts.Arguments ≠ [] → opts.Arguments ≠ ["all"] →
      (∀ st n, n ∈ opts.Arguments → (h.RequireScan st n).1 = false) →
      (∀ st n, n ∈ opts.Arguments → (h.Get st n).1 = Except.ok (g n)) →
      AddSucceeds h →
      (∀ st, (h.Close st).1 = some cerr) →
      (Doit h opts w).1 = none ∧
      issued w (Doit h opts w) =
        (opts.Arguments.map Call.RequireScan ++ directCalls g opts.Arguments) ++
          [Call.Close, Call.Out]) := by
  refine ⟨fun x => Doit_withCloseResult h x opts w, ?_, ?_⟩
  · intro s m cerr hit hm ha _ hargs
    rcases hargs with hall | ⟨hnil, hnd⟩
    · obtain ⟨h1, h2⟩ := doAll_spec h opts m s hit hm ha w
      rw [Doit_all h opts w hall]
      refine ⟨h1, issued_eq _ _ _ ?_⟩
      rw [h2]; simp [defaultCalls, hall]
    · obtain ⟨h1, h2⟩ := doAll_spec h opts m s hit hm ha
        (w.after Call.GetDefault (h.GetDefault w.st opts).2)
      rw [Doit_empty h opts w hnil (hnd w.st opts)]
      refine ⟨h1, issued_eq _ _ _ ?_⟩
      rw [h2]; simp [defaultCalls, hnil, World.after]
  · intro g cerr hne hall hrs hget ha _
    obtain ⟨h1, h2⟩ := doDedicated_direct_ok h opts g w hrs ha hget
    rw [Doit_dedicated h opts w hne hall]
    exact ⟨h1, issued_eq w _ _ (by rw [h2])⟩

theorem C19_close_errors_discarded_witness :
    ((IteratorYields closeFailsHandler abc ∧ MatchIs closeFailsHandler acOnly ∧
        AddSucceeds closeFailsHandler ∧
        (∀ st, (closeFailsHandler.Close st).1 = some "close failed") ∧
        ((argsOnly ["all"]).Arguments = ["all"] ∨
          ((argsOnly ["all"]).Arguments = [] ∧ NoDefault closeFailsHandler))) ∧
      ((argsOnly ["x"]).Arguments ≠ [] ∧ (argsOnly ["x"]).Arguments ≠ ["all"] ∧
        (∀ st n, n ∈ (argsOnly ["x"]).Arguments →
          (xyCloseFailsHandler.RequireScan st n).1 = false) ∧
        (∀ st n, n ∈ (argsOnly ["x"]).Arguments →
          (xyCloseFailsHandler.Get st n).1 = Except.ok (some n)) ∧
        AddSucceeds xyCloseFailsHandler ∧
        (∀ st, (xyCloseFailsHandler.Close st).1 = some "close failed"))) ∧
    ((Doit closeFailsHandler (argsOnly ["all"]) World.init).1 = none ∧
      issued World.init (Doit closeFailsHandler (argsOnly ["all"]) World.init) =
        [Call.Iterator, Call.Match (some "a"), Call.Add (some "a"), Call.Match (some "b"),
          Call.Match (some "c"), Call.Add (some "c"), Call.Close, Call.Out]) ∧
    ((Doit xyCloseFailsHandler (argsOnly ["x"]) World.init).1 = none ∧
      issued World.init (Doit xyCloseFailsHandler (argsOnly ["x"]) World.init) =
        [Call.RequireScan "x", Call.Get "x", Call.Add (some "x"), Call.Close, Call.Out]) := by
  have hgx : ∀ (st : List (Option String)) (n : String), n ∈ (argsOnly ["x"]).Arguments →
      (xyCloseFailsHandler.Get st n).1 = Except.ok (some n) := by
    intro st n hn
    have hx : n = "x" := by simpa [argsOnly] using hn
    subst hx; rfl
  have k1 := (C19_close_errors_discarded closeFailsHandler (argsOnly ["all"]) World.init).2.1
    abc acOnly "close failed" (fun _ _ => rfl) (fun _ _ _ => rfl) (fun _ _ => rfl)
    (fun _ => rfl) (Or.inl rfl)
  have k2 := (C19_close_errors_discarded xyCloseFailsHandler (argsOnly ["x"]) World.init).2.2
    (fun n => some n) "close failed" (by decide) (by decide) (fun _ _ _ => rfl) hgx
    (fun _ _ => rfl) (fun _ => rfl)
  exact ⟨⟨⟨fun _ _ => rfl, fun _ _ _ => rfl, fun _ _ => rfl, fun _ => rfl, Or.inl rfl⟩,
    ⟨by decide, by decide, fun _ _ _ => rfl, hgx, fun _ _ => rfl, fun _ => rfl⟩⟩,
    ⟨k1.1, k1.2⟩, ⟨k2.1, k2.2⟩⟩

/-! ## Scan mode over several arguments -/

theorem scanModeResult_eq_flatten {E : Type} (rs : String → Bool) (g : String → Option E)
    (m : Option E → Bool) (mn : Option E → String → Bool) (s : Iterator E)
    (args : List String) :
    scanModeResult rs g m mn s args = (args.map (argResult rs g m mn s)).flatten := by
  induction args with
  | nil => rfl
  | cons n ns ih => simp [scanModeResult, ih]

theorem scanModeCalls_append {E : Type} (rs : String → Bool) (g : String → Option E)
    (m : Option E → Bool) (mn : Option E → String → Bool) (s : Iterator E)
    (pre post : List String) :
    scanModeCalls rs g m mn s (pre ++ post) =
      scanModeCalls rs g m mn s pre ++ scanModeCalls rs g m mn s post := by
  induction pre with
  | nil => rfl
  | cons n ns ih => simp [scanModeCalls, ih]

theorem doDedicated_scan_ok {σ E : Type} (h : Handler σ E) (opts : Options) (w : World σ E)
    (rs : String → Bool) (g : String → Option E) (m : Option E → Bool)
    (mn : Option E → String → Bool) (s : Iterator E)
    (hscan : ∃ a ∈ opts.Arguments, rs a = true)
    (hrs : RequireScanIs h rs) (hit : IteratorYields h s) (hm : MatchIs h m)
    (hmn : MatchNameIs h mn) (ha : AddSucceeds h)
    (hget : ∀ st a, a ∈ opts.Arguments → rs a = false → (h.Get st a).1 = Except.ok (g a))
    (hnn : ∀ a ∈ opts.Arguments, rs a = false → g a ≠ none)
    (hpre : ∀ a ∈ opts.Arguments, rs a = true → ∃ e ∈ s, m e = true ∧ mn e a = true) :
    (doDedicated h opts w).1 = none ∧
    issued w (doDedicated h opts w) =
      requireScanPrefix rs opts.Arguments ++
        (Call.Iterator :: scanModeCalls rs g m mn s opts.Arguments ++ [Call.Out]) := by
  obtain ⟨w1, h1, h2⟩ := doDedicatedFrom_scan h opts rs hrs opts.Arguments hscan w
  obtain ⟨k1, k2⟩ := scanMode_ok h opts rs g m mn s hrs hit hm hmn ha hget hnn hpre w1
  rw [doDedicated, h2]
  exact ⟨k1, issued_eq w _ _ (by rw [k2, h1]; simp)⟩

theorem not_all_of_scan {σ E : Type} (h : Handler σ E) (opts : Options) (w : World σ E)
    (hall : opts.Arguments ≠ ["all"]) (hex : ∃ a, a ∈ opts.Arguments) :
    Doit h opts w = doDedicated h opts w := by
  apply Doit_dedicated h opts w _ hall
  intro h0
  obtain ⟨a, ha⟩ := hex
  rw [h0] at ha
  cases ha

/-- C20: the output of scan mode is the concatenation of what each argument
selects, without deduplication. In scan mode (the argument list is not
`["all"]` and some argument requires a scan), when `Iterator` yields `s`,
`Match`, `MatchName` and `Add` never fail and every argument resolves, `Doit`
returns no error and the elements added to the sink are, in argument order,
the result list of each argument: for a pattern the elements of `s` that pass
`Match` and `MatchName`, in the order of `s`; for an exact name the element
`Get` returns if it passes `Match`. For the list `[p, p]` every element the
pattern `p` selects is therefore added twice. -/
theorem C20_scan_mode_concatenation {σ E : Type} (h : Handler σ E) (opts : Options)
    (w : World σ E) (rs : String → Bool) (g : String → Option E) (m : Option E → Bool)
    (mn : Option E → String → Bool) (s : Iterator E)
    (hall : opts.Arguments ≠ ["all"]) (hscan : ∃ a ∈ opts.Arguments, rs a = true)
    (hrs : RequireScanIs h rs) (hit : IteratorYields h s) (hm : MatchIs h m)
    (hmn : MatchNameIs h mn) (ha : AddSucceeds h)
    (hget : ∀ st a, a ∈ opts.Arguments → rs a = false → (h.Get st a).1 = Except.ok (g a))
    (hnn : ∀ a ∈ opts.Arguments, rs a = false → g a ≠ none)
    (hpre : ∀ a ∈ opts.Arguments, rs a = true → ∃ e ∈ s, m e = true ∧ mn e a = true) :
    (Doit h opts w).1 = none ∧
    adds (issued w (Doit h opts w)) = (opts.Arguments.map (argResult rs g m mn s)).flatten ∧
    issued w (Doit h opts w) =
      requireScanPrefix rs opts.Arguments ++
        (Call.Iterator :: scanModeCalls rs g m mn s opts.Arguments ++ [Call.Out]) ∧
    (∀ p, opts.Arguments = [p, p] →
      adds (issued w (Doit h opts w)) =
        s.filter (fun e => m e && mn e p) ++ s.filter (fun e => m e && mn e p)) := by
  have hd : Doit h opts w = doDedicated h opts w :=
    not_all_of_scan h opts w hall (by obtain ⟨a, ha1, _⟩ := hscan; exact ⟨a, ha1⟩)
  obtain ⟨k1, k2⟩ := doDedicated_scan_ok h opts w rs g m mn s hscan hrs hit hm hmn ha hget
    hnn hpre
  have k3 : adds (issued w (doDedicated h opts w)) =
      (opts.Arguments.map (argResult rs g m mn s)).flatten := by
    rw [k2, ← scanModeResult_eq_flatten]
    simp [adds, adds_append, adds_requireScanPrefix, adds_scanModeCalls]
  rw [hd]
  refine ⟨k1, k3, k2, ?_⟩
  intro p hp
  have hrp : rs p = true := by
    obtain ⟨a, ha1, ha2⟩ := hscan
    rw [hp] at ha1
    have : a = p := by simpa using ha1
    rw [← this]; exact ha2
  rw [k3, hp]
  simp [argResult, hrp]

theorem C20_scan_mode_concatenation_witness :
    ((argsOnly ["pat*", "pat*"]).Arguments ≠ ["all"] ∧
      (∃ a ∈ (argsOnly ["pat*", "pat*"]).Arguments, (fun _ => true) a = true) ∧
      RequireScanIs patHandler (fun _ => true) ∧ IteratorYields patHandler pats ∧
      MatchIs patHandler (fun _ => true) ∧ MatchNameIs patHandler patMatchName ∧
      AddSucceeds patHandler ∧
      (∀ a ∈ (argsOnly ["pat*", "pat*"]).Arguments, (fun _ => true) a = true →
        ∃ e ∈ pats, (fun _ => true) e = true ∧ patMatchName e a = true)) ∧
    (Doit patHandler (argsOnly ["pat*", "pat*"]) World.init).1 = none ∧
    adds (issued World.init (Doit patHandler (argsOnly ["pat*", "pat*"]) World.init)) =
      [some "pat1", some "pat2", some "pat1", some "pat2"] := by
  have hpre : ∀ a ∈ (argsOnly ["pat*", "pat*"]).Arguments, (fun _ => true) a = true →
      ∃ e ∈ pats, (fun _ => true) e = true ∧ patMatchName e a = true := by
    intro a ha _
    have hx : a = "pat*" := by simpa [argsOnly] using ha
    subst hx
    exact ⟨some "pat1", by decide, rfl, by decide⟩
  have key := C20_scan_mode_concatenation patHandler (argsOnly ["pat*", "pat*"]) World.init
    (fun _ => true) (fun _ => none) (fun _ => true) patMatchName pats (by decide)
    ⟨"pat*", by decide, rfl⟩ (fun _ _ => rfl) (fun _ _ => rfl) (fun _ _ _ => rfl)
    (fun _ _ _ => rfl) (fun _ _ => rfl) (fun _ _ _ hra => by cases hra)
    (fun _ _ hra => by cases hra) hpre
  exact ⟨⟨by decide, ⟨"pat*", by decide, rfl⟩, fun _ _ => rfl, fun _ _ => rfl,
    fun _ _ _ => rfl, fun _ _ _ => rfl, fun _ _ => rfl, hpre⟩, key.1,
    (key.2.2.2 "pat*" rfl).trans (by decide)⟩

theorem scanArgs_first {σ E : Type} (h : Handler σ E) (opts : Options) (p : String)
    (ps : List String) (w : World σ E) :
    ∃ t, (scanArgs h opts (p :: ps) w).2.trace = w.trace ++ Call.RequireScan p :: t := by
  have hx := scanArgs_extends h opts (p :: ps) w
  simp only [scanArgs] at hx ⊢
  split
  · split
    · exact first_after (extends_after (extends_refl _))
    · exact first_after (extends_after (extends_refl _))
    · split
      · exact first_after (extends_after (extends_after (extends_refl _)))
      · split
        · split
          · exact first_after (extends_after (extends_after (extends_after
              (extends_refl _))))
          · exact first_after (extends_after (extends_after (extends_after
              (scanArgs_extends h opts ps _))))
        · exact first_after (extends_after (extends_after (scanArgs_extends h opts ps _)))
  · split
    · exact first_after (extends_after (extends_refl _))
    · split
      · exact first_after (extends_after (scanLoop_extends h opts p _ false _))
      · split
        · exact first_after (extends_after (scanLoop_extends h opts p _ false _))
        · exact first_after (extends_after
            (extends_trans (scanArgs_extends h opts ps _) (scanLoop_extends h opts p _ false _)))

theorem argCalls_exact {E : Type} (rs : String → Bool) (g : String → Option E)
    (m : Option E → Bool) (mn : Option E → String → Bool) (s : Iterator E) (n : String)
    (hn : rs n = false) :
    argCalls rs g m mn s n =
      Call.RequireScan n :: Call.Get n :: Call.Match (g n) ::
        (if m (g n) then [Call.Add (g n)] else []) := by
  cases hme : m (g n) <;> simp [argCalls, hn, hme]

/-- C17: an exact-name argument inside scan mode. Let some argument of the
list require a scan, and let `n` be an argument with `RequireScan n` false,
reached after the arguments `pre` before it have resolved. When `Get n`
returns the non-nil element `g n` and `Match` and `Add` do not fail, the calls
made for `n` are `RequireScan n`, one `Get n`, `Match (g n)` and, exactly when
`Match` holds, `Add (g n)`; no `MatchName` is called for `n`. Resolution then
continues without error: the next call is `RequireScan` on the following
argument, or, when `n` is the last argument, `Out`, and `Doit` returns no
error. -/
theorem C17_exact_name_in_scan_mode {σ E : Type} (h : Handler σ E) (opts : Options)
    (w : World σ E) (rs : String → Bool) (g : String → Option E) (m : Option E → Bool)
    (mn : Option E → String → Bool) (s : Iterator E)
    (pre : List String) (n : String) (post : List String)
    (hargs : opts.Arguments = pre ++ n :: post)
    (hscan : ∃ a ∈ opts.Arguments, rs a = true)
    (hrs : RequireScanIs h rs) (hn : rs n = false)
    (hit : IteratorYields h s) (hm : MatchIs h m) (hmn : MatchNameIs h mn)
    (ha : AddSucceeds h)
    (hget : ∀ st a, a ∈ pre ++ [n] → rs a = false → (h.Get st a).1 = Except.ok (g a))
    (hnn : ∀ a ∈ pre ++ [n], rs a = false → g a ≠ none)
    (hpre : ∀ a ∈ pre, rs a = true → ∃ e ∈ s, m e = true ∧ mn e a = true) :
    ∃ t, issued w (Doit h opts w) =
        requireScanPrefix rs opts.Arguments ++
          (Call.Iterator :: scanModeCalls rs g m mn s pre) ++
          (Call.RequireScan n :: Call.Get n :: Call.Match (g n) ::
            (if m (g n) then [Call.Add (g n)] else [])) ++ t ∧
      (∀ p ps, post = p :: ps → ∃ t1, t = Call.RequireScan p :: t1) ∧
      (post = [] → t = [Call.Out] ∧ (Doit h opts w).1 = none) := by
  have hit1 : ∀ st o, (h.Iterator st o).1 = Except.ok s := hit
  have hall : opts.Arguments ≠ ["all"] := by
    intro h0
    obtain ⟨a, ha1, ha2⟩ := hscan
    rw [h0] at ha1 hargs
    have haa : a = "all" := by simpa using ha1
    have hnall : n = "all" := by
      cases pre with
      | nil => simp at hargs; exact hargs.1.symm
      | cons q qs =>
        cases qs <;> simp at hargs
    rw [haa] at ha2
    rw [hnall, ha2] at hn
    cases hn
  have hd : Doit h opts w = doDedicated h opts w :=
    not_all_of_scan h opts w hall (by obtain ⟨a, ha1, _⟩ := hscan; exact ⟨a, ha1⟩)
  obtain ⟨w1, h1, h2⟩ := doDedicatedFrom_scan h opts rs hrs opts.Arguments hscan w
  have hpre2 : ∀ a ∈ pre ++ [n], rs a = true → ∃ e ∈ s, m e = true ∧ mn e a = true := by
    intro a ha1 hra
    rcases List.mem_append.mp ha1 with hin | hin
    · exact hpre a hin hra
    · have : a = n := by simpa using hin
      rw [this, hn] at hra; cases hra
  obtain ⟨w3, h3, h4⟩ := scanArgs_ok h opts rs g m mn s hrs hit hm hmn ha (pre ++ [n]) post
    hget hnn hpre2 (w1.after Call.Iterator (h.Iterator w1.st opts).2)
  have hsplit : opts.Arguments = (pre ++ [n]) ++ post := by rw [hargs]; simp
  have hw3 : w3.trace = w.trace ++ (requireScanPrefix rs opts.Arguments ++
      (Call.Iterator :: scanModeCalls rs g m mn s pre) ++
      (Call.RequireScan n :: Call.Get n :: Call.Match (g n) ::
        (if m (g n) then [Call.Add (g n)] else []))) := by
    rw [h3, scanModeCalls_append]
    simp only [scanModeCalls, argCalls_exact rs g m mn s n hn, World.after, h1]
    simp
  have hsm : scanMode h opts w1 =
      match (scanArgs h opts post w3).1 with
      | some err => (some err, (scanArgs h opts post w3).2)
      | none => (none, (scanArgs h opts post w3).2.after Call.Out
          (h.Out (scanArgs h opts post w3).2.st)) := by
    simp only [scanMode, hit1]
    rw [hsplit, h4]
  rw [hd, doDedicated, h2, hsm]
  cases post with
  | nil =>
    refine ⟨[Call.Out], issued_eq w _ _ ?_, fun p ps h0 => (by cases h0), fun _ => ⟨rfl, ?_⟩⟩
    · simp [scanArgs, World.after, hw3]
    · simp [scanArgs]
  | cons p ps =>
    obtain ⟨t1, ht1⟩ := scanArgs_first h opts p ps w3
    cases hres : (scanArgs h opts (p :: ps) w3).1 with
    | some err =>
      refine ⟨Call.RequireScan p :: t1, issued_eq w _ _ ?_,
        fun q qs h0 => (by cases h0; exact ⟨t1, rfl⟩), fun h0 => (by cases h0)⟩
      simp only [ht1, hw3]
      simp
    | none =>
      refine ⟨Call.RequireScan p :: (t1 ++ [Call.Out]), issued_eq w _ _ ?_,
        fun q qs h0 => (by cases h0; exact ⟨t1 ++ [Call.Out], rfl⟩), fun h0 => (by cases h0)⟩
      simp only [World.after, ht1, hw3]
      simp

theorem C17_exact_name_in_scan_mode_witness :
    ((argsOnly ["other", "pat*"]).Arguments = [] ++ "other" :: ["pat*"] ∧
      (∃ a ∈ (argsOnly ["other", "pat*"]).Arguments, mixedScan a = true) ∧
      RequireScanIs pickyHandler mixedScan ∧ mixedScan "other" = false ∧
      IteratorYields pickyHandler pats ∧ MatchIs pickyHandler notOther ∧
      MatchNameIs pickyHandler patMatchName ∧ AddSucceeds pickyHandler ∧
      (∀ st a, a ∈ [] ++ ["other"] → mixedScan a = false →
        (pickyHandler.Get st a).1 = Except.ok (some a)) ∧
      (∀ a ∈ [] ++ ["other"], mixedScan a = false → (some a : Option String) ≠ none)) ∧
    (∃ t, issued World.init (Doit pickyHandler (argsOnly ["other", "pat*"]) World.init) =
        requireScanPrefix mixedScan (argsOnly ["other", "pat*"]).Arguments ++
          (Call.Iterator :: scanModeCalls mixedScan (fun a => some a) notOther patMatchName
            pats []) ++
          (Call.RequireScan "other" :: Call.Get "other" :: Call.Match (some "other") ::
            (if notOther (some "other") then [Call.Add (some "other")] else [])) ++ t ∧
      (∀ p ps, ["pat*"] = p :: ps → ∃ t1, t = Call.RequireScan p :: t1) ∧
      (["pat*"] = [] →
        t = [Call.Out] ∧
          (Doit pickyHandler (argsOnly ["other", "pat*"]) World.init).1 = none)) ∧
    issued World.init (Doit pickyHandler (argsOnly ["other", "pat*"]) World.init) =
      [Call.RequireScan "other", Call.RequireScan "pat*", Call.Iterator,
        Call.RequireScan "other", Call.Get "other", Call.Match (some "other"),
        Call.RequireScan "pat*", Call.Iterator,
        Call.Match (some "pat1"), Call.MatchName (some "pat1") "pat*", Call.Add (some "pat1"),
        Call.Match (some "pat2"), Call.MatchName (some "pat2") "pat*", Call.Add (some "pat2"),
        Call.Match (some "other"), Call.Out] := by
  have hget : ∀ (st : List (Option String)) (a : String), a ∈ [] ++ ["other"] →
      mixedScan a = false → (pickyHandler.Get st a).1 = Except.ok (some a) := by
    intro st a ha _
    have hx : a = "other" := by simpa using ha
    subst hx; rfl
  have key := C17_exact_name_in_scan_mode pickyHandler (argsOnly ["other", "pat*"])
    World.init mixedScan (fun a => some a) notOther patMatchName pats [] "other" ["pat*"]
    rfl ⟨"pat*", by decide, by decide⟩ (fun _ _ => rfl) (by decide) (fun _ _ => rfl)
    (fun _ _ _ => rfl) (fun _ _ _ => rfl) (fun _ _ => rfl) hget (fun _ _ _ => by simp)
    (fun _ hin _ => by cases hin)
  exact ⟨⟨rfl, ⟨"pat*", by decide, by decide⟩, fun _ _ => rfl, by decide, fun _ _ => rfl,
    fun _ _ _ => rfl, fun _ _ _ => rfl, fun _ _ => rfl, hget, fun _ _ _ => by simp⟩,
    key, by decide⟩

/-! ## Invariants of a run -/

theorem Outcome.of_none {σ E : Type} {I : σ → Prop} {F : Error → σ → Prop}
    {r : Option Error × World σ E} (ho : Outcome I F r) (hr : r.1 = none) : I r.2.st := by
  rcases ho with h1 | ⟨err, h2, _⟩
  · exact h1
  · rw [hr] at h2; cases h2

theorem ScanOutcome.of_ok {σ E : Type} {I : σ → Prop} {F : Error → σ → Prop}
    {r : Except Error Bool × World σ E} (ho : ScanOutcome I F r) (b : Bool)
    (hr : r.1 = Except.ok b) : I r.2.st := by
  rcases ho with h1 | ⟨err, h2, _⟩
  · exact h1
  · rw [hr] at h2; cases h2

theorem doAllLoop_steps {σ E : Type} (h : Handler σ E) (I : σ → Prop)
    (F : Error → σ → Prop) (hs : Steps h I F) (opts : Options) (s : Iterator E) :
    ∀ w : World σ E, I w.st → Outcome I F (doAllLoop h opts s w) := by
  induction s with
  | nil => intro w hI; exact Or.inl hI
  | cons e i ih =>
    intro w hI
    cases hr : (h.Match w.st e opts).1 with
    | error err =>
      simp only [doAllLoop, hr]
      exact Or.inr ⟨err, rfl, hs.Match_error _ _ _ _ hI hr⟩
    | ok ok =>
      have hI1 := hs.Match_ok _ _ _ _ hI hr
      cases ok with
      | false =>
        simp only [doAllLoop, hr]
        exact ih _ hI1
      | true =>
        cases hadd : (h.Add (h.Match w.st e opts).2 e).1 with
        | some err =>
          simp only [doAllLoop, hr, World.after, hadd, if_true]
          exact Or.inr ⟨err, rfl, hs.Add_error _ _ _ hI1 hadd⟩
        | none =>
          simp only [doAllLoop, hr, World.after, hadd, if_true]
          exact ih _ (hs.Add_ok _ _ hI1 hadd)

theorem scanLoop_steps {σ E : Type} (h : Handler σ E) (I : σ → Prop)
    (F : Error → σ → Prop) (hs : Steps h I F) (opts : Options) (n : String)
    (s : Iterator E) :
    ∀ (found : Bool) (w : World σ E), I w.st → ScanOutcome I F (scanLoop h opts n s found w) := by
  induction s with
  | nil => intro found w hI; exact Or.inl hI
  | cons e i ih =>
    intro found w hI
    cases hr : (h.Match w.st e opts).1 with
    | error err =>
      simp only [scanLoop, hr]
      exact Or.inr ⟨err, rfl, hs.Match_error _ _ _ _ hI hr⟩
    | ok ok =>
      have hI1 := hs.Match_ok _ _ _ _ hI hr
      cases ok with
      | false =>
        simp only [scanLoop, hr]
        exact ih _ _ hI1
      | true =>
        cases hmn : (h.MatchName (h.Match w.st e opts).2 e n).1 with
        | error err =>
          simp only [scanLoop, hr, World.after, hmn, if_true]
          exact Or.inr ⟨err, rfl, hs.MatchName_error _ _ _ _ hI1 hmn⟩
        | ok ok2 =>
          have hI2 := hs.MatchName_ok _ _ _ _ hI1 hmn
          cases ok2 with
          | false =>
            simp only [scanLoop, hr, World.after, hmn, if_true]
            exact ih _ _ hI2
          | true =>
            cases hadd : (h.Add (h.MatchName (h.Match w.st e opts).2 e n).2 e).1 with
            | some err =>
              simp only [scanLoop, hr, World.after, hmn, hadd, if_true]
              exact Or.inr ⟨err, rfl, hs.Add_error _ _ _ hI2 hadd⟩
            | none =>
              simp only [scanLoop, hr, World.after, hmn, hadd, if_true]
              exact ih _ _ (hs.Add_ok _ _ hI2 hadd)

theorem directLoop_steps {σ E : Type} (h : Handler σ E) (I : σ → Prop)
    (F : Error → σ → Prop) (hs : Steps h I F) (args : List String) :
    ∀ w : World σ E, I w.st → Outcome I F (directLoop h args w) := by
  induction args with
  | nil => intro w hI; exact Or.inl hI
  | cons n ns ih =>
    intro w hI
    cases hg : (h.Get w.st n).1 with
    | error err =>
      simp only [directLoop, hg]
      exact Or.inr ⟨err, rfl, hs.Get_error _ _ _ hI hg⟩
    | ok e =>
      have hI1 := hs.Get_ok _ _ _ hI hg
      cases hadd : (h.Add (h.Get w.st n).2 e).1 with
      | some err =>
        simp only [directLoop, hg, World.after, hadd]
        exact Or.inr ⟨err, rfl, hs.Add_error _ _ _ hI1 hadd⟩
      | none =>
        simp only [directLoop, hg, World.after, hadd]
        exact ih _ (hs.Add_ok _ _ hI1 hadd)

theorem scanArgs_steps {σ E : Type} (h : Handler σ E) (I : σ → Prop)
    (F : Error → σ → Prop) (hs : Steps h I F) (opts : Options) (args : List String) :
    ∀ w : World σ E, I w.st → Outcome I F (scanArgs h opts args w) := by
  induction args with
  | nil => intro w hI; exact Or.inl hI
  | cons n ns ih =>
    intro w hI
    have hI0 := hs.RequireScan _ n hI
    cases hq : (h.RequireScan w.st n).1 with
    | false =>
      cases hg : (h.Get (h.RequireScan w.st n).2 n).1 with
      | error err =>
        simp only [scanArgs, hq, World.after, hg]
        exact Or.inr ⟨err, rfl, hs.Get_error _ _ _ hI0 hg⟩
      | ok v =>
        have hI1 := hs.Get_ok _ _ _ hI0 hg
        cases v with
        | none =>
          simp only [scanArgs, hq, World.after, hg]
          exact Or.inl hI1
        | some x =>
          cases hr : (h.Match (h.Get (h.RequireScan w.st n).2 n).2 (some x) opts).1 with
          | error err =>
            simp only [scanArgs, hq, World.after, hg, hr]
            exact Or.inr ⟨err, rfl, hs.Match_error _ _ _ _ hI1 hr⟩
          | ok ok =>
            have hI2 := hs.Match_ok _ _ _ _ hI1 hr
            cases ok with
            | false =>
              simp only [scanArgs, hq, World.after, hg, hr]
              exact ih _ hI2
            | true =>
              cases hadd : (h.Add (h.Match (h.Get (h.RequireScan w.st n).2 n).2 (some x)
                  opts).2 (some x)).1 with
              | some err =>
                simp only [scanArgs, hq, World.after, hg, hr, hadd]
                exact Or.inr ⟨err, rfl, hs.Add_error _ _ _ hI2 hadd⟩
              | none =>
                simp only [scanArgs, hq, World.after, hg, hr, hadd]
                exact ih _ (hs.Add_ok _ _ hI2 hadd)
    | true =>
      cases hit : (h.Iterator (h.RequireScan w.st n).2 opts).1 with
      | error err =>
        simp only [scanArgs, hq, World.after, hit]
        exact Or.inr ⟨err, rfl, hs.Iterator_error _ _ _ hI0 hit⟩
      | ok i =>
        have hI1 := hs.Iterator_ok _ _ _ hI0 hit
        have hloop := scanLoop_steps h I F hs opts n i false
          ⟨(h.Iterator (h.RequireScan w.st n).2 opts).2,
            w.trace ++ [Call.RequireScan n] ++ [Call.Iterator]⟩ hI1
        cases hl : (scanLoop h opts n i false
          ⟨(h.Iterator (h.RequireScan w.st n).2 opts).2,
            w.trace ++ [Call.RequireScan n] ++ [Call.Iterator]⟩).1 with
        | error err =>
          simp only [scanArgs, hq, World.after, hit, hl]
          rcases hloop with h1 | ⟨err1, h2, h3⟩
          · exact Or.inl h1
          · rw [hl] at h2
            cases h2
            exact Or.inr ⟨err, rfl, h3⟩
        | ok found =>
          have hI2 := hloop.of_ok found hl
          cases found with
          | false =>
            simp only [scanArgs, hq, World.after, hit, hl]
            exact Or.inl hI2
          | true =>
            simp only [scanArgs, hq, World.after, hit, hl]
            exact ih _ hI2

theorem scanMode_steps {σ E : Type} (h : Handler σ E) (I : σ → Prop)
    (F : Error → σ → Prop) (hs : Steps h I F) (opts : Options) (w : World σ E)
    (hI : I w.st) : Outcome I F (scanMode h opts w) := by
  cases hit : (h.Iterator w.st opts).1 with
  | error err =>
    simp only [scanMode, hit]
    exact Or.inr ⟨err, rfl, hs.Iterator_error _ _ _ hI hit⟩
  | ok i =>
    have hI1 := hs.Iterator_ok _ _ _ hI hit
    have hloop := scanArgs_steps h I F hs opts opts.Arguments
      (w.after Call.Iterator (h.Iterator w.st opts).2) hI1
    cases hl : (scanArgs h opts opts.Arguments
        (w.after Call.Iterator (h.Iterator w.st opts).2)).1 with
    | some err =>
      simp only [scanMode, hit, hl]
      rcases hloop with h1 | ⟨err1, h2, h3⟩
      · exact Or.inl h1
      · rw [hl] at h2
        cases h2
        exact Or.inr ⟨err, rfl, h3⟩
    | none =>
      simp only [scanMode, hit, hl]
      exact Or.inl (hs.Out _ (hloop.of_none hl))

theorem doAll_steps {σ E : Type} (h : Handler σ E) (I : σ → Prop)
    (F : Error → σ → Prop) (hs : Steps h I F) (opts : Options) (w : World σ E)
    (hI : I w.st) : Outcome I F (doAll h opts w) := by
  cases hit : (h.Iterator w.st opts).1 with
  | error err =>
    simp only [doAll, hit]
    exact Or.inr ⟨err, rfl, hs.Iterator_error _ _ _ hI hit⟩
  | ok i =>
    have hI1 := hs.Iterator_ok _ _ _ hI hit
    have hloop := doAllLoop_steps h I F hs opts i
      (w.after Call.Iterator (h.Iterator w.st opts).2) hI1
    cases hl : (doAllLoop h opts i (w.after Call.Iterator (h.Iterator w.st opts).2)).1 with
    | some err =>
      simp only [doAll, hit, hl]
      rcases hloop with h1 | ⟨err1, h2, h3⟩
      · exact Or.inl h1
      · rw [hl] at h2
        cases h2
        exact Or.inr ⟨err, rfl, h3⟩
    | none =>
      simp only [doAll, hit, hl]
      exact Or.inl (hs.Out _ (hs.Close _ (hloop.of_none hl)))

theorem doDedicatedFrom_steps {σ E : Type} (h : Handler σ E) (I : σ → Prop)
    (F : Error → σ → Prop) (hs : Steps h I F) (opts : Options) (ns : List String) :
    ∀ w : World σ E, I w.st → Outcome I F (doDedicatedFrom h opts ns w) := by
  induction ns with
  | nil =>
    intro w hI
    have hloop := directLoop_steps h I F hs opts.Arguments w hI
    cases hl : (directLoop h opts.Arguments w).1 with
    | some err =>
      simp only [doDedicatedFrom, hl]
      rcases hloop with h1 | ⟨err1, h2, h3⟩
      · exact Or.inl h1
      · rw [hl] at h2
        cases h2
        exact Or.inr ⟨err, rfl, h3⟩
    | none =>
      simp only [doDedicatedFrom, hl]
      exact Or.inl (hs.Out _ (hs.Close _ (hloop.of_none hl)))
  | cons n ns ih =>
    intro w hI
    have hI0 := hs.RequireScan _ n hI
    cases hq : (h.RequireScan w.st n).1 with
    | false =>
      simp only [doDedicatedFrom, hq]
      exact ih _ hI0
    | true =>
      simp only [doDedicatedFrom, hq, if_true]
      exact scanMode_steps h I F hs opts _ hI0

theorem substituteDefault_steps {σ E : Type} (h : Handler σ E) (I : σ → Prop)
    (F : Error → σ → Prop) (hs : Steps h I F) (opts : Options) (w : World σ E)
    (hI : I w.st) : I (substituteDefault h opts w).2.st := by
  simp only [substituteDefault]
  split
  · split
    · exact hs.GetDefault _ _ hI
    · exact hs.GetDefault _ _ hI
  · exact hI

theorem Doit_steps {σ E : Type} (h : Handler σ E) (I : σ → Prop)
    (F : Error → σ → Prop) (hs : Steps h I F) (opts : Options) (w : World σ E)
    (hI : I w.st) : Outcome I F (Doit h opts w) := by
  have hI0 := substituteDefault_steps h I F hs opts w hI
  simp only [Doit]
  split
  · exact doDedicatedFrom_steps h I F hs _ _ _ hI0
  · exact doAll_steps h I F hs _ _ hI0

/-! ## Recording the outcome of each call -/

theorem Clean.nil {E : Type} : Clean ([] : Record E) := by
  intro x hx; cases hx

theorem Clean.snoc_ok {E : Type} {l : Record E} (hl : Clean l) (c : Call E) :
    Clean (l ++ [(c, none)]) := by
  intro x hx
  rcases List.mem_append.mp hx with h1 | h1
  · exact hl x h1
  · have : x = (c, none) := by simpa using h1
    rw [this]; exact Or.inl rfl

theorem Clean.snoc_close {E : Type} {l : Record E} (hl : Clean l) (r : Option Error) :
    Clean (l ++ [(Call.Close, r)]) := by
  intro x hx
  rcases List.mem_append.mp hx with h1 | h1
  · exact hl x h1
  · have : x = (Call.Close, r) := by simpa using h1
    rw [this]; exact Or.inr rfl

theorem recorded_steps {σ E : Type} (h : Handler σ E) (l0 : Record E) :
    Steps (recorded h)
      (fun st => ∃ new, st.2 = l0 ++ new ∧ Clean new)
      (fun err st => ∃ new, st.2 = l0 ++ new ∧ FailedLast err new) where
  GetDefault := by
    rintro st o ⟨new, h1, h2⟩
    exact ⟨new ++ [(Call.GetDefault, none)], by simp [recorded, h1], h2.snoc_ok _⟩
  RequireScan := by
    rintro st n ⟨new, h1, h2⟩
    exact ⟨new ++ [(Call.RequireScan n, none)], by simp [recorded, h1], h2.snoc_ok _⟩
  MatchName_ok := by
    rintro st e n v ⟨new, h1, h2⟩ hr
    have hr1 : (h.MatchName st.1 e n).1 = Except.ok v := hr
    exact ⟨new ++ [(Call.MatchName e n, none)], by simp [recorded, h1, hr1, errOf],
      h2.snoc_ok _⟩
  MatchName_error := by
    rintro st e n err ⟨new, h1, h2⟩ hr
    have hr1 : (h.MatchName st.1 e n).1 = Except.error err := hr
    exact ⟨new ++ [(Call.MatchName e n, some err)], by simp [recorded, h1, hr1, errOf],
      new, _, rfl, h2⟩
  Get_ok := by
    rintro st n v ⟨new, h1, h2⟩ hr
    have hr1 : (h.Get st.1 n).1 = Except.ok v := hr
    exact ⟨new ++ [(Call.Get n, none)], by simp [recorded, h1, hr1, errOf], h2.snoc_ok _⟩
  Get_error := by
    rintro st n err ⟨new, h1, h2⟩ hr
    have hr1 : (h.Get st.1 n).1 = Except.error err := hr
    exact ⟨new ++ [(Call.Get n, some err)], by simp [recorded, h1, hr1, errOf],
      new, _, rfl, h2⟩
  Iterator_ok := by
    rintro st o v ⟨new, h1, h2⟩ hr
    have hr1 : (h.Iterator st.1 o).1 = Except.ok v := hr
    exact ⟨new ++ [(Call.Iterator, none)], by simp [recorded, h1, hr1, errOf], h2.snoc_ok _⟩
  Iterator_error := by
    rintro st o err ⟨new, h1, h2⟩ hr
    have hr1 : (h.Iterator st.1 o).1 = Except.error err := hr
    exact ⟨new ++ [(Call.Iterator, some err)], by simp [recorded, h1, hr1, errOf],
      new, _, rfl, h2⟩
  Match_ok := by
    rintro st e o v ⟨new, h1, h2⟩ hr
    have hr1 : (h.Match st.1 e o).1 = Except.ok v := hr
    exact ⟨new ++ [(Call.Match e, none)], by simp [recorded, h1, hr1, errOf], h2.snoc_ok _⟩
  Match_error := by
    rintro st e o err ⟨new, h1, h2⟩ hr
    have hr1 : (h.Match st.1 e o).1 = Except.error err := hr
    exact ⟨new ++ [(Call.Match e, some err)], by simp [recorded, h1, hr1, errOf],
      new, _, rfl, h2⟩
  Add_ok := by
    rintro st e ⟨new, h1, h2⟩ hr
    have hr1 : (h.Add st.1 e).1 = none := hr
    exact ⟨new ++ [(Call.Add e, none)], by simp [recorded, h1, hr1], h2.snoc_ok _⟩
  Add_error := by
    rintro st e err ⟨new, h1, h2⟩ hr
    have hr1 : (h.Add st.1 e).1 = some err := hr
    exact ⟨new ++ [(Call.Add e, some err)], by simp [recorded, h1, hr1], new, _, rfl, h2⟩
  Close := by
    rintro st ⟨new, h1, h2⟩
    exact ⟨new ++ [(Call.Close, (h.Close st.1).1)], by simp [recorded, h1], h2.snoc_close _⟩
  Out := by
    rintro st ⟨new, h1, h2⟩
    exact ⟨new ++ [(Call.Out, none)], by simp [recorded, h1], h2.snoc_ok _⟩

theorem failed_call_is_last {E : Type} (new pre post : Record E) (c : Call E)
    (err err1 : Error) (hc : c.kind ≠ Kind.Close)
    (hsplit : new = pre ++ (c, some err) :: post) (hf : FailedLast err1 new) :
    post = [] ∧ err1 = err ∧ Clean pre := by
  obtain ⟨pre1, c1, h1, h2⟩ := hf
  rw [hsplit] at h1
  rcases List.eq_nil_or_concat post with h0 | ⟨post1, z, h0⟩
  · rw [h0] at h1
    have hj := List.append_inj' h1 rfl
    have hx : (c, some err) = (c1, some err1) := by simpa using hj.2
    have herr : err = err1 := by
      have := congrArg Prod.snd hx
      simpa using this
    exact ⟨h0, herr.symm, hj.1 ▸ h2⟩
  · exfalso
    rw [h0, List.concat_eq_append] at h1
    have h3 : (pre ++ (c, some err) :: post1) ++ [z] = pre1 ++ [(c1, some err1)] := by
      rw [← h1]; simp
    have hj := List.append_inj_left' h3 rfl
    have hmem : (c, some err) ∈ pre1 := by rw [← hj]; simp
    rcases h2 _ hmem with h4 | h4
    · cases h4
    · exact hc h4

theorem recorded_GetDefault {σ E : Type} (h : Handler σ E) (st : σ × Record E) (o : Options) :
    (recorded h).GetDefault st o =
      ((h.GetDefault st.1 o).1, ((h.GetDefault st.1 o).2, st.2 ++ [(Call.GetDefault, none)])) :=
  rfl

theorem recorded_RequireScan {σ E : Type} (h : Handler σ E) (st : σ × Record E) (n : String) :
    (recorded h).RequireScan st n =
      ((h.RequireScan st.1 n).1,
        ((h.RequireScan st.1 n).2, st.2 ++ [(Call.RequireScan n, none)])) :=
  rfl

theorem recorded_MatchName {σ E : Type} (h : Handler σ E) (st : σ × Record E) (e : Option E)
    (n : String) :
    (recorded h).MatchName st e n =
      ((h.MatchName st.1 e n).1,
        ((h.MatchName st.1 e n).2,
          st.2 ++ [(Call.MatchName e n, errOf (h.MatchName st.1 e n).1)])) :=
  rfl

theorem recorded_Get {σ E : Type} (h : Handler σ E) (st : σ × Record E) (n : String) :
    (recorded h).Get st n =
      ((h.Get st.1 n).1, ((h.Get st.1 n).2, st.2 ++ [(Call.Get n, errOf (h.Get st.1 n).1)])) :=
  rfl

theorem recorded_Iterator {σ E : Type} (h : Handler σ E) (st : σ × Record E) (o : Options) :
    (recorded h).Iterator st o =
      ((h.Iterator st.1 o).1,
        ((h.Iterator st.1 o).2, st.2 ++ [(Call.Iterator, errOf (h.Iterator st.1 o).1)])) :=
  rfl

theorem recorded_Match {σ E : Type} (h : Handler σ E) (st : σ × Record E) (e : Option E)
    (o : Options) :
    (recorded h).Match st e o =
      ((h.Match st.1 e o).1,
        ((h.Match st.1 e o).2, st.2 ++ [(Call.Match e, errOf (h.Match st.1 e o).1)])) :=
  rfl

theorem recorded_Add {σ E : Type} (h : Handler σ E) (st : σ × Record E) (e : Option E) :
    (recorded h).Add st e =
      ((h.Add st.1 e).1, ((h.Add st.1 e).2, st.2 ++ [(Call.Add e, (h.Add st.1 e).1)])) :=
  rfl

theorem recorded_Close {σ E : Type} (h : Handler σ E) (st : σ × Record E) :
    (recorded h).Close st =
      ((h.Close st.1).1, ((h.Close st.1).2, st.2 ++ [(Call.Close, (h.Close st.1).1)])) :=
  rfl

theorem recorded_Out {σ E : Type} (h : Handler σ E) (st : σ × Record E) :
    (recorded h).Out st = (h.Out st.1, st.2 ++ [(Call.Out, none)]) :=
  rfl

theorem doAllLoop_recorded {σ E : Type} (h : Handler σ E) (opts : Options) (s : Iterator E) :
    ∀ (w : World σ E) (l : Record E), ∃ l1,
      doAllLoop (recorded h) opts s (w.withRecord l) =
        ((doAllLoop h opts s w).1, (doAllLoop h opts s w).2.withRecord l1) := by
  induction s with
  | nil => intro w l; exact ⟨l, rfl⟩
  | cons e i ih =>
    intro w l
    cases hr : (h.Match w.st e opts).1 with
    | error err =>
      simp only [doAllLoop, World.withRecord, World.after, recorded_Match, hr]
      exact ⟨_, rfl⟩
    | ok ok =>
      cases ok with
      | false =>
        simp only [doAllLoop, World.withRecord, World.after, recorded_Match, hr]
        exact ih ⟨_, _⟩ _
      | true =>
        cases hadd : (h.Add (h.Match w.st e opts).2 e).1 with
        | some err =>
          simp only [doAllLoop, World.withRecord, World.after, recorded_Match, recorded_Add, hr,
            hadd, if_true]
          exact ⟨_, rfl⟩
        | none =>
          simp only [doAllLoop, World.withRecord, World.after, recorded_Match, recorded_Add, hr,
            hadd, if_true]
          exact ih ⟨_, _⟩ _

theorem scanLoop_recorded {σ E : Type} (h : Handler σ E) (opts : Options) (n : String)
    (s : Iterator E) :
    ∀ (found : Bool) (w : World σ E) (l : Record E), ∃ l1,
      scanLoop (recorded h) opts n s found (w.withRecord l) =
        ((scanLoop h opts n s found w).1, (scanLoop h opts n s found w).2.withRecord l1) := by
  induction s with
  | nil => intro found w l; exact ⟨l, rfl⟩
  | cons e i ih =>
    intro found w l
    cases hr : (h.Match w.st e opts).1 with
    | error err =>
      simp only [scanLoop, World.withRecord, World.after, recorded_Match, hr]
      exact ⟨_, rfl⟩
    | ok ok =>
      cases ok with
      | false =>
        simp only [scanLoop, World.withRecord, World.after, recorded_Match, hr]
        exact ih _ ⟨_, _⟩ _
      | true =>
        cases hmn : (h.MatchName (h.Match w.st e opts).2 e n).1 with
        | error err =>
          simp only [scanLoop, World.withRecord, World.after, recorded_Match,
            recorded_MatchName, hr, hmn, if_true]
          exact ⟨_, rfl⟩
        | ok ok2 =>
          cases ok2 with
          | false =>
            simp only [scanLoop, World.withRecord, World.after, recorded_Match,
              recorded_MatchName, hr, hmn, if_true]
            exact ih _ ⟨_, _⟩ _
          | true =>
            cases hadd : (h.Add (h.MatchName (h.Match w.st e opts).2 e n).2 e).1 with
            | some err =>
              simp only [scanLoop, World.withRecord, World.after, recorded_Match,
                recorded_MatchName, recorded_Add, hr, hmn, hadd, if_true]
              exact ⟨_, rfl⟩
            | none =>
              simp only [scanLoop, World.withRecord, World.after, recorded_Match,
                recorded_MatchName, recorded_Add, hr, hmn, hadd, if_true]
              exact ih _ ⟨_, _⟩ _

theorem directLoop_recorded {σ E : Type} (h : Handler σ E) (args : List String) :
    ∀ (w : World σ E) (l : Record E), ∃ l1,
      directLoop (recorded h) args (w.withRecord l) =
        ((directLoop h args w).1, (directLoop h args w).2.withRecord l1) := by
  induction args with
  | nil => intro w l; exact ⟨l, rfl⟩
  | cons n ns ih =>
    intro w l
    cases hg : (h.Get w.st n).1 with
    | error err =>
      simp only [directLoop, World.withRecord, World.after, recorded_Get, hg]
      exact ⟨_, rfl⟩
    | ok e =>
      cases hadd : (h.Add (h.Get w.st n).2 e).1 with
      | some err =>
        simp only [directLoop, World.withRecord, World.after, recorded_Get, recorded_Add, hg,
          hadd]
        exact ⟨_, rfl⟩
      | none =>
        simp only [directLoop, World.withRecord, World.after, recorded_Get, recorded_Add, hg,
          hadd]
        exact ih ⟨_, _⟩ _

theorem scanArgs_recorded {σ E : Type} (h : Handler σ E) (opts : Options)
    (args : List String) :
    ∀ (w : World σ E) (l : Record E), ∃ l1,
      scanArgs (recorded h) opts args (w.withRecord l) =
        ((scanArgs h opts args w).1, (scanArgs h opts args w).2.withRecord l1) := by
  induction args with
  | nil => intro w l; exact ⟨l, rfl⟩
  | cons n ns ih =>
    intro w l
    cases hq : (h.RequireScan w.st n).1 with
    | false =>
      cases hg : (h.Get (h.RequireScan w.st n).2 n).1 with
      | error err =>
        simp only [scanArgs, World.withRecord, World.after, recorded_RequireScan, recorded_Get,
          hq, hg]
        exact ⟨_, rfl⟩
      | ok v =>
        cases v with
        | none =>
          simp only [scanArgs, World.withRecord, World.after, recorded_RequireScan,
            recorded_Get, hq, hg]
          exact ⟨_, rfl⟩
        | some x =>
          cases hr : (h.Match (h.Get (h.RequireScan w.st n).2 n).2 (some x) opts).1 with
          | error err =>
            simp only [scanArgs, World.withRecord, World.after, recorded_RequireScan,
              recorded_Get, recorded_Match, hq, hg, hr]
            exact ⟨_, rfl⟩
          | ok ok =>
            cases ok with
            | false =>
              simp only [scanArgs, World.withRecord, World.after, recorded_RequireScan,
                recorded_Get, recorded_Match, hq, hg, hr]
              exact ih ⟨_, _⟩ _
            | true =>
              cases hadd : (h.Add (h.Match (h.Get (h.RequireScan w.st n).2 n).2 (some x)
                  opts).2 (some x)).1 with
              | some err =>
                simp only [scanArgs, World.withRecord, World.after, recorded_RequireScan,
                  recorded_Get, recorded_Match, recorded_Add, hq, hg, hr, hadd]
                exact ⟨_, rfl⟩
              | none =>
                simp only [scanArgs, World.withRecord, World.after, recorded_RequireScan,
                  recorded_Get, recorded_Match, recorded_Add, hq, hg, hr, hadd]
                exact ih ⟨_, _⟩ _
    | true =>
      cases hit : (h.Iterator (h.RequireScan w.st n).2 opts).1 with
      | error err =>
        simp only [scanArgs, World.withRecord, World.after, recorded_RequireScan,
          recorded_Iterator, hq, hit, Bool.not_true, Bool.false_eq_true, if_false]
        exact ⟨_, rfl⟩
      | ok i =>
        obtain ⟨l1, hl1⟩ := scanLoop_recorded h opts n i false
          ⟨(h.Iterator (h.RequireScan w.st n).2 opts).2,
            w.trace ++ [Call.RequireScan n] ++ [Call.Iterator]⟩
          (l ++ [(Call.RequireScan n, none)] ++
            [(Call.Iterator, errOf (Except.ok i : Except Error (Iterator E)))])
        simp only [World.withRecord] at hl1
        cases hl : (scanLoop h opts n i false
          ⟨(h.Iterator (h.RequireScan w.st n).2 opts).2,
            w.trace ++ [Call.RequireScan n] ++ [Call.Iterator]⟩).1 with
        | error err =>
          simp only [scanArgs, World.withRecord, World.after, recorded_RequireScan,
            recorded_Iterator, hq, hit, hl1, hl, Bool.not_true, Bool.false_eq_true,
              if_false]
          exact ⟨_, rfl⟩
        | ok found =>
          cases found with
          | false =>
            simp only [scanArgs, World.withRecord, World.after, recorded_RequireScan,
              recorded_Iterator, hq, hit, hl1, hl, Bool.not_true, Bool.false_eq_true,
              if_false]
            exact ⟨_, rfl⟩
          | true =>
            simp only [scanArgs, World.withRecord, World.after, recorded_RequireScan,
              recorded_Iterator, hq, hit, hl1, hl, Bool.not_true, Bool.false_eq_true,
              if_false]
            exact ih _ _

theorem scanMode_recorded {σ E : Type} (h : Handler σ E) (opts : Options) (w : World σ E)
    (l : Record E) : ∃ l1,
      scanMode (recorded h) opts (w.withRecord l) =
        ((scanMode h opts w).1, (scanMode h opts w).2.withRecord l1) := by
  cases hit : (h.Iterator w.st opts).1 with
  | error err =>
    simp only [scanMode, World.withRecord, World.after, recorded_Iterator, hit]
    exact ⟨_, rfl⟩
  | ok i =>
    obtain ⟨l1, hl1⟩ := scanArgs_recorded h opts opts.Arguments
      ⟨(h.Iterator w.st opts).2, w.trace ++ [Call.Iterator]⟩
      (l ++ [(Call.Iterator, errOf (Except.ok i : Except Error (Iterator E)))])
    simp only [World.withRecord] at hl1
    cases hl : (scanArgs h opts opts.Arguments
        ⟨(h.Iterator w.st opts).2, w.trace ++ [Call.Iterator]⟩).1 with
    | some err =>
      simp only [scanMode, World.withRecord, World.after, recorded_Iterator, hit, hl1, hl]
      exact ⟨_, rfl⟩
    | none =>
      simp only [scanMode, World.withRecord, World.after, recorded_Iterator, recorded_Out, hit,
        hl1, hl]
      exact ⟨_, rfl⟩

theorem doAll_recorded {σ E : Type} (h : Handler σ E) (opts : Options) (w : World σ E)
    (l : Record E) : ∃ l1,
      doAll (recorded h) opts (w.withRecord l) =
        ((doAll h opts w).1, (doAll h opts w).2.withRecord l1) := by
  cases hit : (h.Iterator w.st opts).1 with
  | error err =>
    simp only [doAll, World.withRecord, World.after, recorded_Iterator, hit]
    exact ⟨_, rfl⟩
  | ok i =>
    obtain ⟨l1, hl1⟩ := doAllLoop_recorded h opts i
      ⟨(h.Iterator w.st opts).2, w.trace ++ [Call.Iterator]⟩
      (l ++ [(Call.Iterator, errOf (Except.ok i : Except Error (Iterator E)))])
    simp only [World.withRecord] at hl1
    cases hl : (doAllLoop h opts i ⟨(h.Iterator w.st opts).2, w.trace ++ [Call.Iterator]⟩).1 with
    | some err =>
      simp only [doAll, World.withRecord, World.after, recorded_Iterator, hit, hl1, hl]
      exact ⟨_, rfl⟩
    | none =>
      simp only [doAll, World.withRecord, World.after, recorded_Iterator, recorded_Out,
        recorded_Close, hit, hl1, hl]
      exact ⟨_, rfl⟩

theorem doDedicatedFrom_recorded {σ E : Type} (h : Handler σ E) (opts : Options)
    (ns : List String) :
    ∀ (w : World σ E) (l : Record E), ∃ l1,
      doDedicatedFrom (recorded h) opts ns (w.withRecord l) =
        ((doDedicatedFrom h opts ns w).1, (doDedicatedFrom h opts ns w).2.withRecord l1) := by
  induction ns with
  | nil =>
    intro w l
    obtain ⟨l1, hl1⟩ := directLoop_recorded h opts.Arguments w l
    simp only [World.withRecord] at hl1
    cases hl : (directLoop h opts.Arguments w).1 with
    | some err =>
      simp only [doDedicatedFrom, World.withRecord, hl1, hl]
      exact ⟨_, rfl⟩
    | none =>
      simp only [doDedicatedFrom, hl1, hl, World.withRecord, World.after, recorded_Close,
        recorded_Out]
      exact ⟨_, rfl⟩
  | cons n ns ih =>
    intro w l
    cases hq : (h.RequireScan w.st n).1 with
    | false =>
      simp only [doDedicatedFrom, World.withRecord, World.after, recorded_RequireScan, hq]
      exact ih ⟨_, _⟩ _
    | true =>
      simp only [doDedicatedFrom, World.withRecord, World.after, recorded_RequireScan, hq,
        if_true]
      exact scanMode_recorded h opts ⟨_, _⟩ _

theorem substituteDefault_recorded {σ E : Type} (h : Handler σ E) (opts : Options)
    (w : World σ E) (l : Record E) : ∃ l1,
      substituteDefault (recorded h) opts (w.withRecord l) =
        ((substituteDefault h opts w).1, (substituteDefault h opts w).2.withRecord l1) := by
  by_cases hlen : opts.Arguments.length = 0
  · cases hd : (h.GetDefault w.st opts).1 with
    | none =>
      simp only [substituteDefault, hlen, if_true, World.withRecord, World.after,
        recorded_GetDefault, hd]
      exact ⟨_, rfl⟩
    | some d =>
      simp only [substituteDefault, hlen, if_true, World.withRecord, World.after,
        recorded_GetDefault, hd]
      exact ⟨_, rfl⟩
  · simp only [substituteDefault, hlen, if_false]
    exact ⟨l, rfl⟩

theorem Doit_recorded {σ E : Type} (h : Handler σ E) (opts : Options) (w : World σ E)
    (l : Record E) : ∃ l1,
      Doit (recorded h) opts (w.withRecord l) =
        ((Doit h opts w).1, (Doit h opts w).2.withRecord l1) := by
  obtain ⟨l0, hl0⟩ := substituteDefault_recorded h opts w l
  simp only [Doit, hl0, doDedicated]
  split
  · exact doDedicatedFrom_recorded h _ _ _ _
  · exact doAll_recorded h _ _ _

/-- C14: error propagation aborts resolution. Let the handler keep a record of
its calls and of the error each returned (`recorded h`, which runs as `h`
runs: same result, same calls, same handler state). In every mode, if the
record of a `Doit` shows an `Iterator`, `Get`, `Match`, `MatchName` or `Add`
call that returned an error `err`, then that call is the last call of the
record, so no capability is invoked after it, neither `Close` nor `Out`;
`Doit` returns `err` itself; and no call before it failed, `Close` apart. -/
theorem C14_error_propagation {σ E : Type} (h : Handler σ E) (opts : Options)
    (w : World σ E) (l0 : Record E) :
    (Doit (recorded h) opts (w.withRecord l0)).1 = (Doit h opts w).1 ∧
    (Doit (recorded h) opts (w.withRecord l0)).2.trace = (Doit h opts w).2.trace ∧
    (Doit (recorded h) opts (w.withRecord l0)).2.st.1 = (Doit h opts w).2.st ∧
    ∃ new, (Doit (recorded h) opts (w.withRecord l0)).2.st.2 = l0 ++ new ∧
      ∀ (pre : Record E) (c : Call E) (err : Error) (post : Record E),
        new = pre ++ (c, some err) :: post →
        (c.kind = Kind.Iterator ∨ c.kind = Kind.Get ∨ c.kind = Kind.Match ∨
          c.kind = Kind.MatchName ∨ c.kind = Kind.Add) →
        post = [] ∧ (Doit h opts w).1 = some err ∧ Clean pre := by
  obtain ⟨l1, hl1⟩ := Doit_recorded h opts w l0
  have hout := Doit_steps (recorded h) _ _ (recorded_steps h l0) opts (w.withRecord l0)
    ⟨[], by simp [World.withRecord], Clean.nil⟩
  rw [hl1] at hout ⊢
  refine ⟨rfl, rfl, rfl, ?_⟩
  rcases hout with ⟨new, h1, h2⟩ | ⟨err1, h3, new, h1, h2⟩
  · refine ⟨new, h1, ?_⟩
    intro pre c err post hsplit hkind
    exfalso
    have hmem : (c, some err) ∈ new := by rw [hsplit]; simp
    rcases h2 _ hmem with h4 | h4
    · cases h4
    · rw [h4] at hkind
      simp at hkind
  · refine ⟨new, h1, ?_⟩
    intro pre c err post hsplit hkind
    have hc : c.kind ≠ Kind.Close := by
      intro h0
      rw [h0] at hkind
      simp at hkind
    obtain ⟨k1, k2, k3⟩ := failed_call_is_last new pre post c err err1 hc hsplit h2
    exact ⟨k1, by rw [← k2]; exact h3, k3⟩

theorem C14_error_propagation_witness :
    ([(Call.Iterator, none), (Call.Match (some "a"), none), (Call.Add (some "a"), none),
        (Call.Match (some "b"), some "filter failed")] =
      [(Call.Iterator, none), (Call.Match (some "a"), none), (Call.Add (some "a"), none)] ++
        ((Call.Match (some "b") : Call String), some "filter failed") :: [] ∧
      ((Call.Match (some "b") : Call String).kind = Kind.Iterator ∨
        (Call.Match (some "b") : Call String).kind = Kind.Get ∨
        (Call.Match (some "b") : Call String).kind = Kind.Match ∨
        (Call.Match (some "b") : Call String).kind = Kind.MatchName ∨
        (Call.Match (some "b") : Call String).kind = Kind.Add)) ∧
    (Doit (recorded brokenMatchHandler) (argsOnly ["all"])
        ((World.init : World (List (Option String)) String).withRecord [])).2.st.2 =
      [(Call.Iterator, none), (Call.Match (some "a"), none), (Call.Add (some "a"), none),
        (Call.Match (some "b"), some "filter failed")] ∧
    (Doit brokenMatchHandler (argsOnly ["all"]) World.init).1 = some "filter failed" ∧
    (Doit brokenMatchHandler (argsOnly ["all"]) World.init).2.trace =
      [Call.Iterator, Call.Match (some "a"), Call.Add (some "a"), Call.Match (some "b")] := by
  obtain ⟨_, _, _, new, hn, hp⟩ := C14_error_propagation brokenMatchHandler
    (argsOnly ["all"]) World.init []
  have hrec : (Doit (recorded brokenMatchHandler) (argsOnly ["all"])
        ((World.init : World (List (Option String)) String).withRecord [])).2.st.2 =
      [(Call.Iterator, none), (Call.Match (some "a"), none), (Call.Add (some "a"), none),
        (Call.Match (some "b"), some "filter failed")] := by decide
  have hnew : new = [(Call.Iterator, none), (Call.Match (some "a"), none),
      (Call.Add (some "a"), none), (Call.Match (some "b"), some "filter failed")] := by
    rw [hrec] at hn
    simpa using hn.symm
  have key := hp [(Call.Iterator, none), (Call.Match (some "a"), none),
    (Call.Add (some "a"), none)] (Call.Match (some "b")) "filter failed" [] (by rw [hnew]; rfl)
    (Or.inr (Or.inr (Or.inl rfl)))
  exact ⟨⟨rfl, Or.inr (Or.inr (Or.inl rfl))⟩, hrec, key.2.1, by decide⟩

/-! ## The basic handler -/

theorem getResult_snd {τ K V : Type} (fmtS : K → String) (key : K) (p : Option V)
    (this : _Cache τ K V) : (getResult fmtS key p this).2 = this := by
  simp only [getResult]; split <;> rfl

theorem getResult_fst {τ K V : Type} (fmtS : K → String) (key : K) (p : Option V)
    (this : _Cache τ K V) :
    (∃ v, (getResult fmtS key p this).1 = Except.ok (some v)) ∨
      (p = none ∧
        (getResult fmtS key p this).1 = Except.error ("'" ++ fmtS key ++ "' not found")) := by
  cases p with
  | none => exact Or.inr ⟨rfl, by simp [getResult]⟩
  | some v => exact Or.inl ⟨v, by simp [getResult]⟩

theorem Get_calls_of_fetch {τ K V : Type} [DecidableEq K] (c : Cacher τ K V)
    (fmtS : K → String) (this : _Cache τ K V) (key : K)
    (hk : ∀ m, this.entries = some m → m.lookup key = none) (hc : this.complete = false) :
    (this.Get c fmtS key).2.calls = this.calls ++ [SourceCall.Get key] := by
  cases hr : (c.Get this.cacher key).1 with
  | error err => rw [Get_fetch_error c fmtS this key err hk hc hr]
  | ok elem => rw [Get_fetch_ok c fmtS this key elem hk hc hr, getResult_snd]

theorem Get_result_cases {τ K V : Type} [DecidableEq K] (c : Cacher τ K V)
    (fmtS : K → String) (this : _Cache τ K V) (key : K) :
    (∃ v, (this.Get c fmtS key).1 = Except.ok (some v)) ∨
      (∃ err, (this.Get c fmtS key).1 = Except.error err) := by
  by_cases hk : ∀ m, this.entries = some m → m.lookup key = none
  · cases hc : this.complete with
    | true =>
      rw [Get_of_complete c fmtS this key hc hk]
      exact Or.inr ⟨_, rfl⟩
    | false =>
      cases hr : (c.Get this.cacher key).1 with
      | error err =>
        rw [Get_fetch_error c fmtS this key err hk hc hr]
        exact Or.inr ⟨err, rfl⟩
      | ok elem =>
        rw [Get_fetch_ok c fmtS this key elem hk hc hr]
        rcases getResult_fst fmtS key elem _ with h1 | ⟨_, h2⟩
        · exact Or.inl h1
        · exact Or.inr ⟨_, h2⟩
  · simp only [not_forall] at hk
    obtain ⟨m, hm, hne⟩ := hk
    obtain ⟨v, hv⟩ := Option.ne_none_iff_exists'.mp hne
    rw [Get_cached c fmtS this key m v hm hv]
    exact Or.inl ⟨v, rfl⟩

/-- C21: `Cache.Get` never succeeds with a nil element. For every cache state
and key, `Cache.Get` returns either a non-nil element and no error, or an
error (and then no element). In particular, when the cache is not complete,
holds no element for the key and the source's `Get` returns nil with no
error, `Cache.Get` issues that source call and returns the error
`'<key>' not found`; `complete` stays false; and the next `Cache.Get` on the
same key calls the source again. -/
theorem C21_get_never_nil {τ K V : Type} [DecidableEq K] (c : Cacher τ K V)
    (fmtS : K → String) (this : _Cache τ K V) (key : K) :
    ((∃ v, (this.Get c fmtS key).1 = Except.ok (some v)) ∨
      (∃ err, (this.Get c fmtS key).1 = Except.error err)) ∧
    (this.Get c fmtS key).1 ≠ Except.ok none ∧
    ((∀ m, this.entries = some m → m.lookup key = none) → this.complete = false →
      (c.Get this.cacher key).1 = Except.ok none →
      (this.Get c fmtS key).1 = Except.error ("'" ++ fmtS key ++ "' not found") ∧
      (this.Get c fmtS key).2.complete = false ∧
      (this.Get c fmtS key).2.calls = this.calls ++ [SourceCall.Get key] ∧
      ((this.Get c fmtS key).2.Get c fmtS key).2.calls =
        this.calls ++ [SourceCall.Get key, SourceCall.Get key]) := by
  have hcases := Get_result_cases c fmtS this key
  refine ⟨hcases, ?_, ?_⟩
  · intro h0
    rcases hcases with ⟨v, hv⟩ | ⟨err, herr⟩
    · rw [hv] at h0; cases h0
    · rw [herr] at h0; cases h0
  · intro hk hc hr
    have e1 : this.Get c fmtS key =
        (Except.error ("'" ++ fmtS key ++ "' not found"),
          { cacher := (c.Get this.cacher key).2, calls := this.calls ++ [SourceCall.Get key],
            entries := some (GoMap.insert (mapOrEmpty this.entries) key none),
            complete := false }) := by
      rw [Get_fetch_ok c fmtS this key none hk hc hr]
      simp [getResult]
    rw [e1]
    refine ⟨rfl, rfl, rfl, ?_⟩
    rw [Get_calls_of_fetch c fmtS _ key
      (fun m hm => by cases hm; exact GoMap.lookup_insert_self _ key none) rfl]
    simp

theorem C21_get_never_nil_witness :
    ((∀ m, (NewCache () : _Cache Unit String String).entries = some m → m.lookup "z" = none) ∧
      (NewCache () : _Cache Unit String String).complete = false ∧
      (xySource.Get (NewCache () : _Cache Unit String String).cacher "z").1 = Except.ok none) ∧
    ((NewCache () : _Cache Unit String String).Get xySource id "z").1 =
      Except.error "'z' not found" ∧
    ((NewCache () : _Cache Unit String String).Get xySource id "z").2.complete = false ∧
    (((NewCache () : _Cache Unit String String).Get xySource id "z").2.Get xySource id "z").2.calls
      = [SourceCall.Get "z", SourceCall.Get "z"] := by
  have key := (C21_get_never_nil xySource id (NewCache ()) "z").2.2
    (fun m hm => (by cases hm)) rfl rfl
  exact ⟨⟨fun m hm => (by cases hm), rfl, rfl⟩, key.1, key.2.1, key.2.2.2⟩

/-! ## Selection by a named option -/

theorem scanMode_first {σ E : Type} (h : Handler σ E) (opts : Options) (w : World σ E) :
    ∃ t, (scanMode h opts w).2.trace = w.trace ++ Call.Iterator :: t := by
  simp only [scanMode]
  split
  · exact first_after (extends_refl _)
  · split
    · exact first_after (scanArgs_extends h opts _ _)
    · exact first_after (extends_trans (extends_after (extends_refl _))
        (scanArgs_extends h opts _ _))

theorem directLoop_first {σ E : Type} (h : Handler σ E) (n : String) (ns : List String)
    (w : World σ E) :
    ∃ t, (directLoop h (n :: ns) w).2.trace = w.trace ++ Call.Get n :: t := by
  simp only [directLoop]
  split
  · exact first_after (extends_refl _)
  · split
    · exact first_after (extends_after (extends_refl _))
    · exact first_after (extends_after (directLoop_extends h ns _))

theorem doDedicatedFrom_reaches {σ E : Type} (h : Handler σ E) (opts : Options)
    (hne : opts.Arguments ≠ []) (ns : List String) :
    ∀ w : World σ E, ∃ pre c t,
      (doDedicatedFrom h opts ns w).2.trace = w.trace ++ (pre ++ c :: t) ∧
      (c.kind = Kind.Iterator ∨ c.kind = Kind.Get) := by
  induction ns with
  | nil =>
    intro w
    obtain ⟨n, rest, hargs⟩ := List.exists_cons_of_ne_nil hne
    obtain ⟨t, ht⟩ := directLoop_first h n rest w
    simp only [doDedicatedFrom, hargs]
    split
    · exact ⟨[], Call.Get n, t, by rw [ht]; simp, Or.inr rfl⟩
    · exact ⟨[], Call.Get n, t ++ [Call.Close, Call.Out], by simp [World.after, ht],
        Or.inr rfl⟩
  | cons n ns ih =>
    intro w
    simp only [doDedicatedFrom]
    split
    · obtain ⟨t, ht⟩ := scanMode_first h opts
        (w.after (Call.RequireScan n) (h.RequireScan w.st n).2)
      exact ⟨[Call.RequireScan n], Call.Iterator, t, by rw [ht]; simp [World.after],
        Or.inl rfl⟩
    · obtain ⟨pre, c, t, ht, hc⟩ := ih (w.after (Call.RequireScan n) (h.RequireScan w.st n).2)
      exact ⟨Call.RequireScan n :: pre, c, t, by rw [ht]; simp [World.after], hc⟩

theorem calls_pos_of_mem {E : Type} (pre t : List (Call E)) (c : Call E) (k : Kind)
    (hc : c.kind = k) : 1 ≤ calls k (pre ++ c :: t) := by
  rw [calls_append, calls_cons]
  simp [hc]
  omega

theorem DoitRaw_option {σ E : Type} (name_option : String) (h : Handler σ E)
    (opts : Options) (w : World σ E) (v : String)
    (hopt : opts.GetOptionValue name_option = some v) (hv : v ≠ "") :
    DoitRaw name_option h opts w = doDedicated h { opts with Arguments := [v] } w := by
  simp [DoitRaw, hopt, hv]

theorem DoitRaw_default {σ E : Type} (name_option : String) (h : Handler σ E)
    (opts : Options) (w : World σ E) (d : String)
    (hopt : opts.GetOptionValue name_option = none ∨ opts.GetOptionValue name_option = some "")
    (hd : (h.GetDefault w.st opts).1 = some d) (hne : d ≠ "") :
    DoitRaw name_option h opts w =
      doDedicated h { opts with Arguments := [d] }
        (w.after Call.GetDefault (h.GetDefault w.st opts).2) := by
  rcases hopt with h0 | h0 <;> simp [DoitRaw, h0, hd, hne]

theorem DoitRaw_nothing {σ E : Type} (name_option : String) (h : Handler σ E)
    (opts : Options) (w : World σ E)
    (hopt : opts.GetOptionValue name_option = none ∨ opts.GetOptionValue name_option = some "")
    (hd : (h.GetDefault w.st opts).1 = none ∨ (h.GetDefault w.st opts).1 = some "") :
    DoitRaw name_option h opts w =
      (some "no element selected", w.after Call.GetDefault (h.GetDefault w.st opts).2) := by
  rcases hopt with h0 | h0 <;> rcases hd with h1 | h1 <;> simp [DoitRaw, h0, h1]

theorem doDedicated_calls_get_or_iterator {σ E : Type} (h : Handler σ E) (opts : Options)
    (hne : opts.Arguments ≠ []) (w0 w : World σ E) (u : List (Call E))
    (hw : w.trace = w0.trace ++ u) :
    1 ≤ calls Kind.Get (issued w0 (doDedicated h opts w)) ∨
      1 ≤ calls Kind.Iterator (issued w0 (doDedicated h opts w)) := by
  obtain ⟨pre, c, t, ht, hc⟩ := doDedicatedFrom_reaches h opts hne opts.Arguments w
  have hi : issued w0 (doDedicated h opts w) = (u ++ pre) ++ c :: t :=
    issued_eq w0 _ _ (by rw [doDedicated, ht, hw]; simp)
  rw [hi]
  rcases hc with hc | hc
  · exact Or.inr (calls_pos_of_mem _ _ c _ hc)
  · exact Or.inl (calls_pos_of_mem _ _ c _ hc)

/-- C22: selection in `DoitRaw`. `DoitRaw` returns the error
`no element selected` without calling `Get`, `Iterator`, `Add`, `Close` or
`Out` if and only if the named option is absent or empty and `GetDefault`
returns no default or the empty string; its only call is then `GetDefault`.
Otherwise it is dedicated resolution on the one-element list `[name]`: the
option value when that is not empty (`GetDefault` is then not asked), else the
default. This holds for every name, the literal `all` included: the run is
`doDedicated`, it differs from `doAll`, and its first call on the name is
`RequireScan`. -/
theorem C22_DoitRaw_selection {σ E : Type} (name_option : String) (h : Handler σ E)
    (opts : Options) (w : World σ E) :
    (((DoitRaw name_option h opts w).1 = some "no element selected" ∧
        calls Kind.Get (issued w (DoitRaw name_option h opts w)) = 0 ∧
        calls Kind.Iterator (issued w (DoitRaw name_option h opts w)) = 0 ∧
        calls Kind.Add (issued w (DoitRaw name_option h opts w)) = 0 ∧
        calls Kind.Close (issued w (DoitRaw name_option h opts w)) = 0 ∧
        calls Kind.Out (issued w (DoitRaw name_option h opts w)) = 0) ↔
      ((opts.GetOptionValue name_option = none ∨ opts.GetOptionValue name_option = some "") ∧
        ((h.GetDefault w.st opts).1 = none ∨ (h.GetDefault w.st opts).1 = some ""))) ∧
    ((opts.GetOptionValue name_option = none ∨ opts.GetOptionValue name_option = some "") →
      ((h.GetDefault w.st opts).1 = none ∨ (h.GetDefault w.st opts).1 = some "") →
      issued w (DoitRaw name_option h opts w) = [Call.GetDefault]) ∧
    (∀ v, opts.GetOptionValue name_option = some v → v ≠ "" →
      DoitRaw name_option h opts w = doDedicated h { opts with Arguments := [v] } w ∧
      DoitRaw name_option h opts w ≠ doAll h { opts with Arguments := [v] } w ∧
      ∃ t, issued w (DoitRaw name_option h opts w) = Call.RequireScan v :: t) ∧
    (∀ d, (opts.GetOptionValue name_option = none ∨
        opts.GetOptionValue name_option = some "") →
      (h.GetDefault w.st opts).1 = some d → d ≠ "" →
      DoitRaw name_option h opts w =
        doDedicated h { opts with Arguments := [d] }
          (w.after Call.GetDefault (h.GetDefault w.st opts).2) ∧
      DoitRaw name_option h opts w ≠
        doAll h { opts with Arguments := [d] }
          (w.after Call.GetDefault (h.GetDefault w.st opts).2) ∧
      ∃ t, issued w (DoitRaw name_option h opts w) =
        Call.GetDefault :: Call.RequireScan d :: t) := by
  have hnothing : (opts.GetOptionValue name_option = none ∨
        opts.GetOptionValue name_option = some "") →
      ((h.GetDefault w.st opts).1 = none ∨ (h.GetDefault w.st opts).1 = some "") →
      issued w (DoitRaw name_option h opts w) = [Call.GetDefault] := by
    intro hopt hd
    rw [DoitRaw_nothing name_option h opts w hopt hd]
    exact issued_eq w _ _ rfl
  have hoption : ∀ v, opts.GetOptionValue name_option = some v → v ≠ "" →
      DoitRaw name_option h opts w = doDedicated h { opts with Arguments := [v] } w ∧
      DoitRaw name_option h opts w ≠ doAll h { opts with Arguments := [v] } w ∧
      ∃ t, issued w (DoitRaw name_option h opts w) = Call.RequireScan v :: t := by
    intro v hopt hv
    have e := DoitRaw_option name_option h opts w v hopt hv
    obtain ⟨t, ht⟩ := doDedicated_first h { opts with Arguments := [v] } w v [] rfl
    rw [e]
    exact ⟨rfl, fun h0 => doAll_ne_doDedicated h _ _ h0.symm, t, issued_eq w _ _ ht⟩
  have hdefault : ∀ d, (opts.GetOptionValue name_option = none ∨
        opts.GetOptionValue name_option = some "") →
      (h.GetDefault w.st opts).1 = some d → d ≠ "" →
      DoitRaw name_option h opts w =
        doDedicated h { opts with Arguments := [d] }
          (w.after Call.GetDefault (h.GetDefault w.st opts).2) ∧
      DoitRaw name_option h opts w ≠
        doAll h { opts with Arguments := [d] }
          (w.after Call.GetDefault (h.GetDefault w.st opts).2) ∧
      ∃ t, issued w (DoitRaw name_option h opts w) =
        Call.GetDefault :: Call.RequireScan d :: t := by
    intro d hopt hd hne
    have e := DoitRaw_default name_option h opts w d hopt hd hne
    obtain ⟨t, ht⟩ := doDedicated_first h { opts with Arguments := [d] }
      (w.after Call.GetDefault (h.GetDefault w.st opts).2) d [] rfl
    rw [e]
    exact ⟨rfl, fun h0 => doAll_ne_doDedicated h _ _ h0.symm, t,
      issued_eq w _ _ (by rw [ht]; simp [World.after])⟩
  refine ⟨?_, hnothing, hoption, hdefault⟩
  constructor
  · rintro ⟨_, hget, hiter, _, _, _⟩
    by_contra hcond
    have hreach : 1 ≤ calls Kind.Get (issued w (DoitRaw name_option h opts w)) ∨
        1 ≤ calls Kind.Iterator (issued w (DoitRaw name_option h opts w)) := by
      cases hopt : opts.GetOptionValue name_option with
      | some v =>
        by_cases hv : v = ""
        · have hopt2 : opts.GetOptionValue name_option = none ∨
              opts.GetOptionValue name_option = some "" := Or.inr (by rw [hopt, hv])
          cases hd : (h.GetDefault w.st opts).1 with
          | none => exact absurd ⟨hopt2, Or.inl hd⟩ hcond
          | some d =>
            by_cases hne : d = ""
            · exact absurd ⟨hopt2, Or.inr (by rw [hd, hne])⟩ hcond
            · rw [DoitRaw_default name_option h opts w d hopt2 hd hne]
              exact doDedicated_calls_get_or_iterator h _ (by simp) w _ [Call.GetDefault] rfl
        · rw [DoitRaw_option name_option h opts w v hopt hv]
          exact doDedicated_calls_get_or_iterator h _ (by simp) w w [] (by simp)
      | none =>
        have hopt2 : opts.GetOptionValue name_option = none ∨
            opts.GetOptionValue name_option = some "" := Or.inl hopt
        cases hd : (h.GetDefault w.st opts).1 with
        | none => exact absurd ⟨hopt2, Or.inl hd⟩ hcond
        | some d =>
          by_cases hne : d = ""
          · exact absurd ⟨hopt2, Or.inr (by rw [hd, hne])⟩ hcond
          · rw [DoitRaw_default name_option h opts w d hopt2 hd hne]
            exact doDedicated_calls_get_or_iterator h _ (by simp) w _ [Call.GetDefault] rfl
    rcases hreach with h1 | h1
    · rw [hget] at h1; exact absurd h1 (by decide)
    · rw [hiter] at h1; exact absurd h1 (by decide)
  · rintro ⟨hopt, hd⟩
    have hi := hnothing hopt hd
    rw [hi]
    rw [DoitRaw_nothing name_option h opts w hopt hd]
    refine ⟨rfl, ?_, ?_, ?_, ?_, ?_⟩ <;> simp [calls_cons, calls_nil, Call.kind]

theorem C22_DoitRaw_selection_witness :
    (nameAllOptions.GetOptionValue "name" = some "all" ∧ "all" ≠ "" ∧
      ((argsOnly []).GetOptionValue "name" = none ∨
        (argsOnly []).GetOptionValue "name" = some "") ∧
      ((echoHandler.GetDefault (World.init : World (List (Option String)) String).st
          (argsOnly [])).1 = none ∨
        (echoHandler.GetDefault (World.init : World (List (Option String)) String).st
          (argsOnly [])).1 = some "")) ∧
    (DoitRaw "name" echoHandler nameAllOptions World.init =
        doDedicated echoHandler { nameAllOptions with Arguments := ["all"] } World.init ∧
      DoitRaw "name" echoHandler nameAllOptions World.init ≠
        doAll echoHandler { nameAllOptions with Arguments := ["all"] } World.init ∧
      issued World.init (DoitRaw "name" echoHandler nameAllOptions World.init) =
        [Call.RequireScan "all", Call.Get "all", Call.Add (some "all"), Call.Close,
          Call.Out]) ∧
    ((DoitRaw "name" echoHandler (argsOnly []) World.init).1 = some "no element selected" ∧
      issued World.init (DoitRaw "name" echoHandler (argsOnly []) World.init) =
        [Call.GetDefault]) := by
  have k1 := (C22_DoitRaw_selection "name" echoHandler nameAllOptions World.init).2.2.1
    "all" rfl (by decide)
  have k2 := (C22_DoitRaw_selection "name" echoHandler (argsOnly []) World.init).1.mpr
    ⟨Or.inl rfl, Or.inl rfl⟩
  have k3 := (C22_DoitRaw_selection "name" echoHandler (argsOnly []) World.init).2.1
    (Or.inl rfl) (Or.inl rfl)
  exact ⟨⟨rfl, by decide, Or.inl rfl, Or.inl rfl⟩, ⟨k1.1, k1.2.1, by decide⟩, ⟨k2.1, k3⟩⟩

end Gex
